import Mathlib

/-!
# Verification development for the Mesos master validation and libprocess benchmarks

Shallow embedding of

* `3rdparty/libprocess/src/tests/benchmarks.cpp` (the ping/pong processes),
* the worker-pool scheduler of the runtime, modelled from the specification,
* `src/master/validation.cpp` (call, resource, executor, task, task group and
  offer validation), and
* `Shared<T>` of libprocess, modelled after `shared_tests.cpp`,

followed by the theorems that settle the specification claims.

Conventions.  A process handler is a pure function from the process state and
the event to the new state and the list of `Effect`s it performs, in program
order.  Mailboxes are FIFO lists.  An execution is a list of scheduling choices
(which process handles the head of its mailbox next).
-/

set_option autoImplicit false

namespace Benchmarks

/-! ## Messages and effects -/

/-- Process identifier (`process::UPID`), identified with its string form. -/
structure UPID where
  id : String
  deriving DecidableEq, Repr

/-- The part of `process::Message` the handlers read: sender, name and body. -/
structure Message where
  sender : UPID
  name : String
  body : String
  deriving DecidableEq, Repr

/-- What a handler does besides updating its own fields. -/
inductive Effect where
  /-- `send(to, name, data, length)` -/
  | send (dest : UPID) (name : String) (body : String)
  /-- `link(to)` -/
  | link (dest : UPID)
  /-- `latch->decrement()`, tagged with the value of `received` at the call -/
  | decrement (received : Int)
  /-- `duration->set(...)`, tagged with the value of `responses` at the call -/
  | set (responses : Nat)
  deriving DecidableEq, Repr

/-! ## `Destination` and `Client` (throughput benchmark) -/

/-- `Destination::visit(const MessageEvent&)`. -/
def Destination.visit (event : Message) : List Effect :=
  if event.name = "ping" then [Effect.send event.sender "pong" ""] else []

/-- Fields of `class Client`; the source field `repeat` is `repeatN` here. -/
structure Client where
  destination : UPID
  repeatN : Int
  sent : Int
  received : Int
  deriving DecidableEq, Repr

/-- The constructor `Client(destination, latch, repeat)` with the in-class
initialisers `sent = 0L`, `received = 0L`. -/
def Client.new (destination : UPID) (repeatN : Int) : Client :=
  { destination := destination, repeatN := repeatN, sent := 0, received := 0 }

/-- The body of the loop `for (long l = 0; l < std::min(1000L, repeat); l++)`
run `n` times: each iteration sends one "ping" and increments `sent`. -/
def Client.runLoop : Nat → Client → Client × List Effect
  | 0, c => (c, [])
  | n + 1, c =>
    let r := Client.runLoop n { c with sent := c.sent + 1 }
    (r.1, Effect.send c.destination "ping" "" :: r.2)

/-- `Client::visit(const MessageEvent&)`. -/
def Client.visit (c : Client) (event : Message) : Client × List Effect :=
  if event.name = "pong" then
    let c1 := { c with received := c.received + 1 }
    if c1.sent < c1.repeatN then
      ({ c1 with sent := c1.sent + 1 }, [Effect.send c1.destination "ping" ""])
    else if c1.received ≥ c1.repeatN then
      (c1, [Effect.decrement c1.received])
    else
      (c1, [])
  else if event.name = "run" then
    Client.runLoop (min 1000 c.repeatN).toNat c
  else
    (c, [])

/-! ### The two-process system of the throughput benchmark -/

/-- The processes of one client/destination pair. -/
inductive Pid where
  | client
  | destination
  deriving DecidableEq, Repr

/-- Address of the client process. -/
def clientPid : UPID := ⟨"client"⟩

/-- Address of the destination process. -/
def destinationPid : UPID := ⟨"destination"⟩

/-- State of the pair: the client's fields, both mailboxes, and counters of
what has happened so far. -/
structure Sys where
  client : Client
  clientBox : List Message
  destinationBox : List Message
  /-- "ping" messages sent by the client -/
  pingsSent : Nat
  /-- "ping" events handled by the destination -/
  pingsReceived : Nat
  /-- "pong" messages sent by the destination -/
  pongsSent : Nat
  /-- "pong" events handled by the client -/
  pongsReceived : Nat
  /-- one entry per `latch->decrement()`: the value of `received` at the call -/
  latch : List Int
  deriving DecidableEq, Repr

/-- Carry out one effect performed by process `self`. -/
def Sys.perform (self : Pid) (s : Sys) : Effect → Sys
  | Effect.send dest name body =>
    let m : Message :=
      { sender := (match self with
          | Pid.client => clientPid
          | Pid.destination => destinationPid),
        name := name, body := body }
    let s1 :=
      match self with
      | Pid.client =>
        if name = "ping" then { s with pingsSent := s.pingsSent + 1 } else s
      | Pid.destination =>
        if name = "pong" then { s with pongsSent := s.pongsSent + 1 } else s
    if dest = clientPid then { s1 with clientBox := s1.clientBox ++ [m] }
    else if dest = destinationPid then
      { s1 with destinationBox := s1.destinationBox ++ [m] }
    else s1
  | Effect.decrement r => { s with latch := s.latch ++ [r] }
  | Effect.link _ => s
  | Effect.set _ => s

/-- Let process `p` handle the event at the head of its mailbox; `none` when the
mailbox is empty. -/
def Sys.deliver (s : Sys) : Pid → Option Sys
  | Pid.client =>
    match s.clientBox with
    | [] => none
    | event :: rest =>
      let r := s.client.visit event
      let s1 :=
        { s with
          client := r.1, clientBox := rest,
          pongsReceived := if event.name = "pong" then s.pongsReceived + 1
                           else s.pongsReceived }
      some (r.2.foldl (Sys.perform Pid.client) s1)
  | Pid.destination =>
    match s.destinationBox with
    | [] => none
    | event :: rest =>
      let s1 :=
        { s with
          destinationBox := rest,
          pingsReceived := if event.name = "ping" then s.pingsReceived + 1
                           else s.pingsReceived }
      some ((Destination.visit event).foldl (Sys.perform Pid.destination) s1)

/-- Run a schedule; `none` when it asks an idle process to run. -/
def Sys.exec (s : Sys) : List Pid → Option Sys
  | [] => some s
  | p :: ps =>
    match s.deliver p with
    | none => none
    | some s1 => Sys.exec s1 ps

/-- The benchmark after `post(client->self(), "run")`: a new client, one "run"
message in its mailbox, nothing else in flight. -/
def Sys.init (repeatN : Int) : Sys :=
  { client := Client.new destinationPid repeatN,
    clientBox := [{ sender := ⟨""⟩, name := "run", body := "" }],
    destinationBox := [],
    pingsSent := 0, pingsReceived := 0, pongsSent := 0, pongsReceived := 0,
    latch := [] }

/-- No message is waiting in either mailbox. -/
def Sys.quiescent (s : Sys) : Bool :=
  s.clientBox.isEmpty && s.destinationBox.isEmpty

/-! ## `ClientProcess` and `ServerProcess` (client/server benchmark) -/

/-- Number of values of a `size_t`: arithmetic on the counters is modulo this. -/
def SIZE_MODULUS : Nat := 18446744073709551616

/-- The part of `http::Request` that `run` reads: the query of the URL, a map
from parameter names to values, kept as an association list. -/
structure Request where
  query : List (String × String)
  deriving DecidableEq, Repr

/-- `request.url.query.get(key)`. -/
def Request.get (request : Request) (key : String) : Option String :=
  request.query.lookup key

/-- The functions of stout used by `ClientProcess::run`, taken as parameters,
and the iteration order of the `hashmap` of parameters. -/
structure Library where
  /-- `Bytes::parse(s)` followed by `.bytes()`; `Except.error` is `Try::error` -/
  parseBytes : String → Except String Nat
  /-- `numify<size_t>(s)` -/
  numify : String → Except String Nat
  /-- the order in which `foreachpair` visits the four keys of `parameters` -/
  order : List String

/-- What the `Future<http::Response>` returned by `run` is at the time `run`
returns. -/
inductive RunResult where
  /-- a ready future holding `http::BadRequest(body)` -/
  | BadRequest (body : String)
  /-- the future `_run().then(...)`: pending, it becomes `http::OK` with the
  elapsed time when the promise made by this `_run` is set -/
  | pending
  deriving DecidableEq, Repr

/-- Fields of `class ClientProcess`.  `duration` is `true` when the
`Owned<Promise<Duration>>` holds a promise (`duration.get() != nullptr`).  The
`Stopwatch` measures real time and is left out. -/
structure ClientProcess where
  server : UPID
  duration : Bool
  message : String
  requests : Nat
  responses : Nat
  totalRequests : Nat
  concurrency : Nat
  deriving DecidableEq, Repr

/-- The constructor `ClientProcess()`: the four counters are zero, the other
fields are default-constructed. -/
def ClientProcess.new : ClientProcess :=
  { server := ⟨""⟩, duration := false, message := "",
    requests := 0, responses := 0, totalRequests := 0, concurrency := 0 }

/-- The loop `while (requests < concurrency) { send(...); ++requests; }` of
`_run`, with a bound on the number of iterations. -/
def ClientProcess.runLoop : Nat → ClientProcess → ClientProcess × List Effect
  | 0, p => (p, [])
  | n + 1, p =>
    if p.requests < p.concurrency then
      let r := ClientProcess.runLoop n
        { p with requests := (p.requests + 1) % SIZE_MODULUS }
      (r.1, Effect.send p.server "ping" p.message :: r.2)
    else (p, [])

/-- `ClientProcess::_run()`.  The loop runs at most `concurrency - requests`
times.  The returned future `duration->future()` is pending. -/
def ClientProcess._run (p : ClientProcess) : ClientProcess × List Effect :=
  ClientProcess.runLoop (p.concurrency - p.requests) { p with duration := true }

/-- The loop `foreachpair (parameter, value, parameters)` of `run`: the first
key, in iteration order, whose value is none. -/
def ClientProcess.missing (lib : Library) (request : Request) : Option String :=
  lib.order.find? (fun parameter => (request.get parameter).isNone)

/-- `ClientProcess::run(const http::Request&)`. -/
def ClientProcess.run (lib : Library) (p : ClientProcess) (request : Request) :
    ClientProcess × List Effect × RunResult :=
  if p.duration then
    (p, [], RunResult.BadRequest "A run is already in progress")
  else
    match ClientProcess.missing lib request with
    | some parameter =>
      (p, [], RunResult.BadRequest ("Missing '" ++ parameter ++ "' parameter"))
    | none =>
      let p1 := { p with server := ⟨(request.get "server").getD ""⟩ }
      let link := Effect.link p1.server
      match lib.parseBytes ((request.get "messageSize").getD "") with
      | Except.error e =>
        (p1, [link], RunResult.BadRequest ("Invalid 'messageSize': " ++ e))
      | Except.ok messageSize =>
        let p2 := { p1 with message := String.mk (List.replicate messageSize '1') }
        match lib.numify ((request.get "requests").getD "") with
        | Except.error e =>
          (p2, [link], RunResult.BadRequest ("Invalid 'requests': " ++ e))
        | Except.ok n =>
          let p3 := { p2 with totalRequests := n }
          match lib.numify ((request.get "concurrency").getD "") with
          | Except.error e =>
            (p3, [link], RunResult.BadRequest ("Invalid 'concurrency': " ++ e))
          | Except.ok c =>
            let p4 := { p3 with concurrency := c }
            let p5 :=
              if p4.concurrency > p4.totalRequests then
                { p4 with concurrency := p4.totalRequests }
              else p4
            let r := p5._run
            (r.1, link :: r.2, RunResult.pending)

/-- `ClientProcess::pong(from, body)`.  `duration->set` on an empty `Owned`
fails its null check and aborts the program: that is `Except.error`. -/
def ClientProcess.pong (p : ClientProcess) (_sender : UPID) (_body : String) :
    Except String (ClientProcess × List Effect) :=
  let p1 := { p with responses := (p.responses + 1) % SIZE_MODULUS }
  if p1.responses = p1.totalRequests then
    if p1.duration then
      Except.ok ({ p1 with duration := false }, [Effect.set p1.responses])
    else Except.error "Owned::operator->: null"
  else if p1.requests < p1.totalRequests then
    Except.ok ({ p1 with requests := (p1.requests + 1) % SIZE_MODULUS },
      [Effect.send p1.server "ping" p1.message])
  else Except.ok (p1, [])

/-- Fields of `class ServerProcess`: the `hashset<UPID> links`. -/
structure ServerProcess where
  links : List UPID
  deriving DecidableEq, Repr

/-- A new `ServerProcess`: no links. -/
def ServerProcess.new : ServerProcess := { links := [] }

/-- `ServerProcess::ping(from, body)`. -/
def ServerProcess.ping (p : ServerProcess) (sender : UPID) (body : String) :
    ServerProcess × List Effect :=
  let r : ServerProcess × List Effect :=
    if !p.links.contains sender then
      ({ links := sender :: p.links }, [Effect.link sender])
    else (p, [])
  (r.1, r.2 ++ [Effect.send sender "pong" body])

/-- Handle a list of pings one after the other; the result lists, for each
ping, the effects of its handler. -/
def ServerProcess.pings (p : ServerProcess) :
    List (UPID × String) → ServerProcess × List (List Effect)
  | [] => (p, [])
  | (sender, body) :: rest =>
    let r := p.ping sender body
    let t := ServerProcess.pings r.1 rest
    (t.1, r.2 :: t.2)

/-! ### The client/server system -/

/-- Address of the server process. -/
def serverPid : UPID := ⟨"server"⟩

/-- An event in the mailbox of a `ClientProcess`: a request routed to `/run`, or
a message. -/
inductive ClientEvent where
  | http (request : Request)
  | message (m : Message)
  deriving DecidableEq, Repr

/-- One `ClientProcess`, one `ServerProcess`, their mailboxes, and a record of
what has happened. -/
structure CSys where
  client : ClientProcess
  server : ServerProcess
  clientBox : List ClientEvent
  serverBox : List Message
  /-- "ping" messages sent by the client -/
  pingsSent : Nat
  /-- "ping" events handled by the server -/
  pingsReceived : Nat
  /-- "pong" messages sent by the server -/
  pongsSent : Nat
  /-- "pong" events handled by the client -/
  pongsReceived : Nat
  /-- one entry per `duration->set(...)`: how many pongs the client had handled,
  the current one included -/
  sets : List Nat
  /-- the results of the `/run` requests handled so far -/
  results : List RunResult
  /-- the client has aborted on a null `duration` -/
  aborted : Bool
  deriving DecidableEq, Repr

/-- Carry out one effect of the client. -/
def CSys.performClient (s : CSys) : Effect → CSys
  | Effect.send dest name body =>
    let s1 := if name = "ping" then { s with pingsSent := s.pingsSent + 1 } else s
    if dest = serverPid then
      { s1 with serverBox := s1.serverBox ++ [⟨clientPid, name, body⟩] }
    else if dest = clientPid then
      { s1 with clientBox := s1.clientBox ++ [ClientEvent.message ⟨clientPid, name, body⟩] }
    else s1
  | Effect.set _ => { s with sets := s.sets ++ [s.pongsReceived] }
  | Effect.link _ => s
  | Effect.decrement _ => s

/-- Carry out one effect of the server. -/
def CSys.performServer (s : CSys) : Effect → CSys
  | Effect.send dest name body =>
    let s1 := if name = "pong" then { s with pongsSent := s.pongsSent + 1 } else s
    if dest = clientPid then
      { s1 with clientBox := s1.clientBox ++ [ClientEvent.message ⟨serverPid, name, body⟩] }
    else if dest = serverPid then
      { s1 with serverBox := s1.serverBox ++ [⟨serverPid, name, body⟩] }
    else s1
  | _ => s

/-- Let a process handle the head of its mailbox.  The client has the handler
`pong` installed for "pong" and `run` routed at `/run`; the server has `ping`
installed for "ping"; messages with other names are dropped.  `none` when the
mailbox is empty or the client has aborted. -/
def CSys.deliver (lib : Library) (s : CSys) : Pid → Option CSys
  | Pid.client =>
    if s.aborted then none else
    match s.clientBox with
    | [] => none
    | ClientEvent.http request :: rest =>
      let r := s.client.run lib request
      let s1 := { s with client := r.1, clientBox := rest,
                         results := s.results ++ [r.2.2] }
      some (r.2.1.foldl CSys.performClient s1)
    | ClientEvent.message m :: rest =>
      if m.name = "pong" then
        match s.client.pong m.sender m.body with
        | Except.error _ => some { s with clientBox := rest, aborted := true }
        | Except.ok r =>
          let s1 := { s with client := r.1, clientBox := rest,
                             pongsReceived := s.pongsReceived + 1 }
          some (r.2.foldl CSys.performClient s1)
      else some { s with clientBox := rest }
  | Pid.destination =>
    match s.serverBox with
    | [] => none
    | m :: rest =>
      if m.name = "ping" then
        let r := s.server.ping m.sender m.body
        let s1 := { s with server := r.1, serverBox := rest,
                           pingsReceived := s.pingsReceived + 1 }
        some (r.2.foldl CSys.performServer s1)
      else some { s with serverBox := rest }

/-- Run a schedule (`Pid.destination` stands for the server); `none` when it
asks a process with an empty mailbox to run. -/
def CSys.exec (lib : Library) (s : CSys) : List Pid → Option CSys
  | [] => some s
  | p :: ps =>
    match s.deliver lib p with
    | none => none
    | some s1 => CSys.exec lib s1 ps

/-- An HTTP request for `/run` arrives at the client. -/
def CSys.request (s : CSys) (request : Request) : CSys :=
  { s with clientBox := s.clientBox ++ [ClientEvent.http request] }

/-- A newly constructed client and server, nothing in flight. -/
def CSys.init : CSys :=
  { client := ClientProcess.new, server := ServerProcess.new,
    clientBox := [], serverBox := [],
    pingsSent := 0, pingsReceived := 0, pongsSent := 0, pongsReceived := 0,
    sets := [], results := [], aborted := false }

/-- No event is waiting in either mailbox. -/
def CSys.quiescent (s : CSys) : Bool :=
  s.clientBox.isEmpty && s.serverBox.isEmpty

/-- The query of the benchmark: `server`, `requests`, `concurrency` and
`messageSize`. -/
def runRequest (server requests concurrency messageSize : String) : Request :=
  { query := [("server", server), ("requests", requests),
              ("concurrency", concurrency), ("messageSize", messageSize)] }

end Benchmarks

/-! ## The worker-pool scheduler -/

namespace Scheduler

/-- Modelled from the spec: the identifier of a process of the scheduler of
libprocess (process.cpp), which is not embedded here. -/
abbrev ProcessId := Nat

/-- Modelled from the spec: the identifier of a worker thread of the pool. -/
abbrev WorkerId := Nat

/-- Modelled from the spec: an event of a mailbox; its content plays no role
for scheduling. -/
abbrev Event := Nat

/-- Modelled from the spec: what a worker thread of the pool of the scheduler of
libprocess (process.cpp) is doing (sections 4.2 and 5).  A worker is in the
pool, or it drains the mailbox of one process: between two events, or executing
the handler of the event it dequeued. -/
inductive Worker where
  | idle
  | draining (p : ProcessId)
  | executing (p : ProcessId) (e : Event)
  deriving DecidableEq, Repr

/-- Modelled from the spec: the worker holds the flag of `p`, that is, it drains
the mailbox of `p` (between events or in a handler). -/
def Worker.on (w : Worker) (p : ProcessId) : Bool :=
  match w with
  | Worker.idle => false
  | Worker.draining q => q = p
  | Worker.executing q _ => q = p

/-- Modelled from the spec: the worker is executing handler code of `p`. -/
def Worker.executes (w : Worker) (p : ProcessId) : Bool :=
  match w with
  | Worker.executing q _ => q = p
  | _ => false

/-- Modelled from the spec: the state of the scheduler (sections 4.2 and 5): the
mailbox of every process, its exclusive "currently running" flag, the queue of
scheduled "run" tasks, and the state of every worker. -/
structure State where
  mailbox : ProcessId → List Event
  running : ProcessId → Bool
  runq : List ProcessId
  worker : WorkerId → Worker

/-- Modelled from the spec: the atomic steps of the scheduler (sections 4.2 and
5). -/
inductive Action where
  /-- an event is enqueued onto the mailbox of `p` -/
  | enqueue (p : ProcessId) (e : Event)
  /-- idle worker `w` takes the next "run" task and tries to set the flag -/
  | acquire (w : WorkerId)
  /-- worker `w` dequeues the next event of the process it drains -/
  | dequeue (w : WorkerId)
  /-- the handler executed by worker `w` returns -/
  | finish (w : WorkerId)
  /-- worker `w` finds the mailbox empty, clears the flag, returns to the pool -/
  | release (w : WorkerId)
  deriving DecidableEq, Repr

/-- Modelled from the spec: one atomic step of the scheduler (sections 4.2 and
5), `none` when the step is not enabled.  Enqueueing the first event of an idle
process schedules a "run" task; a worker that takes a task sets the flag unless
it is already set (then it drops the task); only the worker that set the flag
dequeues; the flag is cleared only when the mailbox is empty. -/
def State.step (workers : Nat) (s : State) : Action → Option State
  | Action.enqueue p e =>
    some { s with
      mailbox := Function.update s.mailbox p (s.mailbox p ++ [e]),
      runq := if (s.mailbox p).isEmpty && !s.running p then s.runq ++ [p]
              else s.runq }
  | Action.acquire w =>
    if w < workers then
      match s.worker w, s.runq with
      | Worker.idle, p :: rest =>
        if s.running p then some { s with runq := rest }
        else some { s with
          runq := rest,
          running := Function.update s.running p true,
          worker := Function.update s.worker w (Worker.draining p) }
      | _, _ => none
    else none
  | Action.dequeue w =>
    match s.worker w with
    | Worker.draining p =>
      match s.mailbox p with
      | [] => none
      | e :: rest => some { s with
          mailbox := Function.update s.mailbox p rest,
          worker := Function.update s.worker w (Worker.executing p e) }
    | _ => none
  | Action.finish w =>
    match s.worker w with
    | Worker.executing p _ => some { s with
        worker := Function.update s.worker w (Worker.draining p) }
    | _ => none
  | Action.release w =>
    match s.worker w with
    | Worker.draining p =>
      if (s.mailbox p).isEmpty then some { s with
        running := Function.update s.running p false,
        worker := Function.update s.worker w Worker.idle }
      else none
    | _ => none

/-- Modelled from the spec: the scheduler takes a list of steps, one after the
other. -/
def State.run (workers : Nat) (s : State) : List Action → Option State
  | [] => some s
  | a :: rest =>
    match s.step workers a with
    | none => none
    | some s1 => State.run workers s1 rest

/-- Modelled from the spec: the initial state of the scheduler: all mailboxes
empty, no flag set, every worker in the pool. -/
def State.init : State :=
  { mailbox := fun _ => [], running := fun _ => false, runq := [],
    worker := fun _ => Worker.idle }

end Scheduler

/-! ## `src/master/validation.cpp` -/

namespace validation

/-- `Error` of stout: an error message.  `Option Error` is `Option<Error>`. -/
structure Error where
  message : String
  deriving DecidableEq, Repr

/-! ### Protobuf messages

Only the fields that validation.cpp reads are kept; `rest` stands for the other
fields of a message.  An `optional` field is an `Option` (`has_x()` is
`isSome`). -/

/-- `FrameworkID`. -/
structure FrameworkID where
  value : String
  deriving DecidableEq, Repr

/-- `ExecutorID`. -/
structure ExecutorID where
  value : String
  deriving DecidableEq, Repr

/-- `TaskID`. -/
structure TaskID where
  value : String
  deriving DecidableEq, Repr

/-- `Volume.Mode`. -/
inductive VolumeMode where
  | RW
  | RO
  deriving DecidableEq, Repr

/-- `Volume`. -/
structure Volume where
  mode : VolumeMode
  host_path : Option String
  rest : String
  deriving DecidableEq, Repr

/-- `Resource.DiskInfo.Persistence`. -/
structure Persistence where
  id : String
  rest : String
  deriving DecidableEq, Repr

/-- `Resource.DiskInfo`; `has_source` is `has_source()`. -/
structure DiskInfo where
  persistence : Option Persistence
  volume : Option Volume
  has_source : Bool
  deriving DecidableEq, Repr

/-- `Resource`: `role`, `disk`, and the rest of the message (name, value,
reservation, revocable, shared), which validation.cpp reads only through
`Resources`. -/
structure Resource where
  role : String
  disk : Option DiskInfo
  rest : String
  deriving DecidableEq, Repr

/-- `CommandInfo`; no field is read. -/
structure CommandInfo where
  rest : String
  deriving DecidableEq, Repr

/-- `ContainerInfo.Type`. -/
inductive ContainerType where
  | DOCKER
  | MESOS
  deriving DecidableEq, Repr

/-- `ContainerInfo`; `network_infos` is the number of entries of the repeated
field. -/
structure ContainerInfo where
  type : ContainerType
  network_infos : Nat
  rest : String
  deriving DecidableEq, Repr

/-- `DurationInfo`: a signed 64-bit number of nanoseconds. -/
structure DurationInfo where
  nanoseconds : Int
  deriving DecidableEq, Repr

/-- `ExecutorInfo.Type`. -/
inductive ExecutorType where
  | UNKNOWN
  | DEFAULT
  | CUSTOM
  deriving DecidableEq, Repr

/-- `ExecutorInfo`; `type?` is the optional field `type`. -/
structure ExecutorInfo where
  type? : Option ExecutorType
  executor_id : ExecutorID
  framework_id : Option FrameworkID
  command : Option CommandInfo
  container : Option ContainerInfo
  resources : List Resource
  shutdown_grace_period : Option DurationInfo
  rest : String
  deriving DecidableEq, Repr

/-- `executor.has_type()`. -/
def ExecutorInfo.has_type (executor : ExecutorInfo) : Bool :=
  executor.type?.isSome

/-- `executor.type()`: the value of the field, and the first value of the
enumeration, `UNKNOWN`, when the field is not set. -/
def ExecutorInfo.type (executor : ExecutorInfo) : ExecutorType :=
  executor.type?.getD ExecutorType.UNKNOWN

/-- `executor.has_command()`. -/
def ExecutorInfo.has_command (executor : ExecutorInfo) : Bool :=
  executor.command.isSome

/-- `TaskInfo`. -/
structure TaskInfo where
  task_id : TaskID
  resources : List Resource
  executor : Option ExecutorInfo
  command : Option CommandInfo
  rest : String
  deriving DecidableEq, Repr

/-- `task.has_executor()`. -/
def TaskInfo.has_executor (task : TaskInfo) : Bool :=
  task.executor.isSome

/-- `task.has_command()`. -/
def TaskInfo.has_command (task : TaskInfo) : Bool :=
  task.command.isSome

/-- `FrameworkInfo`. -/
structure FrameworkInfo where
  id : Option FrameworkID
  principal : Option String
  rest : String
  deriving DecidableEq, Repr

/-- The accessor of an optional `FrameworkID` field: the value of the field, and
the default instance, whose `value` is empty, when the field is not set. -/
def FrameworkID.get (field : Option FrameworkID) : FrameworkID :=
  field.getD { value := "" }

/-- The master's `Framework`: what validation reads of it. -/
structure Framework where
  id : FrameworkID
  deriving DecidableEq, Repr

/-- The master's `Slave`: the `executors` map, from framework to executor id to
`ExecutorInfo`, as association lists. -/
structure Slave where
  executors : List (FrameworkID × List (ExecutorID × ExecutorInfo))
  deriving DecidableEq, Repr

/-- `slave->executors.at(frameworkId).at(executorId)`, `none` when a key is
missing. -/
def Slave.executorAt (slave : Slave) (frameworkId : FrameworkID)
    (executorId : ExecutorID) : Option ExecutorInfo :=
  match slave.executors.lookup frameworkId with
  | none => none
  | some m => m.lookup executorId

/-- `Slave::hasExecutor(frameworkId, executorId)` of master.hpp: both keys are
in `executors`. -/
def Slave.hasExecutor (slave : Slave) (frameworkId : FrameworkID)
    (executorId : ExecutorID) : Bool :=
  (slave.executorAt frameworkId executorId).isSome

/-! ### Code used by validation.cpp that is taken as a parameter -/

/-- The operations of `class Resources` (common/resources.cpp) that
validation.cpp uses, over a type `R` of resource collections. -/
structure ResourcesOps (R : Type) where
  /-- `Resources::validate(resources)` -/
  validate : List Resource → Option Error
  /-- `Resources::isRevocable(resource)` -/
  isRevocable : Resource → Bool
  /-- `Resources::isUnreserved(resource)` -/
  isUnreserved : Resource → Bool
  /-- `Resources::isDynamicallyReserved(resource)` -/
  isDynamicallyReserved : Resource → Bool
  /-- the converting constructor `Resources(const RepeatedPtrField<Resource>&)` -/
  ofList : List Resource → R
  /-- the conversion to `RepeatedPtrField<Resource>`, also the iteration order -/
  toList : R → List Resource
  /-- `operator+=` -/
  add : R → R → R
  /-- `left.contains(right)` -/
  contains : R → R → Bool
  /-- `operator==` -/
  eq : R → R → Bool
  /-- `empty()` -/
  empty : R → Bool
  /-- `persistentVolumes()` -/
  persistentVolumes : R → R
  /-- `revocable()` -/
  revocable : R → R
  /-- `shared()` -/
  shared : R → R
  /-- `names()`, in the order of the `std::set` -/
  names : R → List String
  /-- `get(name)` -/
  get : R → String → R
  /-- `static_cast<long long>(gpus().getOrElse(0.0) * 1000.0)` -/
  gpusTimes1000 : R → Int
  /-- `stringify(resources)` -/
  stringify : R → String
  /-- `stringify(resource)` -/
  stringifyResource : Resource → String

/-- The functions used by validation.cpp that are taken as parameters: `class
Resources`, and functions of type_utils and stout. -/
structure Externals (R : Type) where
  /-- `class Resources` -/
  res : ResourcesOps R
  /-- `operator==` on `ExecutorInfo` (type_utils) -/
  executorInfoEq : ExecutorInfo → ExecutorInfo → Bool
  /-- `stringify(executorInfo)` -/
  stringifyExecutorInfo : ExecutorInfo → String
  /-- `UUID::fromBytes(bytes)`: `Except.error` is `Try::error` -/
  uuidFromBytes : String → Except Error Unit

/-- `invalidCharacter(c)`: `iscntrl(c) || c == '/' || c == '\\'`; in the "C"
locale the control characters are the codes below 32, and 127. -/
def invalidCharacter (c : Char) : Bool :=
  (c.toNat < 32 || c.toNat = 127) || c = '/' || c = '\\'

/-! ### `master::call::validate` -/

namespace master

/-- `mesos::master::Call::Type`. -/
inductive CallType where
  | UNKNOWN | GET_HEALTH | GET_FLAGS | GET_VERSION | GET_METRICS
  | GET_LOGGING_LEVEL | SET_LOGGING_LEVEL | LIST_FILES | READ_FILE | GET_STATE
  | GET_AGENTS | GET_FRAMEWORKS | GET_EXECUTORS | GET_TASKS | GET_ROLES
  | GET_WEIGHTS | UPDATE_WEIGHTS | GET_MASTER | SUBSCRIBE | RESERVE_RESOURCES
  | UNRESERVE_RESOURCES | CREATE_VOLUMES | DESTROY_VOLUMES
  | GET_MAINTENANCE_STATUS | GET_MAINTENANCE_SCHEDULE
  | UPDATE_MAINTENANCE_SCHEDULE | START_MAINTENANCE | STOP_MAINTENANCE
  | GET_QUOTA | SET_QUOTA | REMOVE_QUOTA
  deriving DecidableEq, Repr

/-- `Call.ReserveResources` and `Call.UnreserveResources`: the repeated field
`resources`. -/
structure ReserveResources where
  resources : List Resource
  rest : String
  deriving DecidableEq, Repr

/-- `mesos::master::Call`.  `IsInitialized` and `InitializationErrorString` are
the results of the generated methods of these names; a `has_x` field is the
result of `has_x()` for a sub-message whose content is not read. -/
structure Call where
  IsInitialized : Bool
  InitializationErrorString : String
  type : Option CallType
  has_get_metrics : Bool
  has_set_logging_level : Bool
  has_list_files : Bool
  has_read_file : Bool
  has_update_weights : Bool
  reserve_resources : Option ReserveResources
  unreserve_resources : Option ReserveResources
  has_create_volumes : Bool
  has_destroy_volumes : Bool
  has_update_maintenance_schedule : Bool
  has_start_maintenance : Bool
  has_stop_maintenance : Bool
  has_set_quota : Bool
  has_remove_quota : Bool
  deriving DecidableEq, Repr

namespace call

/-- The shape shared by most cases of the switch:
`if (!call.has_x()) return Error("Expecting 'x' to be present"); return None();` -/
def expecting (present : Bool) (field : String) : Option Error :=
  if !present then some ⟨"Expecting '" ++ field ++ "' to be present"⟩ else none

/-- `master::call::validate(call, principal)`. -/
def validate {R : Type} (ops : ResourcesOps R) (call : Call)
    (_principal : Option String) : Option Error :=
  if !call.IsInitialized then
    some ⟨"Not initialized: " ++ call.InitializationErrorString⟩
  else
    match call.type with
    | none => some ⟨"Expecting 'type' to be present"⟩
    | some type =>
      match type with
      | CallType.UNKNOWN => none
      | CallType.GET_HEALTH => none
      | CallType.GET_FLAGS => none
      | CallType.GET_VERSION => none
      | CallType.GET_METRICS => expecting call.has_get_metrics "get_metrics"
      | CallType.GET_LOGGING_LEVEL => none
      | CallType.SET_LOGGING_LEVEL =>
        expecting call.has_set_logging_level "set_logging_level"
      | CallType.LIST_FILES => expecting call.has_list_files "list_files"
      | CallType.READ_FILE => expecting call.has_read_file "read_file"
      | CallType.GET_STATE => none
      | CallType.GET_AGENTS => none
      | CallType.GET_FRAMEWORKS => none
      | CallType.GET_EXECUTORS => none
      | CallType.GET_TASKS => none
      | CallType.GET_ROLES => none
      | CallType.GET_WEIGHTS => none
      | CallType.UPDATE_WEIGHTS =>
        expecting call.has_update_weights "update_weights"
      | CallType.GET_MASTER => none
      | CallType.RESERVE_RESOURCES =>
        match call.reserve_resources with
        | none => some ⟨"Expecting 'reserve_resources' to be present"⟩
        | some reserve_resources =>
          match ops.validate reserve_resources.resources with
          | some error => some error
          | none => none
      | CallType.UNRESERVE_RESOURCES =>
        match call.unreserve_resources with
        | none => some ⟨"Expecting 'unreserve_resources' to be present"⟩
        | some unreserve_resources =>
          match ops.validate unreserve_resources.resources with
          | some error => some error
          | none => none
      | CallType.CREATE_VOLUMES =>
        expecting call.has_create_volumes "create_volumes"
      | CallType.DESTROY_VOLUMES =>
        expecting call.has_destroy_volumes "destroy_volumes"
      | CallType.GET_MAINTENANCE_STATUS => none
      | CallType.GET_MAINTENANCE_SCHEDULE => none
      | CallType.UPDATE_MAINTENANCE_SCHEDULE =>
        expecting call.has_update_maintenance_schedule
          "update_maintenance_schedule"
      | CallType.START_MAINTENANCE =>
        expecting call.has_start_maintenance "start_maintenance"
      | CallType.STOP_MAINTENANCE =>
        expecting call.has_stop_maintenance "stop_maintenance"
      | CallType.GET_QUOTA => none
      | CallType.SET_QUOTA => expecting call.has_set_quota "set_quota"
      | CallType.REMOVE_QUOTA => expecting call.has_remove_quota "remove_quota"
      | CallType.SUBSCRIBE => none

/-- The table of required sub-messages as the claim about `master::call::validate`
lists it: the sub-message that the type requires is present; `true` for the
types that require none. -/
def required (call : Call) : CallType → Bool
  | CallType.GET_METRICS => call.has_get_metrics
  | CallType.SET_LOGGING_LEVEL => call.has_set_logging_level
  | CallType.LIST_FILES => call.has_list_files
  | CallType.READ_FILE => call.has_read_file
  | CallType.UPDATE_WEIGHTS => call.has_update_weights
  | CallType.RESERVE_RESOURCES => call.reserve_resources.isSome
  | CallType.UNRESERVE_RESOURCES => call.unreserve_resources.isSome
  | CallType.CREATE_VOLUMES => call.has_create_volumes
  | CallType.DESTROY_VOLUMES => call.has_destroy_volumes
  | CallType.UPDATE_MAINTENANCE_SCHEDULE => call.has_update_maintenance_schedule
  | CallType.START_MAINTENANCE => call.has_start_maintenance
  | CallType.STOP_MAINTENANCE => call.has_stop_maintenance
  | CallType.SET_QUOTA => call.has_set_quota
  | CallType.REMOVE_QUOTA => call.has_remove_quota
  | _ => true

/-- The resources listed by a RESERVE_RESOURCES or UNRESERVE_RESOURCES call;
`none` for the other types and when the sub-message is absent. -/
def listed (call : Call) : CallType → Option (List Resource)
  | CallType.RESERVE_RESOURCES => call.reserve_resources.map (·.resources)
  | CallType.UNRESERVE_RESOURCES => call.unreserve_resources.map (·.resources)
  | _ => none

end call
end master

/-! ### `scheduler::call::validate` -/

namespace scheduler

/-- `mesos::scheduler::Call::Type`. -/
inductive CallType where
  | UNKNOWN | SUBSCRIBE | TEARDOWN | ACCEPT | DECLINE | ACCEPT_INVERSE_OFFERS
  | DECLINE_INVERSE_OFFERS | REVIVE | KILL | SHUTDOWN | ACKNOWLEDGE | RECONCILE
  | MESSAGE | REQUEST | SUPPRESS
  deriving DecidableEq, Repr

/-- `Call.Subscribe`: the required field `framework_info`. -/
structure Subscribe where
  framework_info : FrameworkInfo
  rest : String
  deriving DecidableEq, Repr

/-- `Call.Acknowledge`: the bytes of `uuid`. -/
structure Acknowledge where
  uuid : String
  rest : String
  deriving DecidableEq, Repr

/-- `mesos::scheduler::Call`, with the conventions of `master.Call`. -/
structure Call where
  IsInitialized : Bool
  InitializationErrorString : String
  type : Option CallType
  framework_id : Option FrameworkID
  subscribe : Option Subscribe
  has_accept : Bool
  has_decline : Bool
  has_accept_inverse_offers : Bool
  has_decline_inverse_offers : Bool
  has_kill : Bool
  has_shutdown : Bool
  acknowledge : Option Acknowledge
  has_reconcile : Bool
  has_message : Bool
  has_request : Bool
  deriving DecidableEq, Repr

namespace call

/-- `scheduler::call::validate(call, principal)`.  `Except.error` is the abort of
`LOG(FATAL)`; `Except.ok` holds the value returned. -/
def validate {R : Type} (ext : Externals R) (call : Call)
    (principal : Option String) : Except String (Option Error) :=
  if !call.IsInitialized then
    Except.ok (some ⟨"Not initialized: " ++ call.InitializationErrorString⟩)
  else
    match call.type with
    | none => Except.ok (some ⟨"Expecting 'type' to be present"⟩)
    | some type =>
      if type = CallType.SUBSCRIBE then
        match call.subscribe with
        | none => Except.ok (some ⟨"Expecting 'subscribe' to be present"⟩)
        | some subscribe =>
          let frameworkInfo := subscribe.framework_info
          if (FrameworkID.get frameworkInfo.id).value
              ≠ (FrameworkID.get call.framework_id).value then
            Except.ok (some
              ⟨"'framework_id' differs from 'subscribe.framework_info.id'"⟩)
          else
            match principal, frameworkInfo.principal with
            | some p, some q =>
              if p ≠ q then
                Except.ok (some
                  ⟨"Authenticated principal '" ++ p ++ "' does not " ++
                   "match principal '" ++ q ++ "' set in " ++ "`FrameworkInfo`"⟩)
              else Except.ok none
            | _, _ => Except.ok none
      else if !call.framework_id.isSome then
        Except.ok (some ⟨"Expecting 'framework_id' to be present"⟩)
      else
        match type with
        | CallType.SUBSCRIBE => Except.error "Unexpected 'SUBSCRIBE' call"
        | CallType.TEARDOWN => Except.ok none
        | CallType.ACCEPT => Except.ok (master.call.expecting call.has_accept "accept")
        | CallType.DECLINE =>
          Except.ok (master.call.expecting call.has_decline "decline")
        | CallType.ACCEPT_INVERSE_OFFERS =>
          Except.ok (master.call.expecting call.has_accept_inverse_offers
            "accept_inverse_offers")
        | CallType.DECLINE_INVERSE_OFFERS =>
          Except.ok (master.call.expecting call.has_decline_inverse_offers
            "decline_inverse_offers")
        | CallType.REVIVE => Except.ok none
        | CallType.SUPPRESS => Except.ok none
        | CallType.KILL => Except.ok (master.call.expecting call.has_kill "kill")
        | CallType.SHUTDOWN =>
          Except.ok (master.call.expecting call.has_shutdown "shutdown")
        | CallType.ACKNOWLEDGE =>
          match call.acknowledge with
          | none => Except.ok (some ⟨"Expecting 'acknowledge' to be present"⟩)
          | some acknowledge =>
            match ext.uuidFromBytes acknowledge.uuid with
            | Except.error error => Except.ok (some error)
            | Except.ok _ => Except.ok none
        | CallType.RECONCILE =>
          Except.ok (master.call.expecting call.has_reconcile "reconcile")
        | CallType.MESSAGE =>
          Except.ok (master.call.expecting call.has_message "message")
        | CallType.REQUEST =>
          Except.ok (master.call.expecting call.has_request "request")
        | CallType.UNKNOWN => Except.ok none

/-- The table of required sub-messages as the claim about
`scheduler::call::validate` lists it for the types other than SUBSCRIBE: the
sub-message that the type requires is present; `true` for the types that
require none. -/
def required (call : Call) : CallType → Bool
  | CallType.ACCEPT => call.has_accept
  | CallType.DECLINE => call.has_decline
  | CallType.ACCEPT_INVERSE_OFFERS => call.has_accept_inverse_offers
  | CallType.DECLINE_INVERSE_OFFERS => call.has_decline_inverse_offers
  | CallType.KILL => call.has_kill
  | CallType.SHUTDOWN => call.has_shutdown
  | CallType.ACKNOWLEDGE => call.acknowledge.isSome
  | CallType.RECONCILE => call.has_reconcile
  | CallType.MESSAGE => call.has_message
  | CallType.REQUEST => call.has_request
  | _ => true

end call
end scheduler

/-! ### `namespace resource` -/

namespace resource

/-- `validateGpus(resources)`. -/
def validateGpus {R : Type} (ops : ResourcesOps R) (resources : List Resource) :
    Option Error :=
  if (ops.gpusTimes1000 (ops.ofList resources)).tmod 1000 ≠ 0 then
    some ⟨"The 'gpus' resource must be an unsigned integer"⟩
  else none

/-- `validateDynamicReservationInfo(resources)`. -/
def validateDynamicReservationInfo {R : Type} (ops : ResourcesOps R) :
    List Resource → Option Error
  | [] => none
  | resource :: rest =>
    if !ops.isDynamicallyReserved resource then
      validateDynamicReservationInfo ops rest
    else if ops.isRevocable resource then
      some ⟨"Dynamically reserved resource " ++ ops.stringifyResource resource ++
        " cannot be created from revocable resources"⟩
    else validateDynamicReservationInfo ops rest

/-- The body of the loop of `validateDiskInfo` for a resource that has a
`DiskInfo`: the error it returns, if any. -/
def validateDiskInfo.check {R : Type} (ops : ResourcesOps R)
    (resource : Resource) (disk : DiskInfo) : Option Error :=
  match disk.persistence with
  | some persistence =>
    if ops.isRevocable resource then
      some ⟨"Persistent volumes cannot be created from revocable resources"⟩
    else if ops.isUnreserved resource then
      some ⟨"Persistent volumes cannot be created from unreserved resources"⟩
    else
      match disk.volume with
      | none => some ⟨"Expecting 'volume' to be set for persistent volume"⟩
      | some volume =>
        if volume.host_path.isSome then
          some ⟨"Expecting 'host_path' to be unset for persistent volume"⟩
        else
          let id := persistence.id
          if id.toList.any invalidCharacter then
            some ⟨"Persistence ID '" ++ id ++ "' contains invalid characters"⟩
          else none
  | none =>
    if disk.volume.isSome then some ⟨"Non-persistent volume not supported"⟩
    else if !disk.has_source then some ⟨"DiskInfo is set but empty"⟩
    else none

/-- `validateDiskInfo(resources)`. -/
def validateDiskInfo {R : Type} (ops : ResourcesOps R) :
    List Resource → Option Error
  | [] => none
  | resource :: rest =>
    match resource.disk with
    | none => validateDiskInfo ops rest
    | some disk =>
      match validateDiskInfo.check ops resource disk with
      | some error => some error
      | none => validateDiskInfo ops rest

/-- The `hashmap<string, hashset<string>> persistenceIds`, as an association
list from role to the ids seen for it. -/
abbrev PersistenceIds := List (String × List String)

/-- `persistenceIds.contains(role) && persistenceIds[role].contains(id)`. -/
def PersistenceIds.has (m : PersistenceIds) (role id : String) : Bool :=
  match m.lookup role with
  | none => false
  | some ids => ids.contains id

/-- `persistenceIds[role].insert(id)`. -/
def PersistenceIds.insert (m : PersistenceIds) (role id : String) :
    PersistenceIds :=
  match m.lookup role with
  | none => (role, [id]) :: m
  | some ids =>
    if ids.contains id then m
    else m.map (fun entry => if entry.1 = role then (entry.1, id :: entry.2) else entry)

/-- The loop of `validateUniquePersistenceID` over the persistent volumes. -/
def validateUniquePersistenceID.loop (persistenceIds : PersistenceIds) :
    List Resource → Option Error
  | [] => none
  | volume :: rest =>
    let role := volume.role
    let id := match volume.disk with
      | some disk => (match disk.persistence with
        | some persistence => persistence.id
        | none => "")
      | none => ""
    if persistenceIds.has role id then
      some ⟨"Persistence ID '" ++ id ++ "' is not unique"⟩
    else validateUniquePersistenceID.loop (persistenceIds.insert role id) rest

/-- `validateUniquePersistenceID(resources)`. -/
def validateUniquePersistenceID {R : Type} (ops : ResourcesOps R) (resources : R) :
    Option Error :=
  validateUniquePersistenceID.loop [] (ops.toList (ops.persistentVolumes resources))

/-- The loop of `validateRevocableAndNonRevocableResources` over the names. -/
def validateRevocableAndNonRevocableResources.loop {R : Type}
    (ops : ResourcesOps R) (_resources : R) : List String → Option Error
  | [] => none
  | name :: rest =>
    let resources := ops.get _resources name
    if !ops.empty (ops.revocable resources) &&
        !ops.eq resources (ops.revocable resources) then
      some ⟨"Cannot use both revocable and non-revocable '" ++ name ++
        "' at the same time"⟩
    else validateRevocableAndNonRevocableResources.loop ops _resources rest

/-- `validateRevocableAndNonRevocableResources(_resources)`. -/
def validateRevocableAndNonRevocableResources {R : Type} (ops : ResourcesOps R)
    (_resources : R) : Option Error :=
  validateRevocableAndNonRevocableResources.loop ops _resources (ops.names _resources)

/-- `resource::validate(resources)`. -/
def validate {R : Type} (ops : ResourcesOps R) (resources : List Resource) :
    Option Error :=
  match ops.validate resources with
  | some error => some ⟨"Invalid resources: " ++ error.message⟩
  | none =>
    match validateGpus ops resources with
    | some error => some ⟨"Invalid 'gpus' resource: " ++ error.message⟩
    | none =>
      match validateDiskInfo ops resources with
      | some error => some ⟨"Invalid DiskInfo: " ++ error.message⟩
      | none =>
        match validateDynamicReservationInfo ops resources with
        | some error => some ⟨"Invalid ReservationInfo: " ++ error.message⟩
        | none => none

end resource

/-- The loop `foreach (validator, validators)` shared by the `validate`
functions: the first error returned by a validator, in order. -/
def firstError : List (Unit → Option Error) → Option Error
  | [] => none
  | validator :: rest =>
    match validator () with
    | some error => some error
    | none => firstError rest

/-! ### `namespace executor` -/

namespace executor
namespace internal

/-- `executor::internal::validateType(executor)`. -/
def validateType (executor : ExecutorInfo) : Option Error :=
  match executor.type with
  | ExecutorType.DEFAULT =>
    if executor.has_command then
      some ⟨"'ExecutorInfo.command' must not be set for 'DEFAULT' executor"⟩
    else none
  | ExecutorType.CUSTOM =>
    if !executor.has_command then
      some ⟨"'ExecutorInfo.command' must be set for 'CUSTOM' executor"⟩
    else none
  | ExecutorType.UNKNOWN => none

/-- `executor::internal::validateCompatibleExecutorInfo(executor, framework,
slave)`. -/
def validateCompatibleExecutorInfo {R : Type} (ext : Externals R)
    (executor : ExecutorInfo) (framework : Framework) (slave : Slave) :
    Option Error :=
  let executorId := executor.executor_id
  let executorInfo : Option ExecutorInfo :=
    if slave.hasExecutor framework.id executorId then
      slave.executorAt framework.id executorId
    else none
  match executorInfo with
  | some existing =>
    if !ext.executorInfoEq executor existing then
      some ⟨"ExecutorInfo is not compatible with existing ExecutorInfo" ++
        " with same ExecutorID).\n" ++
        "------------------------------------------------------------\n" ++
        "Existing ExecutorInfo:\n" ++
        ext.stringifyExecutorInfo existing ++ "\n" ++
        "------------------------------------------------------------\n" ++
        "ExecutorInfo:\n" ++
        ext.stringifyExecutorInfo executor ++ "\n" ++
        "------------------------------------------------------------\n"⟩
    else none
  | none => none

/-- `executor::internal::validateFrameworkID(executor, framework)`;
`stringify` of a `FrameworkID` is its `value`. -/
def validateFrameworkID (executor : ExecutorInfo) (framework : Framework) :
    Option Error :=
  match executor.framework_id with
  | none => some ⟨"'ExecutorInfo.framework_id' must be set"⟩
  | some framework_id =>
    if framework_id.value ≠ framework.id.value then
      some ⟨"ExecutorInfo has an invalid FrameworkID" ++
        " (Actual: " ++ framework_id.value ++
        " vs Expected: " ++ framework.id.value ++ ")"⟩
    else none

/-- `executor::internal::validateShutdownGracePeriod(executor)`. -/
def validateShutdownGracePeriod (executor : ExecutorInfo) : Option Error :=
  match executor.shutdown_grace_period with
  | some shutdown_grace_period =>
    if shutdown_grace_period.nanoseconds < 0 then
      some ⟨"ExecutorInfo's 'shutdown_grace_period' must be non-negative"⟩
    else none
  | none => none

/-- `executor::internal::validateResources(executor)`. -/
def validateResources {R : Type} (ops : ResourcesOps R) (executor : ExecutorInfo) :
    Option Error :=
  match resource.validate ops executor.resources with
  | some error => some ⟨"Executor uses invalid resources: " ++ error.message⟩
  | none =>
    let resources := ops.ofList executor.resources
    match resource.validateUniquePersistenceID ops resources with
    | some error =>
      some ⟨"Executor uses duplicate persistence ID: " ++ error.message⟩
    | none =>
      match resource.validateRevocableAndNonRevocableResources ops resources with
      | some error =>
        some ⟨"Executor mixes revocable and non-revocable resources: " ++
          error.message⟩
      | none => none

/-- `executor::internal::validate(executor, framework, slave)`. -/
def validate {R : Type} (ext : Externals R) (executor : ExecutorInfo)
    (framework : Framework) (slave : Slave) : Option Error :=
  firstError [
    fun _ => validateType executor,
    fun _ => validateFrameworkID executor framework,
    fun _ => validateShutdownGracePeriod executor,
    fun _ => validateResources ext.res executor,
    fun _ => validateCompatibleExecutorInfo ext executor framework slave]

end internal
end executor

/-! ### `namespace task` -/

namespace task
namespace internal

/-- `task::internal::validateTaskAndExecutorResources(task)`. -/
def validateTaskAndExecutorResources {R : Type} (ops : ResourcesOps R)
    (task : TaskInfo) : Option Error :=
  let total := ops.ofList task.resources
  let total :=
    match task.executor with
    | some executor => ops.add total (ops.ofList executor.resources)
    | none => total
  match resource.validate ops (ops.toList total) with
  | some error =>
    some ⟨"Task and its executor use invalid resources: " ++ error.message⟩
  | none =>
    match resource.validateUniquePersistenceID ops total with
    | some error =>
      some ⟨"Task and its executor use duplicate persistence ID: " ++
        error.message⟩
    | none =>
      match resource.validateRevocableAndNonRevocableResources ops total with
      | some error =>
        some ⟨"Task and its executor mix revocable and non-revocable" ++
          " resources: " ++ error.message⟩
      | none => none

/-- The block `if (task.has_executor()) { ... }` of `validateExecutor`, for the
executor of the task: the error it returns, or the value of `total` at its end.
The two `LOG(WARNING)` statements about cpus and memory have no effect on the
result and are left out. -/
def validateExecutor.block {R : Type} (ext : Externals R) (executor : ExecutorInfo)
    (framework : Framework) (slave : Slave) (total : R) : Except Error R :=
  match validation.executor.internal.validate ext executor framework slave with
  | some error => Except.error error
  | none =>
    if executor.has_type && executor.type ≠ ExecutorType.CUSTOM then
      Except.error ⟨"'ExecutorInfo.type' must be 'CUSTOM'"⟩
    else if !executor.has_command then
      Except.error ⟨"'ExecutorInfo.command' must be set"⟩
    else
      let executorResources := ext.res.ofList executor.resources
      if !ext.res.empty (ext.res.shared executorResources) then
        Except.error ⟨"Executor resources " ++
          ext.res.stringify executorResources ++
          " should not contain any shared resources"⟩
      else if !slave.hasExecutor framework.id executor.executor_id then
        Except.ok (ext.res.add total executorResources)
      else Except.ok total

/-- `task::internal::validateExecutor(task, framework, slave, offered)`. -/
def validateExecutor {R : Type} (ext : Externals R) (task : TaskInfo)
    (framework : Framework) (slave : Slave) (offered : R) : Option Error :=
  if task.has_executor = task.has_command then
    some ⟨"Task should have at least one (but not both) of CommandInfo or ExecutorInfo present"⟩
  else
    let total := ext.res.ofList task.resources
    let block : Except Error R :=
      match task.executor with
      | some executor => validateExecutor.block ext executor framework slave total
      | none => Except.ok total
    match block with
    | Except.error error => some error
    | Except.ok total =>
      match validateTaskAndExecutorResources ext.res task with
      | some error => some error
      | none =>
        if !ext.res.contains offered total then
          some ⟨"Total resources " ++ ext.res.stringify total ++
            " required by task and its executor is more than available " ++
            ext.res.stringify offered⟩
        else none

end internal
end task

end validation

/-! ## Invariants used in the proofs -/

namespace Benchmarks

/-- The "ping" message the client sends to the destination. -/
def pingMsg : Message := { sender := clientPid, name := "ping", body := "" }

/-- The "pong" message the destination sends to the client. -/
def pongMsg : Message := { sender := destinationPid, name := "pong", body := "" }

/-- What holds of the throughput pair after `n` steps of a run started in
`Sys.init repeatN`: it is the initial state, or the mailboxes hold only pings
and pongs, and the counters are related as stated. -/
def Sys.Inv (repeatN : Int) (n : Nat) (s : Sys) : Prop :=
  (n = 0 ∧ s = Sys.init repeatN) ∨
  (∃ j k : Nat,
    s.destinationBox = List.replicate j pingMsg ∧
    s.clientBox = List.replicate k pongMsg ∧
    s.client.destination = destinationPid ∧
    s.client.repeatN = repeatN ∧
    s.client.sent = (s.pingsSent : Int) ∧
    s.client.received = (s.pongsReceived : Int) ∧
    s.pingsSent = s.pingsReceived + j ∧
    s.pongsSent = s.pongsReceived + k ∧
    s.pingsReceived = s.pongsSent ∧
    (s.pingsSent : Int) ≤ repeatN ∧
    (s.pongsReceived < s.pingsSent ∨ (s.pingsSent : Int) = repeatN) ∧
    s.latch = (if (s.pongsReceived : Int) = repeatN then [repeatN] else []) ∧
    n = 1 + s.pingsReceived + s.pongsReceived)

end Benchmarks

namespace Scheduler

/-- Mutual exclusion: at most one worker drains a process, and the flag of a
process is set exactly when some worker drains it. -/
def State.Exclusive (s : State) : Prop :=
  (∀ p w1 w2, (s.worker w1).on p = true → (s.worker w2).on p = true → w1 = w2) ∧
  (∀ p, s.running p = true ↔ ∃ w, (s.worker w).on p = true)

/-- A state reached from `State.init` by an event for process 0, worker 0 taking
the "run" task and dequeuing the event. -/
def State.sample : State :=
  { mailbox := Function.update (Function.update (fun _ => []) 0 [7]) 0 [],
    running := Function.update (fun _ => false) 0 true,
    runq := [],
    worker := Function.update (Function.update (fun _ => Worker.idle) 0
      (Worker.draining 0)) 0 (Worker.executing 0 7) }

end Scheduler

namespace Benchmarks

/-- What holds of the client/server pair after `n` steps of the first run of a
new client, for `requests = N`, `concurrency = c` and the message `msg`: it is
the initial state with the request waiting, or the mailboxes hold only pings
and pongs, and the fields and counters are related as stated. -/
def CSys.Inv (request : Request) (msg : String) (N c : Nat) (n : Nat) (s : CSys) :
    Prop :=
  (n = 0 ∧ s = CSys.init.request request) ∨
  (∃ j k : Nat,
    s.serverBox = List.replicate j ⟨clientPid, "ping", msg⟩ ∧
    s.clientBox = List.replicate k (ClientEvent.message ⟨serverPid, "pong", msg⟩) ∧
    s.client.server = serverPid ∧
    s.client.message = msg ∧
    s.client.totalRequests = N ∧
    s.client.concurrency = min c N ∧
    s.client.requests = s.pingsSent ∧
    s.client.responses = s.pongsReceived ∧
    s.client.duration = decide (s.pongsReceived < N) ∧
    s.pingsSent = s.pingsReceived + j ∧
    s.pongsSent = s.pongsReceived + k ∧
    s.pingsReceived = s.pongsSent ∧
    s.pingsSent ≤ N ∧
    s.pingsSent ≤ s.pongsReceived + min c N ∧
    (s.pongsReceived < s.pingsSent ∨ s.pingsSent = N) ∧
    s.sets = (if s.pongsReceived = N then [N] else []) ∧
    s.results = [RunResult.pending] ∧
    s.aborted = false ∧
    s.server.links = (if s.pingsReceived = 0 then [] else [clientPid]) ∧
    n = 1 + s.pingsReceived + s.pongsReceived)

end Benchmarks

namespace Benchmarks

/-- A `Library` for examples: sizes are the length of the text, numbers are
"1", "2" and "3". -/
def Library.sample : Library :=
  { parseBytes := fun s => Except.ok s.length,
    numify := fun s =>
      if s = "1" then Except.ok 1 else if s = "2" then Except.ok 2
      else if s = "3" then Except.ok 3 else Except.error "Failed to convert",
    order := ["server", "messageSize", "requests", "concurrency"] }

end Benchmarks

namespace Benchmarks

/-- The pair after a first run with `requests = 2`, `concurrency = 1` and
messages of 3 bytes has completed. -/
def CSys.afterRun : CSys :=
  { client := { server := serverPid, duration := false, message := "111",
                requests := 2, responses := 2, totalRequests := 2,
                concurrency := 1 },
    server := { links := [clientPid] },
    clientBox := [], serverBox := [], pingsSent := 2, pingsReceived := 2,
    pongsSent := 2, pongsReceived := 2, sets := [2],
    results := [RunResult.pending], aborted := false }

end Benchmarks

namespace validation

/-- An implementation of the external functions for examples: resource
collections are lists, every list is valid, `contains` compares lengths. -/
def Externals.sample : Externals (List Resource) :=
  { res :=
      { validate := fun _ => none,
        isRevocable := fun _ => false,
        isUnreserved := fun _ => false,
        isDynamicallyReserved := fun _ => false,
        ofList := fun l => l,
        toList := fun l => l,
        add := fun a b => a ++ b,
        contains := fun a b => decide (b.length ≤ a.length),
        eq := fun a b => decide (a = b),
        empty := fun l => l.isEmpty,
        persistentVolumes := fun l =>
          l.filter (fun r => match r.disk with
            | some disk => disk.persistence.isSome
            | none => false),
        revocable := fun _ => [],
        shared := fun _ => [],
        names := fun _ => [],
        get := fun l _ => l,
        gpusTimes1000 := fun _ => 0,
        stringify := fun l => toString l.length,
        stringifyResource := fun r => r.rest },
    executorInfoEq := fun a b => decide (a = b),
    stringifyExecutorInfo := fun e => e.executor_id.value,
    uuidFromBytes := fun bytes =>
      if bytes.length = 16 then Except.ok () else Except.error ⟨"Not a valid UUID"⟩ }

/-- A scheduler call in which no optional field is set. -/
def scheduler.Call.empty : scheduler.Call :=
  { IsInitialized := true, InitializationErrorString := "",
    type := none, framework_id := none, subscribe := none,
    has_accept := false, has_decline := false,
    has_accept_inverse_offers := false, has_decline_inverse_offers := false,
    has_kill := false, has_shutdown := false, acknowledge := none,
    has_reconcile := false, has_message := false, has_request := false }

/-- A SUBSCRIBE call without `framework_id` whose `framework_info` sets neither
id nor principal. -/
def scheduler.Call.subscribeSample : scheduler.Call :=
  { scheduler.Call.empty with
    type := some scheduler.CallType.SUBSCRIBE,
    subscribe := some { framework_info :=
                          { id := none, principal := none, rest := "" },
                        rest := "" } }

/-- A master call in which no optional field is set. -/
def master.Call.empty : master.Call :=
  { IsInitialized := true, InitializationErrorString := "",
    type := none, has_get_metrics := false, has_set_logging_level := false,
    has_list_files := false, has_read_file := false,
    has_update_weights := false, reserve_resources := none,
    unreserve_resources := none, has_create_volumes := false,
    has_destroy_volumes := false, has_update_maintenance_schedule := false,
    has_start_maintenance := false, has_stop_maintenance := false,
    has_set_quota := false, has_remove_quota := false }

end validation

namespace validation

/-- The total of the claim about `validateExecutor`: the resources of the task
plus, exactly when the task has an executor that the agent does not already run
for the framework, the resources of the executor. -/
def task.internal.requiredTotal {R : Type} (ext : Externals R) (task : TaskInfo)
    (framework : Framework) (slave : Slave) : R :=
  match task.executor with
  | some executor =>
    if slave.hasExecutor framework.id executor.executor_id then
      ext.res.ofList task.resources
    else ext.res.add (ext.res.ofList task.resources)
      (ext.res.ofList executor.resources)
  | none => ext.res.ofList task.resources

/-- A task with a command, no executor, and one resource. -/
def TaskInfo.sample : TaskInfo :=
  { task_id := { value := "t" },
    resources := [{ role := "*", disk := none, rest := "cpus:1" }],
    executor := none, command := some { rest := "sleep" }, rest := "" }

end validation

namespace validation

/-- An executor without command whose type is not set. -/
def ExecutorInfo.sample : ExecutorInfo :=
  { type? := none, executor_id := { value := "e" },
    framework_id := some { value := "f" }, command := none, container := none,
    resources := [], shutdown_grace_period := none, rest := "" }

end validation

/-! ## More of `src/master/validation.cpp` -/

namespace validation

/-- `OfferID`. -/
structure OfferID where
  value : String
  deriving DecidableEq, Repr

/-- `TaskGroupInfo`: the repeated field `tasks`. -/
structure TaskGroupInfo where
  tasks : List TaskInfo
  deriving DecidableEq, Repr

/-- The quantities of `class Resources` and the constants of
master/constants.hpp that the task group validation uses, taken as parameters.
`D` is the type `double`; an amount of `Bytes` is its number of bytes. -/
structure Quantities (R D : Type) where
  /-- the default-constructed `Resources()` -/
  zero : R
  /-- `resources.cpus()` -/
  cpus : R → Option D
  /-- `resources.mem()` -/
  mem : R → Option Nat
  /-- `resources.disk()` -/
  disk : R → Option Nat
  /-- `operator<` on `double` -/
  lt : D → D → Bool
  /-- the constant `MIN_CPUS` -/
  MIN_CPUS : D
  /-- the constant `MIN_MEM` -/
  MIN_MEM : Nat
  /-- `stringify` of a `double` -/
  stringifyDouble : D → String
  /-- `Bytes::megabytes()` -/
  megabytes : Nat → D
  /-- `stringify` of a `Bytes` -/
  stringifyBytes : Nat → String

namespace task
namespace internal

/-- `task::internal::validateTaskID(task)`. -/
def validateTaskID (task : TaskInfo) : Option Error :=
  let id := task.task_id.value
  if id.toList.any invalidCharacter then
    some ⟨"TaskID '" ++ id ++ "' contains invalid characters"⟩
  else none

end internal

namespace group
namespace internal

/-- The loop `foreach (task, taskGroup.tasks()) total += task.resources();`. -/
def addTaskResources {R : Type} (ops : ResourcesOps R) (total : R) :
    List TaskInfo → R
  | [] => total
  | task :: rest => addTaskResources ops (ops.add total (ops.ofList task.resources)) rest

/-- `task::group::internal::validateTaskGroupAndExecutorResources(taskGroup,
executor)`. -/
def validateTaskGroupAndExecutorResources {R : Type} (ops : ResourcesOps R)
    (taskGroup : TaskGroupInfo) (executor : ExecutorInfo) : Option Error :=
  let total := addTaskResources ops (ops.ofList executor.resources) taskGroup.tasks
  match resource.validateUniquePersistenceID ops total with
  | some error =>
    some ⟨"Task group and executor use duplicate persistence ID: " ++
      error.message⟩
  | none =>
    match resource.validateRevocableAndNonRevocableResources ops total with
    | some error =>
      some ⟨"Task group and executor mix revocable and non-revocable" ++
        " resources: " ++ error.message⟩
    | none => none

/-- The loop of `validateExecutor` that checks that the `ExecutorInfo` in all
tasks are the same; `!=` on `ExecutorInfo` is the negation of `==`. -/
def validateExecutor.same {R : Type} (ext : Externals R) (executor : ExecutorInfo) :
    List TaskInfo → Option Error
  | [] => none
  | task :: rest =>
    match task.executor with
    | some taskExecutor =>
      if !ext.executorInfoEq taskExecutor executor then
        some ⟨"The `ExecutorInfo` of " ++
          "task '" ++ task.task_id.value ++ "' is different from " ++
          "executor '" ++ executor.executor_id.value ++ "'"⟩
      else validateExecutor.same ext executor rest
    | none => validateExecutor.same ext executor rest

/-- The checks of the minimal cpus, memory and disk of the executor in
`validateExecutor`: the error they return, if any. -/
def validateExecutor.minimal {R D : Type} (q : Quantities R D)
    (executor : ExecutorInfo) (executorResources : R) : Option Error :=
  let cpus := q.cpus executorResources
  if cpus.isNone || (match cpus with
      | some c => q.lt c q.MIN_CPUS
      | none => false) then
    some ⟨"Executor '" ++ executor.executor_id.value ++
      "' uses less CPUs (" ++
      (match cpus with
        | some c => q.stringifyDouble c
        | none => "None") ++
      ") than the minimum required (" ++ q.stringifyDouble q.MIN_CPUS ++ ")"⟩
  else
    let mem := q.mem executorResources
    if mem.isNone || (match mem with
        | some m => decide (m < q.MIN_MEM)
        | none => false) then
      some ⟨"Executor '" ++ executor.executor_id.value ++
        "' uses less memory (" ++
        (match mem with
          | some m => q.stringifyDouble (q.megabytes m)
          | none => "None") ++
        ") than the minimum required (" ++ q.stringifyBytes q.MIN_MEM ++ ")"⟩
    else
      let disk := q.disk executorResources
      if disk.isNone then
        some ⟨"Executor '" ++ executor.executor_id.value ++ "' uses no disk"⟩
      else none

/-- `task::group::internal::validateExecutor(taskGroup, executor, framework,
slave, offered)`. -/
def validateExecutor {R D : Type} (ext : Externals R) (q : Quantities R D)
    (taskGroup : TaskGroupInfo) (executor : ExecutorInfo)
    (framework : Framework) (slave : Slave) (offered : R) : Option Error :=
  match validation.executor.internal.validate ext executor framework slave with
  | some error => some error
  | none =>
    if !executor.has_type then some ⟨"'ExecutorInfo.type' must be set"⟩
    else if executor.type = ExecutorType.UNKNOWN then
      some ⟨"Unknown executor type"⟩
    else if (match executor.container with
        | some container => decide (container.type = ContainerType.DOCKER)
        | none => false) then
      some ⟨"Docker ContainerInfo is not supported on the executor"⟩
    else
      match validateExecutor.same ext executor taskGroup.tasks with
      | some error => some error
      | none =>
        let executorResources := ext.res.ofList executor.resources
        match validateExecutor.minimal q executor executorResources with
        | some error => some error
        | none =>
          match validateTaskGroupAndExecutorResources ext.res taskGroup executor with
          | some error => some error
          | none =>
            let total := addTaskResources ext.res q.zero taskGroup.tasks
            let total :=
              if !slave.hasExecutor framework.id executor.executor_id then
                ext.res.add total executorResources
              else total
            if !ext.res.contains offered total then
              some ⟨"Total resources " ++ ext.res.stringify total ++
                " required by task group and its executor are more than available " ++
                ext.res.stringify offered⟩
            else none

end internal
end group
end task

namespace offer

/-- The loop of `validateUniqueOfferID`, with the `hashset<OfferID> offers` as a
list. -/
def validateUniqueOfferID.loop (offers : List OfferID) :
    List OfferID → Option Error
  | [] => none
  | offerId :: rest =>
    if offers.contains offerId then
      some ⟨"Duplicate offer " ++ offerId.value ++ " in offer list"⟩
    else validateUniqueOfferID.loop (offerId :: offers) rest

/-- `offer::validateUniqueOfferID(offerIds)`. -/
def validateUniqueOfferID (offerIds : List OfferID) : Option Error :=
  validateUniqueOfferID.loop [] offerIds

end offer

/-- Quantities for examples: a `double` is a number of thousandths, resources
are a list, whose length counts as cpus and as memory in bytes. -/
def Quantities.sample : Quantities (List Resource) Nat :=
  { zero := [],
    cpus := fun l => if l.isEmpty then none else some (1000 * l.length),
    mem := fun l => if l.isEmpty then none else some l.length,
    disk := fun _ => none,
    lt := fun a b => decide (a < b),
    MIN_CPUS := 10,
    MIN_MEM := 33554432,
    stringifyDouble := fun d => toString d,
    megabytes := fun b => b / 1048576,
    stringifyBytes := fun b => toString b ++ "B" }

end validation

namespace validation

/-- A CUSTOM executor with a command and no resources. -/
def ExecutorInfo.custom : ExecutorInfo :=
  { ExecutorInfo.sample with
    type? := some ExecutorType.CUSTOM, command := some { rest := "run" } }

end validation

namespace validation

/-- The condition of the claim about `validateDiskInfo` on a resource that has
a `DiskInfo`: (a) the disk is persistent, and then the resource is not
revocable and not unreserved, `volume` is set, `volume.host_path` is not set and
the persistence id contains no invalid character; or (b) the disk is not
persistent, has no `volume` and has `source` set. -/
def resource.diskInfoAccepted {R : Type} (ops : ResourcesOps R) (r : Resource)
    (disk : DiskInfo) : Prop :=
  (∃ persistence volume,
    disk.persistence = some persistence ∧
    ops.isRevocable r = false ∧
    ops.isUnreserved r = false ∧
    disk.volume = some volume ∧
    volume.host_path = none ∧
    ∀ c ∈ persistence.id.toList,
      ¬ ((c.toNat < 32 ∨ c.toNat = 127) ∨ c = '/' ∨ c = '\\')) ∨
  (disk.persistence = none ∧ disk.volume = none ∧ disk.has_source = true)

/-- A revocable persistent disk without volume, for examples. -/
def Resource.sampleDisk : Resource :=
  { role := "r",
    disk := some { persistence := some { id := "id", rest := "" },
                   volume := none, has_source := false },
    rest := "disk:1" }

end validation

namespace validation

/-- The id that `validateUniquePersistenceID` reads of a volume:
`volume.disk().persistence().id()`, empty when a field is not set. -/
def resource.persistenceId (volume : Resource) : String :=
  match volume.disk with
  | some disk =>
    (match disk.persistence with
      | some persistence => persistence.id
      | none => "")
  | none => ""

/-- The pair of role and persistence id of a volume. -/
def resource.persistenceKey (volume : Resource) : String × String :=
  (volume.role, resource.persistenceId volume)

/-- The map `persistenceIds` holds exactly the pairs of `seen`. -/
def resource.PersistenceIds.Holds (m : resource.PersistenceIds)
    (seen : List (String × String)) : Prop :=
  ∀ role id, m.has role id = true ↔ (role, id) ∈ seen

/-- A persistent volume with the given role and id, for examples. -/
def Resource.volume (role id : String) : Resource :=
  { role := role,
    disk := some { persistence := some { id := id, rest := "" },
                   volume := some { mode := VolumeMode.RW, host_path := none,
                                    rest := "path" },
                   has_source := false },
    rest := "disk:1" }

end validation

/-! ## `Shared<T>` of libprocess, as exercised by shared_tests.cpp -/

namespace SharedPointer

/-- Modelled from the spec: the block that the handles of one object share in
`Shared<T>` of libprocess (process/shared.hpp, which is not embedded here; the
model follows what shared_tests.cpp states about it): the object `t`, the number
of handles that reference the block, whether `own` has been called, whether the
promise of `own` has been set, and whether the object has been deleted. -/
structure Data (T : Type) where
  t : T
  useCount : Nat
  owned : Bool
  promiseSet : Bool
  deleted : Bool
  deriving DecidableEq, Repr

/-- Modelled from the spec: all `Shared<T>` handles and the blocks they
reference (process/shared.hpp is not embedded here).  A handle is an index of
`handles`; its entry is the block it references, `none` for a null handle.  A
block is an index of `datas` below `next`. -/
structure Store (T : Type) where
  datas : Nat → Option (Data T)
  next : Nat
  handles : List (Option Nat)

/-- Modelled from the spec: the state of a `Future<Owned<T>>` (process/shared.hpp
and process/future.hpp are not embedded here): pending, or ready with an
`Owned<T>` to the object of a block and its value. -/
inductive FutureState (T : Type) where
  | pending
  | ready (object : Nat) (value : T)
  deriving DecidableEq, Repr

/-- Modelled from the spec: what `own()` returns (process/shared.hpp is not
embedded here): a ready future holding a null `Owned<T>` (for a null handle), a
failed future, or the future of the promise of a block. -/
inductive OwnResult where
  | null
  | failed
  | future (object : Nat)
  deriving DecidableEq, Repr

/-- Modelled from the spec: no handle and no block. -/
def Store.empty {T : Type} : Store T :=
  { datas := fun _ => none, next := 0, handles := [] }

/-- Modelled from the spec: the block that handle `h` references (`none` for a
null handle). -/
def Store.target {T : Type} (s : Store T) (h : Nat) : Option Nat :=
  match s.handles[h]? with
  | some (some d) => some d
  | _ => none

/-- Modelled from the spec: `Shared<T> shared(t)` for a new object `t`
(process/shared.hpp is not embedded here): a new block referenced by one new
handle. -/
def Store.make {T : Type} (s : Store T) (t : T) : Store T :=
  { datas := Function.update s.datas s.next
      (some { t := t, useCount := 1, owned := false, promiseSet := false,
              deleted := false }),
    next := s.next + 1,
    handles := s.handles ++ [some s.next] }

/-- Modelled from the spec: `Shared<T> shared(NULL)`: a new null handle. -/
def Store.null {T : Type} (s : Store T) : Store T :=
  { s with handles := s.handles ++ [none] }

/-- Modelled from the spec: the copy constructor `Shared<T> shared2(shared)`
(process/shared.hpp is not embedded here): a new handle that references the
same block, which counts one more handle; a copy of a null handle is null. -/
def Store.copy {T : Type} (s : Store T) (h : Nat) : Store T :=
  match s.target h with
  | none => { s with handles := s.handles ++ [none] }
  | some d =>
    { s with
      datas := Function.update s.datas d
        ((s.datas d).map (fun x => { x with useCount := x.useCount + 1 })),
      handles := s.handles ++ [some d] }

/-- Modelled from the spec: a block loses one handle (process/shared.hpp is not
embedded here).  When the last handle is gone the block is destroyed: if `own`
has been called the promise is set with the object, else the object is
deleted. -/
def Data.release {T : Type} (x : Data T) : Data T :=
  if x.useCount - 1 = 0 then
    if x.owned then { x with useCount := 0, promiseSet := true }
    else { x with useCount := 0, deleted := true }
  else { x with useCount := x.useCount - 1 }

/-- Modelled from the spec: `shared.reset()`, also the destructor of a handle
(process/shared.hpp is not embedded here): the handle becomes null and its
block loses one handle. -/
def Store.reset {T : Type} (s : Store T) (h : Nat) : Store T :=
  match s.target h with
  | none => s
  | some d =>
    { s with
      datas := Function.update s.datas d ((s.datas d).map Data.release),
      handles := s.handles.set h none }

/-- Modelled from the spec: `shared.own()` (process/shared.hpp is not embedded
here).  On a null handle it returns a null `Owned<T>`.  If `own` has already
been called on a handle of the object it returns a failed future and changes
nothing.  Else it marks the block as owned, resets the handle and returns the
future of the promise of the block. -/
def Store.own {T : Type} (s : Store T) (h : Nat) : Store T × OwnResult :=
  match s.target h with
  | none => (s, OwnResult.null)
  | some d =>
    match s.datas d with
    | none => (s, OwnResult.null)
    | some x =>
      if x.owned then (s, OwnResult.failed)
      else
        (Store.reset
          { s with datas := Function.update s.datas d (some { x with owned := true }) }
          h,
         OwnResult.future d)

/-- Modelled from the spec: `shared.unique()`: the handle is not null and its
block counts exactly one handle. -/
def Store.unique {T : Type} (s : Store T) (h : Nat) : Bool :=
  match s.target h with
  | none => false
  | some d =>
    match s.datas d with
    | some x => x.useCount == 1
    | none => false

/-- Modelled from the spec: `shared.get()`: the object that the handle reads,
`none` for NULL. -/
def Store.get {T : Type} (s : Store T) (h : Nat) : Option T :=
  match s.target h with
  | none => none
  | some d => (s.datas d).map (fun x => x.t)

/-- Modelled from the spec: the state of the future of the promise of block
`d`: ready with the object once the promise has been set. -/
def Store.future {T : Type} (s : Store T) (d : Nat) : FutureState T :=
  match s.datas d with
  | some x => if x.promiseSet then FutureState.ready d x.t else FutureState.pending
  | none => FutureState.pending

/-- Modelled from the spec: the operations on handles that a program makes. -/
inductive Op (T : Type) where
  | make (t : T)
  | null
  | copy (h : Nat)
  | reset (h : Nat)
  | own (h : Nat)
  deriving DecidableEq, Repr

/-- Modelled from the spec: the store after one operation. -/
def Store.step {T : Type} (s : Store T) : Op T → Store T
  | Op.make t => s.make t
  | Op.null => s.null
  | Op.copy h => s.copy h
  | Op.reset h => s.reset h
  | Op.own h => (s.own h).1

/-- Modelled from the spec: the store after a list of operations. -/
def Store.run {T : Type} (s : Store T) : List (Op T) → Store T
  | [] => s
  | op :: rest => Store.run (s.step op) rest

/-- What holds of every store that a program reaches: a handle references an
allocated block; a block counts exactly the handles that reference it; its
promise is set exactly when `own` has been called and no handle is left; and
no block is allocated at or above `next`. -/
def Store.Wf {T : Type} (s : Store T) : Prop :=
  (∀ d, s.next ≤ d → s.datas d = none) ∧
  (∀ d, some d ∈ s.handles → ∃ x, s.datas d = some x) ∧
  (∀ d x, s.datas d = some x → x.useCount = s.handles.count (some d)) ∧
  (∀ d x, s.datas d = some x →
    (x.promiseSet = true ↔ x.owned = true ∧ x.useCount = 0))

end SharedPointer

/-! ## `Duration` and `Time`, as exercised by time_tests.cpp -/

namespace Runtime

/-- Modelled from the spec: `Duration` of stout (stout/duration.hpp, which is
not embedded here; the model follows what time_tests.cpp states about it): a
signed 64-bit number of nanoseconds. -/
structure Duration where
  ns : Int
  deriving DecidableEq, Repr

/-- Modelled from the spec: the value fits a signed 64-bit integer (the
representation of `Duration` in stout/duration.hpp, not embedded here). -/
def Duration.fits (x : Int) : Bool :=
  decide (-9223372036854775808 ≤ x) && decide (x ≤ 9223372036854775807)

/-- Modelled from the spec: `a += b` on `Duration` (stout/duration.hpp, not
embedded here): the sum, `none` when it overflows. -/
def Duration.addAssign (a b : Duration) : Option Duration :=
  if Duration.fits (a.ns + b.ns) then some ⟨a.ns + b.ns⟩ else none

/-- Modelled from the spec: `a -= b` on `Duration` (stout/duration.hpp, not
embedded here): the difference, `none` when it overflows. -/
def Duration.subAssign (a b : Duration) : Option Duration :=
  if Duration.fits (a.ns - b.ns) then some ⟨a.ns - b.ns⟩ else none

/-- Modelled from the spec: `a + b` on `Duration`: a copy of `a`, then `+=`. -/
def Duration.add (a b : Duration) : Option Duration :=
  let sum := a
  sum.addAssign b

/-- Modelled from the spec: `a - b` on `Duration`: a copy of `a`, then `-=`. -/
def Duration.sub (a b : Duration) : Option Duration :=
  let diff := a
  diff.subAssign b

/-- Modelled from the spec: `Nanoseconds(n)`, `Microseconds(n)`, `Seconds(n)`
and `Weeks(n)` of stout/duration.hpp (not embedded here). -/
def Nanoseconds (n : Int) : Duration := ⟨n⟩

/-- Modelled from the spec: `Microseconds(n)` (stout/duration.hpp, not embedded
here). -/
def Microseconds (n : Int) : Duration := ⟨n * 1000⟩

/-- Modelled from the spec: `Seconds(n)` (stout/duration.hpp, not embedded
here). -/
def Seconds (n : Int) : Duration := ⟨n * 1000000000⟩

/-- Modelled from the spec: `Weeks(n)` (stout/duration.hpp, not embedded
here). -/
def Weeks (n : Int) : Duration := ⟨n * 604800000000000⟩

/-- Modelled from the spec: `Time` of libprocess (process/time.hpp, which is not
embedded here; the model follows what time_tests.cpp states about it): the
duration since the epoch. -/
structure Time where
  duration : Duration
  deriving DecidableEq, Repr

/-- Modelled from the spec: `Time::epoch()` (process/time.hpp, not embedded
here). -/
def Time.epoch : Time := ⟨⟨0⟩⟩

/-- Modelled from the spec: `Time::max()` (process/time.hpp, not embedded
here): the epoch plus the largest `Duration`, 2^63 - 1 nanoseconds. -/
def Time.max : Time := ⟨⟨9223372036854775807⟩⟩

/-- Modelled from the spec: `t += d` on `Time` (process/time.hpp, not embedded
here). -/
def Time.addAssign (t : Time) (d : Duration) : Option Time :=
  (t.duration.addAssign d).map Time.mk

/-- Modelled from the spec: `t -= d` on `Time` (process/time.hpp, not embedded
here). -/
def Time.subAssign (t : Time) (d : Duration) : Option Time :=
  (t.duration.subAssign d).map Time.mk

/-- Modelled from the spec: `t + d` on `Time`: a new `Time` made of the sum of
the durations (process/time.hpp, not embedded here). -/
def Time.add (t : Time) (d : Duration) : Option Time :=
  (t.duration.add d).map Time.mk

/-- Modelled from the spec: `t - d` on `Time` (process/time.hpp, not embedded
here). -/
def Time.sub (t : Time) (d : Duration) : Option Time :=
  (t.duration.sub d).map Time.mk

/-- Modelled from the spec: `t - u` on two `Time`s, a `Duration`
(process/time.hpp, not embedded here). -/
def Time.diff (t u : Time) : Option Duration :=
  t.duration.sub u.duration

end Runtime

/-! ## Rendering of `Time` as RFC 3339 and RFC 1123, as exercised by time_tests.cpp -/

namespace Runtime

/-- Modelled from the spec: the leap years of the Gregorian calendar, which the
renderings of process/time.cpp (not embedded here) take from `gmtime_r`. -/
def isLeapYear (y : Nat) : Bool :=
  y % 4 == 0 && (y % 100 != 0 || y % 400 == 0)

/-- Modelled from the spec: the number of days of a year (Gregorian calendar,
used by the absent renderings of process/time.cpp). -/
def daysInYear (y : Nat) : Nat := if isLeapYear y then 366 else 365

/-- Modelled from the spec: the number of days of month `mon` (0 is January) of
a leap or common year (Gregorian calendar, used by the absent renderings of
process/time.cpp). -/
def daysInMonth (leap : Bool) (mon : Nat) : Nat :=
  if mon = 1 then (if leap then 29 else 28)
  else if mon = 3 ∨ mon = 5 ∨ mon = 8 ∨ mon = 10 then 30
  else 31

/-- Modelled from the spec: the year holding the day that is `days` days after
1 January of `year`, with the day of that year (0 is 1 January); part of the
`gmtime_r` used by the absent renderings of process/time.cpp. -/
def yearOf : Nat → Nat → Nat → Nat × Nat
  | 0, year, days => (year, days)
  | fuel + 1, year, days =>
    if days < daysInYear year then (year, days)
    else yearOf fuel (year + 1) (days - daysInYear year)

/-- Modelled from the spec: the month (0 is January) holding day `days` counted
from the first of month `mon`, with the day of that month (0 is the first);
part of the `gmtime_r` used by the absent renderings of process/time.cpp. -/
def monthOf : Nat → Bool → Nat → Nat → Nat × Nat
  | 0, _, mon, days => (mon, days)
  | fuel + 1, leap, mon, days =>
    if days < daysInMonth leap mon then (mon, days)
    else monthOf fuel leap (mon + 1) (days - daysInMonth leap mon)

/-- Modelled from the spec: `struct tm` as filled by `gmtime_r` (C library, used
by the absent renderings of process/time.cpp): `tm_year` counts from 1900,
`tm_mon` from 0, `tm_wday` from Sunday. -/
structure Tm where
  tm_sec : Nat
  tm_min : Nat
  tm_hour : Nat
  tm_mday : Nat
  tm_mon : Nat
  tm_year : Nat
  tm_wday : Nat
  deriving DecidableEq, Repr

/-- Modelled from the spec: `gmtime_r` for a number of seconds since the epoch,
1 January 1970, a Thursday (C library, used by the absent renderings of
process/time.cpp). -/
def gmtime (secs : Nat) : Tm :=
  let days := secs / 86400
  let rem := secs % 86400
  let yd := yearOf (days / 365 + 1) 1970 days
  let md := monthOf 12 (isLeapYear yd.1) 0 yd.2
  { tm_sec := rem % 60
    tm_min := rem / 60 % 60
    tm_hour := rem / 3600
    tm_mday := md.2 + 1
    tm_mon := md.1
    tm_year := yd.1 - 1900
    tm_wday := (days + 4) % 7 }

/-- Modelled from the spec: a number printed in decimal on `width` characters,
filled with zeros on the left (what `strftime` and `setfill('0')`, `setw` give
in the absent renderings of process/time.cpp). -/
def digits : Nat → Nat → List Char
  | 0, _ => []
  | width + 1, n => digits width (n / 10) ++ [Char.ofNat (48 + n % 10)]

/-- Modelled from the spec: the abbreviated weekday names of `strftime`, from
Sunday. -/
def dayNames : List String := ["Sun", "Mon", "Tue", "Wed", "Thu", "Fri", "Sat"]

/-- Modelled from the spec: the abbreviated month names of `strftime`. -/
def monthNames : List String :=
  ["Jan", "Feb", "Mar", "Apr", "May", "Jun", "Jul", "Aug", "Sep", "Oct", "Nov", "Dec"]

/-- Modelled from the spec: `strftime` with "%Y-%m-%d %H:%M:%S". -/
def strftimeDateTime (tm : Tm) : List Char :=
  digits 4 (tm.tm_year + 1900) ++ ['-'] ++ digits 2 (tm.tm_mon + 1) ++ ['-'] ++
    digits 2 tm.tm_mday ++ [' '] ++ digits 2 tm.tm_hour ++ [':'] ++
    digits 2 tm.tm_min ++ [':'] ++ digits 2 tm.tm_sec

/-- Modelled from the spec: `strftime` with "%a, %d %b %Y %H:%M:%S GMT". -/
def strftimeHttp (tm : Tm) : List Char :=
  (dayNames.getD tm.tm_wday "").data ++ [',', ' '] ++ digits 2 tm.tm_mday ++ [' '] ++
    (monthNames.getD tm.tm_mon "").data ++ [' '] ++ digits 4 (tm.tm_year + 1900) ++
    [' '] ++ digits 2 tm.tm_hour ++ [':'] ++ digits 2 tm.tm_min ++ [':'] ++
    digits 2 tm.tm_sec ++ [' ', 'G', 'M', 'T']

/-- Modelled from the spec: the wrapper `RFC3339` of process/time.hpp (not
embedded here). -/
structure RFC3339 where
  time : Time

/-- Modelled from the spec: the wrapper `RFC1123` of process/time.hpp (not
embedded here). -/
structure RFC1123 where
  time : Time

/-- Modelled from the spec: `stringify(RFC3339(t))` (process/time.cpp, not
embedded here; the model follows the expectations of time_tests.cpp): date and
time of the whole seconds, then, unless it is zero, a dot and the nanoseconds
on nine digits, then "+00:00". Times before the epoch are not modelled. -/
def RFC3339.stringify (format : RFC3339) : Option String :=
  if format.time.duration.ns < 0 then none
  else
    let ns := format.time.duration.ns.toNat
    let secs := ns / 1000000000
    let nanoSeconds := ns % 1000000000
    some (String.mk (strftimeDateTime (gmtime secs) ++
      (if nanoSeconds ≠ 0 then ['.'] ++ digits 9 nanoSeconds else []) ++
      ['+', '0', '0', ':', '0', '0']))

/-- Modelled from the spec: `stringify(RFC1123(t))` (process/time.cpp, not
embedded here; the model follows the expectations of time_tests.cpp): weekday,
date and time of the whole seconds. Times before the epoch are not modelled. -/
def RFC1123.stringify (format : RFC1123) : Option String :=
  if format.time.duration.ns < 0 then none
  else
    let secs := format.time.duration.ns.toNat / 1000000000
    some (String.mk (strftimeHttp (gmtime secs)))

/-- Modelled from the spec: `stringify(t)` of a `Time` prints it as RFC 3339
(process/time.cpp, not embedded here). -/
def Time.stringify (t : Time) : Option String :=
  RFC3339.stringify ⟨t⟩

/-- The number of days from 1 January 1970 to the day `d` of month `m` (1 is
January) of year `y` in the Gregorian calendar: the days of the years before
`y`, of the months of `y` before `m`, and of `m` before `d`. This is the
calendar the renderings are compared with. -/
def daysFromCivil (y m d : Nat) : Nat :=
  ((List.range' 1970 (y - 1970)).map daysInYear).sum +
    ((List.range' 0 (m - 1)).map (daysInMonth (isLeapYear y))).sum + (d - 1)

/-- The form "YYYY-MM-DD HH:MM:SS" of a date and a time of day. -/
def dateTimeForm (y m d hour minute sec : Nat) : List Char :=
  digits 4 y ++ ['-'] ++ digits 2 m ++ ['-'] ++ digits 2 d ++ [' '] ++
    digits 2 hour ++ [':'] ++ digits 2 minute ++ [':'] ++ digits 2 sec

/-- The form "Www, DD Mon YYYY HH:MM:SS GMT" of a date, the weekday of day
number `days` (day 0 is a Thursday) and a time of day. -/
def httpForm (days y m d hour minute sec : Nat) : List Char :=
  (dayNames.getD ((days + 4) % 7) "").data ++ [',', ' '] ++ digits 2 d ++ [' '] ++
    (monthNames.getD (m - 1) "").data ++ [' '] ++ digits 4 y ++ [' '] ++
    digits 2 hour ++ [':'] ++ digits 2 minute ++ [':'] ++ digits 2 sec ++
    [' ', 'G', 'M', 'T']

end Runtime

/-! ## Promise and Future: resolution exactly once -/

namespace Runtime

/-- Modelled from the spec: the state of a Future (Future/Promise of
process/future.hpp, which is not embedded here): pending, ready with a value,
failed with a reason, or discarded. -/
inductive FutureState (T : Type) where
  | pending
  | ready (value : T)
  | failed (reason : String)
  | discarded
  deriving DecidableEq, Repr

/-- Modelled from the spec: the state is terminal, that is, not pending. -/
def FutureState.terminal {T : Type} : FutureState T → Bool
  | FutureState.pending => false
  | _ => true

/-- Modelled from the spec: the kinds of continuation that can be attached to a
Future (process/future.hpp, not embedded here). -/
inductive ContinuationKind where
  | onReady
  | onFailed
  | onDiscarded
  | onAny
  deriving DecidableEq, Repr

/-- Modelled from the spec: whether a continuation of this kind is invoked when
the Future is in the given terminal state. -/
def ContinuationKind.fires {T : Type} : ContinuationKind → FutureState T → Bool
  | ContinuationKind.onReady, FutureState.ready _ => true
  | ContinuationKind.onFailed, FutureState.failed _ => true
  | ContinuationKind.onDiscarded, FutureState.discarded => true
  | ContinuationKind.onAny, FutureState.ready _ => true
  | ContinuationKind.onAny, FutureState.failed _ => true
  | ContinuationKind.onAny, FutureState.discarded => true
  | _, _ => false

/-- Modelled from the spec: a Promise with its paired Future
(process/future.hpp, not embedded here): the state, the continuations attached
and not yet considered, in attachment order, each with the number it got when
attached, the number of the next continuation, and the numbers of the
continuations that have been run, in the order they ran. -/
structure Promise (T : Type) where
  state : FutureState T
  continuations : List (Nat × ContinuationKind)
  next : Nat
  ran : List Nat
  deriving DecidableEq, Repr

/-- Modelled from the spec: a new Promise: pending, nothing attached. -/
def Promise.fresh (T : Type) : Promise T :=
  { state := FutureState.pending, continuations := [], next := 0, ran := [] }

/-- Modelled from the spec: attaching a continuation: on a terminal state it
runs inline (when its kind matches the state), otherwise it is stored at the
end of the ordered list. -/
def Promise.attach {T : Type} (p : Promise T) (kind : ContinuationKind) : Promise T :=
  if p.state.terminal then
    { p with
      next := p.next + 1
      ran := if kind.fires p.state then p.ran ++ [p.next] else p.ran }
  else
    { p with
      next := p.next + 1
      continuations := p.continuations ++ [(p.next, kind)] }

/-- Modelled from the spec: a resolution attempt with a terminal state: on a
pending Promise the state is taken, the stored continuations whose kind matches
are invoked in attachment order, and the attempt succeeds; on a Promise that is
already terminal nothing changes and the attempt is reported as an error
(`false`). -/
def Promise.resolve {T : Type} (p : Promise T) (s : FutureState T) : Promise T × Bool :=
  if p.state.terminal then (p, false)
  else
    ({ p with
       state := s
       continuations := []
       ran := p.ran ++ ((p.continuations.filter (fun c => c.2.fires s)).map Prod.fst) },
     true)

/-- Modelled from the spec: `Promise::set`. -/
def Promise.set {T : Type} (p : Promise T) (value : T) : Promise T × Bool :=
  p.resolve (FutureState.ready value)

/-- Modelled from the spec: `Promise::fail`. -/
def Promise.fail {T : Type} (p : Promise T) (reason : String) : Promise T × Bool :=
  p.resolve (FutureState.failed reason)

/-- Modelled from the spec: `Promise::discard`. -/
def Promise.discard {T : Type} (p : Promise T) : Promise T × Bool :=
  p.resolve FutureState.discarded

/-- Modelled from the spec: the value read from the Future, when it is ready. -/
def Promise.get {T : Type} (p : Promise T) : Option T :=
  match p.state with
  | FutureState.ready v => some v
  | _ => none

/-- Modelled from the spec: the operations on a Promise and its Future. -/
inductive PromiseOp (T : Type) where
  | set (value : T)
  | fail (reason : String)
  | discard
  | attach (kind : ContinuationKind)
  deriving DecidableEq, Repr

/-- Modelled from the spec: one operation, and what it reports: `false` is the
error of a second resolution; attaching always succeeds. -/
def Promise.step {T : Type} (p : Promise T) : PromiseOp T → Promise T × Bool
  | PromiseOp.set v => p.set v
  | PromiseOp.fail reason => p.fail reason
  | PromiseOp.discard => p.discard
  | PromiseOp.attach kind => (p.attach kind, true)

/-- Modelled from the spec: a sequence of operations. -/
def Promise.run {T : Type} (p : Promise T) (ops : List (PromiseOp T)) : Promise T :=
  ops.foldl (fun q op => (q.step op).1) p

/-- Every continuation has its own number and has run at most once: the numbers
of the stored continuations and of those that ran are all different and all
below `next`. -/
def Promise.Once {T : Type} (p : Promise T) : Prop :=
  (p.ran ++ p.continuations.map Prod.fst).Nodup ∧
  (∀ c ∈ p.ran ++ p.continuations.map Prod.fst, c < p.next)

end Runtime

/-! ## The clock in paused mode: delayed dispatches and `advance` -/

namespace Runtime

/-- Modelled from the spec: a delayed-dispatch request held by the Clock
(process/clock.hpp and clock.cpp, which are not embedded here): its absolute
fire time, in nanoseconds, and the number it got when it was scheduled. -/
structure Timer where
  fire : Nat
  id : Nat
  deriving DecidableEq, Repr

/-- Modelled from the spec: the Clock in paused mode: the current time, the
pending requests as a priority queue keyed by fire time (requests of equal fire
time in insertion order), the number of the next request, and the requests
fired so far, in the order they fired. -/
structure Clock where
  now : Nat
  timers : List Timer
  next : Nat
  fired : List Timer
  deriving DecidableEq, Repr

/-- Modelled from the spec: a clock paused at a time, with nothing scheduled. -/
def Clock.pausedAt (now : Nat) : Clock :=
  { now := now, timers := [], next := 0, fired := [] }

/-- Modelled from the spec: insertion into the priority queue: after every
request that fires no later. -/
def Clock.enqueue (t : Timer) : List Timer → List Timer
  | [] => [t]
  | x :: rest => if x.fire ≤ t.fire then x :: Clock.enqueue t rest else t :: x :: rest

/-- Modelled from the spec: `delay(duration, ...)` schedules a dispatch at
`now() + duration`. -/
def Clock.delay (c : Clock) (duration : Nat) : Clock :=
  { c with
    timers := Clock.enqueue ⟨c.now + duration, c.next⟩ c.timers
    next := c.next + 1 }

/-- Modelled from the spec: the requests at the head of the queue that are due
at `now`, and the rest of the queue. -/
def Clock.due (now : Nat) : List Timer → List Timer × List Timer
  | [] => ([], [])
  | x :: rest =>
    if x.fire ≤ now then ((x :: (Clock.due now rest).1), (Clock.due now rest).2)
    else ([], x :: rest)

/-- Modelled from the spec: `advance(duration)` in paused mode: the time moves
on and every request now due is fired, from the head of the queue, before it
returns. -/
def Clock.advance (c : Clock) (duration : Nat) : Clock :=
  { c with
    now := c.now + duration
    timers := (Clock.due (c.now + duration) c.timers).2
    fired := c.fired ++ (Clock.due (c.now + duration) c.timers).1 }

/-- Modelled from the spec: the operations on a paused clock. -/
inductive ClockOp where
  | delay (duration : Nat)
  | advance (duration : Nat)
  deriving DecidableEq, Repr

/-- Modelled from the spec: one operation on a paused clock. -/
def Clock.step (c : Clock) : ClockOp → Clock
  | ClockOp.delay duration => c.delay duration
  | ClockOp.advance duration => c.advance duration

/-- Modelled from the spec: a sequence of operations on a paused clock. -/
def Clock.run (c : Clock) (ops : List ClockOp) : Clock :=
  ops.foldl Clock.step c

/-- Fire-time order, ties in scheduling order: `a` fires before `b`. -/
def Timer.before (a b : Timer) : Prop :=
  a.fire < b.fire ∨ (a.fire = b.fire ∧ a.id < b.id)

/-- The queue is in fire-time order with ties in scheduling order, and every
request in it was numbered before `next`. -/
def Clock.Ordered (c : Clock) : Prop :=
  c.timers.Pairwise Timer.before ∧ ∀ t ∈ c.timers, t.id < c.next

end Runtime

namespace Benchmarks

end Benchmarks

namespace Benchmarks

end Benchmarks

/-! ## `DispatchProcess` of benchmarks.cpp: dispatch and defer in a chain -/

namespace Benchmarks

/-- The value of a `long` after an arithmetic operation: the result modulo
2^64, read as a signed number. -/
def wrapLong (x : Int) : Int :=
  (x + 9223372036854775808) % 18446744073709551616 - 9223372036854775808

/-- Fields of `class DispatchProcess`: `long repeat` and `long count = 0`.  The
`Promise<Nothing>* promise` belongs to the caller; what happens to it is an
effect. -/
structure DispatchProcess where
  repeatN : Int
  count : Int
  deriving DecidableEq, Repr

/-- The constructor `DispatchProcess(promise, repeat)`. -/
def DispatchProcess.new (repeatN : Int) : DispatchProcess :=
  { repeatN := repeatN, count := 0 }

/-- What an execution of `handler` asks of the runtime: `promise->set(Nothing())`,
or `dispatch(self(), &Self::_handler).then(defer(self(), &Self::handler<T>, data))`. -/
inductive DispatchEffect (T : Type) where
  | set
  | dispatchThenDefer (data : T)
  deriving DecidableEq, Repr

/-- `DispatchProcess::handler(const T& data)`. -/
def DispatchProcess.handler {T : Type} (p : DispatchProcess) (data : T) :
    DispatchProcess × List (DispatchEffect T) :=
  let p1 := { p with count := wrapLong (p.count + 1) }
  if p1.count ≥ p1.repeatN then (p1, [DispatchEffect.set])
  else (p1, [DispatchEffect.dispatchThenDefer data])

/-- The events in the mailbox of the process: a dispatch of `handler` with its
argument, or a dispatch of `_handler` whose future carries the continuation
`defer(self(), &Self::handler<T>, data)`. -/
inductive DispatchEvent (T : Type) where
  | handler (data : T)
  | _handler (data : T)
  deriving DecidableEq, Repr

/-- The process with its mailbox, and what has been observed: the value of
`count` at each `promise->set`, and the number of executions of `handler` and of
`_handler`. -/
structure DispatchSys (T : Type) where
  process : DispatchProcess
  mailbox : List (DispatchEvent T)
  sets : List Int
  handlerRuns : Nat
  _handlerRuns : Nat
  deriving DecidableEq, Repr

/-- Carry out one effect of `handler`: the dispatch of `_handler` is put at the
end of the mailbox of the process itself, with the continuation attached. -/
def DispatchSys.perform {T : Type} (s : DispatchSys T) : DispatchEffect T → DispatchSys T
  | DispatchEffect.set => { s with sets := s.sets ++ [s.process.count] }
  | DispatchEffect.dispatchThenDefer data =>
    { s with mailbox := s.mailbox ++ [DispatchEvent._handler data] }

/-- The process executes the event at the head of its mailbox.  `_handler`
returns `Nothing()`, which completes the future of its dispatch, and the
continuation dispatches `handler(data)` to the process.  `none` when the
mailbox is empty. -/
def DispatchSys.step {T : Type} (s : DispatchSys T) : Option (DispatchSys T) :=
  match s.mailbox with
  | [] => none
  | DispatchEvent.handler data :: rest =>
    let r := s.process.handler data
    some (r.2.foldl DispatchSys.perform
      { s with process := r.1, mailbox := rest, handlerRuns := s.handlerRuns + 1 })
  | DispatchEvent._handler data :: rest =>
    some { s with mailbox := rest ++ [DispatchEvent.handler data],
                  _handlerRuns := s._handlerRuns + 1 }

/-- The process executes `n` events one after the other; `none` when the
mailbox is empty before that. -/
def DispatchSys.steps {T : Type} : Nat → DispatchSys T → Option (DispatchSys T)
  | 0, s => some s
  | n + 1, s =>
    match s.step with
    | none => none
    | some s1 => DispatchSys.steps n s1

/-- `DispatchProcess::run`: the process is spawned and `handler` is dispatched
once, with `data`. -/
def DispatchSys.init {T : Type} (repeats : Int) (data : T) : DispatchSys T :=
  { process := DispatchProcess.new repeats, mailbox := [DispatchEvent.handler data],
    sets := [], handlerRuns := 0, _handlerRuns := 0 }

end Benchmarks

namespace Benchmarks

/-- The state in which `handler` has been executed `i` times and its next
dispatch waits in the mailbox, `_handler` having been executed `i` times too;
the promise is not set. -/
def DispatchSys.atHandler {T : Type} (repeats : Nat) (data : T) (i : Nat) : DispatchSys T :=
  { process := { repeatN := repeats, count := i },
    mailbox := [DispatchEvent.handler data],
    sets := [], handlerRuns := i, _handlerRuns := i }

/-- The state in which `handler` has been executed `i + 1` times and the
dispatch of `_handler` it made waits in the mailbox, with the continuation that
holds `data`; the promise is not set. -/
def DispatchSys.atInner {T : Type} (repeats : Nat) (data : T) (i : Nat) : DispatchSys T :=
  { process := { repeatN := repeats, count := i + 1 },
    mailbox := [DispatchEvent._handler data],
    sets := [], handlerRuns := i + 1, _handlerRuns := i }

/-- The final state: `count` equals `repeat`, the mailbox is empty, the promise
was set once, when `count` was `repeat`; `handler` was executed `repeat` times
and `_handler` once less. -/
def DispatchSys.done (T : Type) (repeats : Nat) : DispatchSys T :=
  { process := { repeatN := repeats, count := repeats },
    mailbox := [],
    sets := [(repeats : Int)], handlerRuns := repeats, _handlerRuns := repeats - 1 }

end Benchmarks

namespace Benchmarks

end Benchmarks

/-! # Theorems -/

namespace Benchmarks

theorem Client.runLoop_sends (m : Nat) (c : Client) :
    Client.runLoop m c =
      ({ c with sent := c.sent + m },
        List.replicate m (Effect.send c.destination "ping" "")) := by
  induction m generalizing c with
  | zero => simp [Client.runLoop]
  | succ m ih =>
    simp only [Client.runLoop, ih, List.replicate_succ]
    refine Prod.ext ?_ rfl
    simp only [Nat.cast_add, Nat.cast_one]
    congr 1
    omega

theorem Sys.perform_pings (m : Nat) (s : Sys) :
    (List.replicate m (Effect.send destinationPid "ping" "")).foldl
        (Sys.perform Pid.client) s =
      { s with pingsSent := s.pingsSent + m,
               destinationBox := s.destinationBox ++ List.replicate m pingMsg } := by
  induction m generalizing s with
  | zero => simp
  | succ m ih =>
    rw [List.replicate_succ, List.foldl_cons, ih]
    have hne : destinationPid ≠ clientPid := by decide
    simp [Sys.perform, hne, pingMsg, List.replicate_succ]
    omega

end Benchmarks

namespace Benchmarks

theorem Sys.Inv_step (repeatN : Int) (h : 1 ≤ repeatN) (n : Nat) (s s1 : Sys)
    (p : Pid) (hinv : Sys.Inv repeatN n s) (hd : s.deliver p = some s1) :
    Sys.Inv repeatN (n + 1) s1 := by
  rcases hinv with ⟨hn, rfl⟩ | ⟨j, k, hdb, hcb, hdest, hrep, hsent, hrecv, hps, hpo, hpp, hle, hlt, hlatch, hn⟩
  · -- the initial state: only the client can run, on "run"
    cases p with
    | destination => simp [Sys.deliver, Sys.init] at hd
    | client =>
      simp only [Sys.deliver, Sys.init, Client.visit, Client.new] at hd
      simp only [Client.runLoop_sends] at hd
      simp [Sys.perform_pings] at hd
      subst hd
      right
      refine ⟨(min 1000 repeatN).toNat, 0, ?_⟩
      simp
      omega
  · cases p with
    | destination =>
      cases j with
      | zero => simp [Sys.deliver, hdb] at hd
      | succ j =>
        simp only [Sys.deliver, hdb, List.replicate_succ] at hd
        have hne : clientPid ≠ destinationPid := by decide
        simp [Destination.visit, pingMsg, Sys.perform] at hd
        subst hd
        right
        refine ⟨j, k + 1, ?_⟩
        simp [hcb, hdest, hrep, hsent, hrecv, pingMsg, pongMsg, hlatch, List.replicate_succ']
        omega
    | client =>
      cases k with
      | zero => simp [Sys.deliver, hcb] at hd
      | succ k =>
        simp only [Sys.deliver, hcb, List.replicate_succ] at hd
        simp only [Client.visit, pongMsg] at hd
        by_cases h1 : s.client.sent < s.client.repeatN
        · simp [h1, Sys.perform, hdest] at hd
          have hne : destinationPid ≠ clientPid := by decide
          simp [hne] at hd
          subst hd
          right
          refine ⟨j + 1, k, ?_⟩
          simp [hdb, hdest, hrep, hsent, hrecv, pingMsg, pongMsg, List.replicate_succ']
          rw [hsent, hrep] at h1
          refine ⟨by omega, by omega, by omega, by omega, by omega, ?_, by omega⟩
          have : ¬ ((s.pongsReceived : Int) + 1 = repeatN) := by omega
          have h0 : ¬ ((s.pongsReceived : Int) = repeatN) := by omega
          simp [this, hlatch, h0]
        · by_cases h2 : s.client.received + 1 ≥ s.client.repeatN
          · simp [h1, h2, Sys.perform] at hd
            subst hd
            right
            refine ⟨j, k, ?_⟩
            simp [hdb, hdest, hrep, hsent, hrecv, pongMsg]
            rw [hsent, hrep] at h1
            rw [hrecv, hrep] at h2
            have h0 : ¬ ((s.pongsReceived : Int) = repeatN) := by omega
            have h3 : (s.pongsReceived : Int) + 1 = repeatN := by omega
            simp [hlatch, h0, h3]
            omega
          · simp [h1, h2, Sys.perform] at hd
            subst hd
            right
            refine ⟨j, k, ?_⟩
            simp [hdb, hdest, hrep, hsent, hrecv, pongMsg]
            rw [hsent, hrep] at h1
            rw [hrecv, hrep] at h2
            have h0 : ¬ ((s.pongsReceived : Int) = repeatN) := by omega
            have h3 : ¬ ((s.pongsReceived : Int) + 1 = repeatN) := by omega
            simp [hlatch, h0, h3]
            omega

end Benchmarks

namespace Benchmarks

theorem Sys.Inv_schedule (repeatN : Int) (h : 1 ≤ repeatN) (schedule : List Pid) :
    ∀ (n : Nat) (s s1 : Sys), Sys.Inv repeatN n s → s.exec schedule = some s1 →
      Sys.Inv repeatN (n + schedule.length) s1 := by
  induction schedule with
  | nil =>
    intro n s s1 hinv he
    simp only [Sys.exec, Option.some.injEq] at he
    subst he
    simpa using hinv
  | cons p ps ih =>
    intro n s s1 hinv he
    simp only [Sys.exec] at he
    cases hd : s.deliver p with
    | none => simp [hd] at he
    | some s2 =>
      simp only [hd] at he
      have h2 := ih (n + 1) s2 s1 (Sys.Inv_step repeatN h n s s2 p hinv hd) he
      have hlen : n + (p :: ps).length = n + 1 + ps.length := by
        simp only [List.length_cons]; omega
      rw [hlen]
      exact h2

theorem Sys.progress (s : Sys) (hq : s.quiescent = false) :
    ∃ p s1, s.deliver p = some s1 := by
  cases hc : s.clientBox with
  | cons e rest => exact ⟨Pid.client, by simp [Sys.deliver, hc]⟩
  | nil =>
    cases hb : s.destinationBox with
    | cons e rest => exact ⟨Pid.destination, by simp [Sys.deliver, hb]⟩
    | nil => simp [Sys.quiescent, hc, hb] at hq

/-- C1: in the pair of a `Client` and a `Destination` with FIFO mailboxes, for
every `repeat >= 1` and every schedule of a run started by one "run" message:
the run has at most `2 * repeat + 1` steps and is over exactly when it has that
many; while it is not over some process can take a step; when it is over the
client has sent exactly `repeat` pings, the destination has handled exactly
`repeat` pings and sent exactly `repeat` pongs, the client has handled exactly
`repeat` pongs; and at every moment the latch has been decremented once, with
`received = repeat` at the call, if `received = repeat`, and never otherwise;
the counters stay between 0 and `repeat`, so that they do not overflow; and the
destination has sent exactly one pong for every ping it has handled. -/
theorem throughput_run_counts (repeatN : Int) (h : 1 ≤ repeatN)
    (schedule : List Pid) (s : Sys)
    (hs : (Sys.init repeatN).exec schedule = some s) :
    schedule.length ≤ 2 * repeatN.toNat + 1 ∧
    (s.quiescent = true ↔ schedule.length = 2 * repeatN.toNat + 1) ∧
    (s.quiescent = false → ∃ p s1, s.deliver p = some s1) ∧
    (s.quiescent = true →
      (s.pingsSent : Int) = repeatN ∧ (s.pingsReceived : Int) = repeatN ∧
      (s.pongsSent : Int) = repeatN ∧ (s.pongsReceived : Int) = repeatN ∧
      s.client.sent = repeatN ∧ s.client.received = repeatN) ∧
    s.latch = (if s.client.received = repeatN then [repeatN] else []) ∧
    (0 ≤ s.client.received ∧ s.client.received ≤ s.client.sent ∧
      s.client.sent ≤ repeatN) ∧
    s.pongsSent = s.pingsReceived := by
  have hinv := Sys.Inv_schedule repeatN h schedule 0 (Sys.init repeatN) s
    (Or.inl ⟨rfl, rfl⟩) hs
  rw [Nat.zero_add] at hinv
  refine ⟨?_, ?_, Sys.progress s, ?_, ?_, ?_, ?_⟩ <;>
  rcases hinv with ⟨hn, rfl⟩ | ⟨j, k, hdb, hcb, hdest, hrep, hsent, hrecv, hps, hpo, hpp, hle, hlt, hlatch, hn⟩
  · omega
  · omega
  · simp [Sys.quiescent, Sys.init]; omega
  · have hq : s.quiescent = true ↔ (j = 0 ∧ k = 0) := by
      simp only [Sys.quiescent, hdb, hcb, Bool.and_eq_true, List.isEmpty_eq_true]
      cases j <;> cases k <;> simp [List.replicate_succ]
    rw [hq]
    constructor
    · rintro ⟨rfl, rfl⟩; omega
    · intro hl; omega
  · simp [Sys.quiescent, Sys.init]
  · intro hq
    have hq2 : j = 0 ∧ k = 0 := by
      simp only [Sys.quiescent, hdb, hcb, Bool.and_eq_true, List.isEmpty_eq_true] at hq
      cases j <;> cases k <;> simp_all [List.replicate_succ]
    obtain ⟨rfl, rfl⟩ := hq2
    rw [hsent, hrecv]
    omega
  · have : ¬ ((0 : Int) = repeatN) := by omega
    simp [Sys.init, Client.new, this]
  · rw [hlatch, hrecv]
  · simp [Sys.init, Client.new]; omega
  · rw [hsent, hrecv]; omega
  · rfl
  · exact hpp.symm

/-- Witness for C1: `repeat = 2` and the schedule client, destination,
destination, client, client. -/
theorem throughput_run_counts_witness :
    (1 : Int) ≤ 2 ∧
    (Sys.init 2).exec [Pid.client, Pid.destination, Pid.destination, Pid.client,
        Pid.client] =
      some { client := { destination := destinationPid, repeatN := 2, sent := 2,
                         received := 2 },
             clientBox := [], destinationBox := [], pingsSent := 2,
             pingsReceived := 2, pongsSent := 2, pongsReceived := 2,
             latch := [2] } ∧
    [Pid.client, Pid.destination, Pid.destination, Pid.client, Pid.client].length
      ≤ 2 * (2 : Int).toNat + 1 :=
  ⟨by decide, by decide,
    (throughput_run_counts 2 (by decide)
      [Pid.client, Pid.destination, Pid.destination, Pid.client, Pid.client]
      { client := { destination := destinationPid, repeatN := 2, sent := 2,
                    received := 2 },
        clientBox := [], destinationBox := [], pingsSent := 2,
        pingsReceived := 2, pongsSent := 2, pongsReceived := 2,
        latch := [2] } (by decide)).1⟩

end Benchmarks

namespace Scheduler

theorem Worker.on_of_executes (w : Worker) (p : ProcessId)
    (h : w.executes p = true) : w.on p = true := by
  cases w <;> simp_all [Worker.executes, Worker.on]

theorem State.Exclusive_init : State.init.Exclusive := by
  constructor
  · intro p w1 w2 h1
    simp [State.init, Worker.on] at h1
  · intro p
    simp [State.init, Worker.on]

theorem State.Exclusive_step (workers : Nat) (s s1 : State) (a : Action)
    (hinv : s.Exclusive) (hstep : s.step workers a = some s1) : s1.Exclusive := by
  obtain ⟨huniq, hflag⟩ := hinv
  cases a with
  | enqueue p e =>
    simp only [State.step, Option.some.injEq] at hstep
    subst hstep
    exact ⟨huniq, hflag⟩
  | acquire w =>
    simp only [State.step] at hstep
    split at hstep
    · split at hstep
      · rename_i p rest hw hq
        split at hstep
        · simp only [Option.some.injEq] at hstep
          subst hstep
          exact ⟨huniq, hflag⟩
        · rename_i hrun
          simp only [Option.some.injEq] at hstep
          subst hstep
          have hnone : ∀ v, (s.worker v).on p = false := by
            intro v
            by_contra hv
            exact hrun ((hflag p).2 ⟨v, by simpa using hv⟩)
          constructor
          · intro q w1 w2 h1 h2
            simp only [Function.update_apply] at h1 h2
            by_cases e1 : w1 = w <;> by_cases e2 : w2 = w
            · rw [e1, e2]
            · simp only [e1, if_true] at h1
              simp only [e2, if_false] at h2
              simp only [Worker.on, decide_eq_true_eq] at h1
              subst h1
              rw [hnone w2] at h2
              exact absurd h2 (by simp)
            · simp only [e1, if_false] at h1
              simp only [e2, if_true] at h2
              simp only [Worker.on, decide_eq_true_eq] at h2
              subst h2
              rw [hnone w1] at h1
              exact absurd h1 (by simp)
            · simp only [e1, e2, if_false] at h1 h2
              exact huniq q w1 w2 h1 h2
          · intro q
            simp only [Function.update_apply]
            by_cases eq : q = p
            · subst eq
              simp only [if_true, true_iff]
              exact ⟨w, by simp [Worker.on]⟩
            · simp only [eq, if_false]
              rw [hflag q]
              constructor
              · rintro ⟨v, hv⟩
                refine ⟨v, ?_⟩
                by_cases ev : v = w
                · subst ev
                  rw [hw] at hv
                  simp [Worker.on] at hv
                · simpa [ev] using hv
              · rintro ⟨v, hv⟩
                by_cases ev : v = w
                · subst ev
                  simp only [if_true, Worker.on, decide_eq_true_eq] at hv
                  exact absurd hv.symm eq
                · exact ⟨v, by simpa [ev] using hv⟩
      · simp at hstep
    · simp at hstep
  | dequeue w =>
    simp only [State.step] at hstep
    split at hstep
    · rename_i p hw
      split at hstep
      · simp at hstep
      · rename_i e rest hm
        simp only [Option.some.injEq] at hstep
        subst hstep
        have hon : ∀ v q, ((Function.update s.worker w (Worker.executing p e)) v).on q
            = (s.worker v).on q := by
          intro v q
          by_cases ev : v = w
          · subst ev; simp [hw, Worker.on]
          · simp [ev]
        constructor
        · intro q w1 w2 h1 h2
          simp only [hon] at h1 h2
          exact huniq q w1 w2 h1 h2
        · intro q
          simp only [hon]
          exact hflag q
    · simp at hstep
  | finish w =>
    simp only [State.step] at hstep
    split at hstep
    · rename_i p e hw
      simp only [Option.some.injEq] at hstep
      subst hstep
      have hon : ∀ v q, ((Function.update s.worker w (Worker.draining p)) v).on q
          = (s.worker v).on q := by
        intro v q
        by_cases ev : v = w
        · subst ev; simp [hw, Worker.on]
        · simp [ev]
      constructor
      · intro q w1 w2 h1 h2
        simp only [hon] at h1 h2
        exact huniq q w1 w2 h1 h2
      · intro q
        simp only [hon]
        exact hflag q
    · simp at hstep
  | release w =>
    simp only [State.step] at hstep
    split at hstep
    · rename_i p hw
      split at hstep
      · simp only [Option.some.injEq] at hstep
        subst hstep
        have hwp : (s.worker w).on p = true := by simp [hw, Worker.on]
        constructor
        · intro q w1 w2 h1 h2
          simp only [Function.update_apply] at h1 h2
          by_cases e1 : w1 = w
          · simp [e1, Worker.on] at h1
          · by_cases e2 : w2 = w
            · simp [e2, Worker.on] at h2
            · simp only [e1, e2, if_false] at h1 h2
              exact huniq q w1 w2 h1 h2
        · intro q
          simp only [Function.update_apply]
          by_cases eq : q = p
          · subst eq
            simp only [if_true, Bool.false_eq_true, false_iff, not_exists]
            intro v hv
            by_cases ev : v = w
            · simp [ev, Worker.on] at hv
            · simp only [ev, if_false] at hv
              exact ev (huniq q v w hv hwp)
          · simp only [eq, if_false]
            rw [hflag q]
            constructor
            · rintro ⟨v, hv⟩
              refine ⟨v, ?_⟩
              by_cases ev : v = w
              · subst ev
                rw [hw] at hv
                simp only [Worker.on, decide_eq_true_eq] at hv
                exact absurd hv.symm eq
              · simpa [ev] using hv
            · rintro ⟨v, hv⟩
              by_cases ev : v = w
              · simp [ev, Worker.on] at hv
              · exact ⟨v, by simpa [ev] using hv⟩
      · simp at hstep
    · simp at hstep

theorem State.Exclusive_run (workers : Nat) (acts : List Action) :
    ∀ s s1 : State, s.Exclusive → s.run workers acts = some s1 → s1.Exclusive := by
  induction acts with
  | nil =>
    intro s s1 hinv hr
    simp only [State.run, Option.some.injEq] at hr
    subst hr
    exact hinv
  | cons a rest ih =>
    intro s s1 hinv hr
    simp only [State.run] at hr
    cases hs : s.step workers a with
    | none => simp [hs] at hr
    | some s2 =>
      simp only [hs] at hr
      exact ih s2 s1 (State.Exclusive_step workers s s2 a hinv hs) hr

end Scheduler

namespace Scheduler

theorem State.dequeue_under_flag (workers : Nat) (s s1 : State) (a : Action)
    (p : ProcessId) (hinv : s.Exclusive) (hstep : s.step workers a = some s1)
    (hlen : (s1.mailbox p).length < (s.mailbox p).length) :
    s.running p = true ∧ ∃ w, a = Action.dequeue w ∧ (s.worker w).on p = true := by
  cases a with
  | enqueue q e =>
    simp only [State.step, Option.some.injEq] at hstep
    subst hstep
    simp only [Function.update_apply] at hlen
    split at hlen
    · rename_i h; subst h; simp at hlen
    · omega
  | acquire w =>
    simp only [State.step] at hstep
    split at hstep
    · split at hstep
      · split at hstep <;>
        · simp only [Option.some.injEq] at hstep
          subst hstep
          simp at hlen
      · simp at hstep
    · simp at hstep
  | dequeue w =>
    simp only [State.step] at hstep
    split at hstep
    · rename_i q hw
      split at hstep
      · simp at hstep
      · rename_i e rest hm
        simp only [Option.some.injEq] at hstep
        subst hstep
        simp only [Function.update_apply] at hlen
        split at hlen
        · rename_i h
          subst h
          have hon : (s.worker w).on p = true := by simp [hw, Worker.on]
          exact ⟨(hinv.2 p).2 ⟨w, hon⟩, w, rfl, hon⟩
        · omega
    · simp at hstep
  | finish w =>
    simp only [State.step] at hstep
    split at hstep
    · simp only [Option.some.injEq] at hstep
      subst hstep
      simp at hlen
    · simp at hstep
  | release w =>
    simp only [State.step] at hstep
    split at hstep
    · split at hstep
      · simp only [Option.some.injEq] at hstep
        subst hstep
        simp at hlen
      · simp at hstep
    · simp at hstep

theorem State.clear_when_empty (workers : Nat) (s s1 : State) (a : Action)
    (p : ProcessId) (hstep : s.step workers a = some s1)
    (hset : s.running p = true) (hclear : s1.running p = false) :
    s.mailbox p = [] := by
  cases a with
  | enqueue q e =>
    simp only [State.step, Option.some.injEq] at hstep
    subst hstep
    simp [hset] at hclear
  | acquire w =>
    simp only [State.step] at hstep
    split at hstep
    · split at hstep
      · split at hstep
        · simp only [Option.some.injEq] at hstep
          subst hstep
          simp [hset] at hclear
        · simp only [Option.some.injEq] at hstep
          subst hstep
          simp only [Function.update_apply] at hclear
          split at hclear
          · simp at hclear
          · simp [hset] at hclear
      · simp at hstep
    · simp at hstep
  | dequeue w =>
    simp only [State.step] at hstep
    split at hstep
    · split at hstep
      · simp at hstep
      · simp only [Option.some.injEq] at hstep
        subst hstep
        simp [hset] at hclear
    · simp at hstep
  | finish w =>
    simp only [State.step] at hstep
    split at hstep
    · simp only [Option.some.injEq] at hstep
      subst hstep
      simp [hset] at hclear
    · simp at hstep
  | release w =>
    simp only [State.step] at hstep
    split at hstep
    · rename_i q hw
      split at hstep
      · rename_i hempty
        simp only [Option.some.injEq] at hstep
        subst hstep
        simp only [Function.update_apply] at hclear
        split at hclear
        · rename_i h
          subst h
          simpa using hempty
        · simp [hset] at hclear
      · simp at hstep
    · simp at hstep

/-- C2: in every state the scheduler reaches from its initial state, for every
process `p`: at most one worker executes handler code of `p`; at most one worker
holds the "currently running" flag of `p` (drains its mailbox), and the flag is
set exactly when some worker does; a step that dequeues an event of `p` is taken
by the worker that holds the flag, which is set before the step; and a step
that clears the flag starts from a state where the mailbox of `p` is empty. -/
theorem scheduler_one_worker_per_process (workers : Nat) (acts : List Action)
    (s : State) (hr : State.init.run workers acts = some s) :
    (∀ p w1 w2, (s.worker w1).executes p = true →
      (s.worker w2).executes p = true → w1 = w2) ∧
    (∀ p w1 w2, (s.worker w1).on p = true → (s.worker w2).on p = true → w1 = w2) ∧
    (∀ p, s.running p = true ↔ ∃ w, (s.worker w).on p = true) ∧
    (∀ a s1 p, s.step workers a = some s1 →
      (s1.mailbox p).length < (s.mailbox p).length →
      s.running p = true ∧ ∃ w, a = Action.dequeue w ∧ (s.worker w).on p = true) ∧
    (∀ a s1 p, s.step workers a = some s1 → s.running p = true →
      s1.running p = false → s.mailbox p = []) := by
  have hinv := State.Exclusive_run workers acts State.init s State.Exclusive_init hr
  refine ⟨?_, hinv.1, hinv.2, ?_, ?_⟩
  · intro p w1 w2 h1 h2
    exact hinv.1 p w1 w2 (Worker.on_of_executes _ p h1) (Worker.on_of_executes _ p h2)
  · intro a s1 p hstep hlen
    exact State.dequeue_under_flag workers s s1 a p hinv hstep hlen
  · intro a s1 p hstep hset hclear
    exact State.clear_when_empty workers s s1 a p hstep hset hclear

/-- Witness for C2: one event for process 0, taken and dequeued by worker 0 of a
pool of two. -/
theorem scheduler_one_worker_per_process_witness :
    State.init.run 2 [Action.enqueue 0 7, Action.acquire 0, Action.dequeue 0]
      = some State.sample ∧
    (State.sample.running 0 = true ↔
      ∃ w, (State.sample.worker w).on 0 = true) :=
  ⟨rfl,
    (scheduler_one_worker_per_process 2
      [Action.enqueue 0 7, Action.acquire 0, Action.dequeue 0]
      State.sample rfl).2.2.1 0⟩

end Scheduler

namespace Benchmarks

theorem ClientProcess.runLoop_eq (fuel : Nat) (p : ClientProcess)
    (h1 : p.requests + fuel ≤ p.concurrency) (h2 : p.concurrency < SIZE_MODULUS) :
    ClientProcess.runLoop fuel p =
      ({ p with requests := p.requests + fuel },
        List.replicate fuel (Effect.send p.server "ping" p.message)) := by
  induction fuel generalizing p with
  | zero => simp [ClientProcess.runLoop]
  | succ fuel ih =>
    have hlt : p.requests < p.concurrency := by omega
    have hmod : (p.requests + 1) % SIZE_MODULUS = p.requests + 1 :=
      Nat.mod_eq_of_lt (by omega)
    simp only [ClientProcess.runLoop, hlt, if_true, hmod]
    rw [ih _ (by simp only; omega) (by simpa using h2)]
    simp only [List.replicate_succ]
    refine Prod.ext ?_ rfl
    simp only
    congr 1
    omega

theorem CSys.foldl_pings (msg : String) (m : Nat) (s : CSys) :
    (List.replicate m (Effect.send serverPid "ping" msg)).foldl
        CSys.performClient s =
      { s with pingsSent := s.pingsSent + m,
               serverBox := s.serverBox ++
                 List.replicate m ⟨clientPid, "ping", msg⟩ } := by
  induction m generalizing s with
  | zero => simp
  | succ m ih =>
    rw [List.replicate_succ, List.foldl_cons, ih]
    simp [CSys.performClient, List.replicate_succ]
    omega

theorem ClientProcess.missing_none (lib : Library) (request : Request)
    (horder : lib.order.Perm ["server", "messageSize", "requests", "concurrency"])
    (h1 : (request.get "server").isSome = true)
    (h2 : (request.get "messageSize").isSome = true)
    (h3 : (request.get "requests").isSome = true)
    (h4 : (request.get "concurrency").isSome = true) :
    ClientProcess.missing lib request = none := by
  simp only [ClientProcess.missing, List.find?_eq_none]
  intro x hx
  have hx2 := horder.subset hx
  simp only [List.mem_cons, List.mem_singleton, List.not_mem_nil, or_false] at hx2
  rcases hx2 with rfl | rfl | rfl | rfl <;> intro h0 <;>
    simp only [Option.isNone_iff_eq_none] at h0 <;>
    simp [h0] at h1 h2 h3 h4

end Benchmarks

namespace Benchmarks

theorem ClientProcess.run_new (lib : Library) (request : Request)
    (ms rs cs : String) (size N c : Nat)
    (horder : lib.order.Perm ["server", "messageSize", "requests", "concurrency"])
    (hserver : request.get "server" = some "server")
    (hms : request.get "messageSize" = some ms)
    (hsize : lib.parseBytes ms = Except.ok size)
    (hrs : request.get "requests" = some rs) (hN : lib.numify rs = Except.ok N)
    (hcs : request.get "concurrency" = some cs) (hc : lib.numify cs = Except.ok c)
    (hN2 : N < SIZE_MODULUS) :
    ClientProcess.run lib ClientProcess.new request =
      ({ server := serverPid, duration := true,
         message := String.mk (List.replicate size '1'),
         requests := min c N, responses := 0, totalRequests := N,
         concurrency := min c N },
       Effect.link serverPid ::
         List.replicate (min c N)
           (Effect.send serverPid "ping" (String.mk (List.replicate size '1'))),
       RunResult.pending) := by
  have hmiss := ClientProcess.missing_none lib request horder
    (by simp [hserver]) (by simp [hms]) (by simp [hrs]) (by simp [hcs])
  simp only [ClientProcess.run, ClientProcess.new, hmiss, hserver, hms, hrs, hcs,
    hsize, hN, hc, Option.getD_some, Bool.false_eq_true, if_false]
  by_cases hgt : c > N
  · have hmin : min c N = N := by omega
    simp only [hgt, if_true, ClientProcess._run, hmin]
    rw [ClientProcess.runLoop_eq _ _ (by simp) (by simpa using hN2)]
    simp [serverPid]
  · have hmin : min c N = c := by omega
    simp only [hgt, if_false, ClientProcess._run, hmin]
    rw [ClientProcess.runLoop_eq _ _ (by simp) (by simp only; omega)]
    simp [serverPid]

theorem CSys.Inv_deliver (lib : Library) (request : Request)
    (ms rs cs : String) (size N c : Nat)
    (horder : lib.order.Perm ["server", "messageSize", "requests", "concurrency"])
    (hserver : request.get "server" = some "server")
    (hms : request.get "messageSize" = some ms)
    (hsize : lib.parseBytes ms = Except.ok size)
    (hrs : request.get "requests" = some rs) (hN : lib.numify rs = Except.ok N)
    (hcs : request.get "concurrency" = some cs) (hc : lib.numify cs = Except.ok c)
    (hN1 : 1 ≤ N) (hN2 : N < SIZE_MODULUS) (hc1 : 1 ≤ c)
    (n : Nat) (s s1 : CSys) (p : Pid)
    (hinv : CSys.Inv request (String.mk (List.replicate size '1')) N c n s)
    (hd : s.deliver lib p = some s1) :
    CSys.Inv request (String.mk (List.replicate size '1')) N c (n + 1) s1 := by
  rcases hinv with ⟨hn, rfl⟩ | ⟨j, k, hsb, hcb, hsrv, hmsg, htot, hconc, hreq, hresp,
    hdur, hps, hpo, hpp, hle, hfl, hlt, hsets, hres, hab, hlinks, hn⟩
  · cases p with
    | destination => simp [CSys.deliver, CSys.init, CSys.request] at hd
    | client =>
      simp only [CSys.deliver, CSys.init, CSys.request, List.nil_append,
        Bool.false_eq_true, if_false] at hd
      rw [ClientProcess.run_new lib request ms rs cs size N c horder hserver hms
        hsize hrs hN hcs hc hN2] at hd
      simp only [List.foldl_cons, CSys.performClient, CSys.foldl_pings,
        Option.some.injEq] at hd
      subst hd
      right
      refine ⟨min c N, 0, ?_⟩
      simp [ServerProcess.new]
      omega
  · cases p with
    | destination =>
      cases j with
      | zero => simp [CSys.deliver, hsb] at hd
      | succ j =>
        simp only [CSys.deliver, hsb, List.replicate_succ] at hd
        simp only [if_true, ServerProcess.ping, hlinks] at hd
        by_cases h0 : s.pingsReceived = 0
        · simp [h0, CSys.performServer] at hd
          subst hd
          right
          refine ⟨j, k + 1, ?_⟩
          simp [hcb, hsrv, hmsg, htot, hconc, hreq, hresp, hdur, hsets, hres, hab,
            List.replicate_succ']
          omega
        · simp [h0, CSys.performServer] at hd
          subst hd
          right
          refine ⟨j, k + 1, ?_⟩
          have hl : s.server.links = [clientPid] := by rw [hlinks]; simp [h0]
          simp [hcb, hsrv, hmsg, htot, hconc, hreq, hresp, hdur, hsets, hres, hab,
            List.replicate_succ', hl]
          omega
    | client =>
      cases k with
      | zero => simp [CSys.deliver, hcb, hab] at hd
      | succ k =>
        simp only [CSys.deliver, hcb, hab, List.replicate_succ, Bool.false_eq_true,
          if_false, if_true, ClientProcess.pong] at hd
        have hmod : (s.client.responses + 1) % SIZE_MODULUS = s.client.responses + 1 :=
          Nat.mod_eq_of_lt (by omega)
        rw [hmod] at hd
        by_cases h1 : s.client.responses + 1 = s.client.totalRequests
        · have hd2 : s.client.duration = true := by
            rw [hdur]; simp; omega
          simp only [h1, hd2, if_true, List.foldl_cons, List.foldl_nil,
            CSys.performClient, Option.some.injEq] at hd
          subst hd
          right
          refine ⟨j, k, ?_⟩
          have e1 : s.pongsReceived + 1 = N := by omega
          have e0 : ¬ s.pongsReceived = N := by omega
          simp [hsb, hsrv, hmsg, htot, hconc, hreq, hresp, hres, hab, hlinks, hsets,
            e1, e0]
          omega
        · by_cases h2 : s.client.requests < s.client.totalRequests
          · have hmod2 : (s.client.requests + 1) % SIZE_MODULUS = s.client.requests + 1 :=
              Nat.mod_eq_of_lt (by omega)
            simp only [h1, h2, if_true, if_false, hmod2, List.foldl_cons,
              List.foldl_nil, CSys.performClient, hsrv, Option.some.injEq] at hd
            subst hd
            right
            refine ⟨j + 1, k, ?_⟩
            have e1 : ¬ s.pongsReceived + 1 = N := by omega
            have e0 : ¬ s.pongsReceived = N := by omega
            have e2 : s.pongsReceived < N := by omega
            have e3 : s.pongsReceived + 1 < N := by omega
            simp [hsb, hsrv, hmsg, htot, hconc, hreq, hresp, hres, hab, hlinks, hsets,
              e1, e0, e2, e3, hdur, List.replicate_succ']
            omega
          · simp only [h1, h2, if_false, List.foldl_nil, Option.some.injEq] at hd
            subst hd
            right
            refine ⟨j, k, ?_⟩
            have e1 : ¬ s.pongsReceived + 1 = N := by omega
            have e0 : ¬ s.pongsReceived = N := by omega
            have e2 : s.pongsReceived < N := by omega
            have e3 : s.pongsReceived + 1 < N := by omega
            simp [hsb, hsrv, hmsg, htot, hconc, hreq, hresp, hres, hab, hlinks, hsets,
              e1, e0, e2, e3, hdur]
            omega

end Benchmarks

namespace Benchmarks

theorem CSys.Inv_exec (lib : Library) (request : Request)
    (ms rs cs : String) (size N c : Nat)
    (horder : lib.order.Perm ["server", "messageSize", "requests", "concurrency"])
    (hserver : request.get "server" = some "server")
    (hms : request.get "messageSize" = some ms)
    (hsize : lib.parseBytes ms = Except.ok size)
    (hrs : request.get "requests" = some rs) (hN : lib.numify rs = Except.ok N)
    (hcs : request.get "concurrency" = some cs) (hc : lib.numify cs = Except.ok c)
    (hN1 : 1 ≤ N) (hN2 : N < SIZE_MODULUS) (hc1 : 1 ≤ c) (schedule : List Pid) :
    ∀ (n : Nat) (s s1 : CSys),
      CSys.Inv request (String.mk (List.replicate size '1')) N c n s →
      s.exec lib schedule = some s1 →
      CSys.Inv request (String.mk (List.replicate size '1')) N c
        (n + schedule.length) s1 := by
  induction schedule with
  | nil =>
    intro n s s1 hinv he
    simp only [CSys.exec, Option.some.injEq] at he
    subst he
    simpa using hinv
  | cons p ps ih =>
    intro n s s1 hinv he
    simp only [CSys.exec] at he
    cases hd : s.deliver lib p with
    | none => simp [hd] at he
    | some s2 =>
      simp only [hd] at he
      have h2 := ih (n + 1) s2 s1
        (CSys.Inv_deliver lib request ms rs cs size N c horder hserver hms hsize hrs
          hN hcs hc hN1 hN2 hc1 n s s2 p hinv hd) he
      have hlen : n + (p :: ps).length = n + 1 + ps.length := by
        simp only [List.length_cons]; omega
      rw [hlen]
      exact h2

theorem CSys.deliver_of_not_quiescent (lib : Library) (s : CSys)
    (hab : s.aborted = false) (hq : s.quiescent = false) :
    ∃ p s1, s.deliver lib p = some s1 := by
  cases hc : s.clientBox with
  | cons e rest =>
    refine ⟨Pid.client, ?_⟩
    cases e with
    | http r => simp [CSys.deliver, hc, hab]
    | message m =>
      simp only [CSys.deliver, hc, hab, Bool.false_eq_true, if_false]
      split
      · split <;> simp
      · simp
  | nil =>
    cases hb : s.serverBox with
    | cons e rest =>
      refine ⟨Pid.destination, ?_⟩
      simp only [CSys.deliver, hb]
      split <;> simp
    | nil => simp [CSys.quiescent, hc, hb] at hq

/-- C3: for a new `ClientProcess` that receives a `/run` request whose four
parameters are present and parse, with `requests = N >= 1` (a `size_t`),
`concurrency = c >= 1` and the `ServerProcess` as server, for every schedule:
the run has at most `2 * N + 1` steps and is over exactly when it has that many;
while it is not over some process can take a step; when it is over the client
has sent exactly `N` pings and handled exactly `N` pongs, and the server has
handled `N` pings and sent `N` pongs; at every moment the promise has been set
once, while handling the `N`-th pong, if `N` pongs have been handled, and never
otherwise; the holder `duration` is non-null from the request up to the `N`-th
pong and null afterwards; and the client never aborts. -/
theorem client_first_run_counts (lib : Library) (request : Request)
    (ms rs cs : String) (size N c : Nat)
    (horder : lib.order.Perm ["server", "messageSize", "requests", "concurrency"])
    (hserver : request.get "server" = some "server")
    (hms : request.get "messageSize" = some ms)
    (hsize : lib.parseBytes ms = Except.ok size)
    (hrs : request.get "requests" = some rs) (hN : lib.numify rs = Except.ok N)
    (hcs : request.get "concurrency" = some cs) (hc : lib.numify cs = Except.ok c)
    (hN1 : 1 ≤ N) (hN2 : N < SIZE_MODULUS) (hc1 : 1 ≤ c)
    (schedule : List Pid) (s : CSys)
    (hs : (CSys.init.request request).exec lib schedule = some s) :
    schedule.length ≤ 2 * N + 1 ∧
    (s.quiescent = true ↔ schedule.length = 2 * N + 1) ∧
    (s.quiescent = false → ∃ p s1, s.deliver lib p = some s1) ∧
    (s.quiescent = true →
      s.pingsSent = N ∧ s.pingsReceived = N ∧ s.pongsSent = N ∧
      s.pongsReceived = N ∧ s.client.requests = N ∧ s.client.responses = N) ∧
    s.sets = (if s.pongsReceived = N then [N] else []) ∧
    (s.client.duration = true ↔ 1 ≤ schedule.length ∧ s.pongsReceived < N) ∧
    s.aborted = false := by
  have hinv := CSys.Inv_exec lib request ms rs cs size N c horder hserver hms hsize
    hrs hN hcs hc hN1 hN2 hc1 schedule 0 (CSys.init.request request) s
    (Or.inl ⟨rfl, rfl⟩) hs
  rw [Nat.zero_add] at hinv
  have hab : s.aborted = false := by
    rcases hinv with ⟨_, rfl⟩ | ⟨j, k, _, _, _, _, _, _, _, _, _, _, _, _, _, _, _, _,
      _, hab, _, _⟩
    · rfl
    · exact hab
  refine ⟨?_, ?_, CSys.deliver_of_not_quiescent lib s hab, ?_, ?_, ?_, hab⟩ <;>
  rcases hinv with ⟨hn, rfl⟩ | ⟨j, k, hsb, hcb, hsrv, hmsg, htot, hconc, hreq, hresp,
    hdur, hps, hpo, hpp, hle, hfl, hlt, hsets, hres, _, hlinks, hn⟩
  · omega
  · omega
  · simp [CSys.quiescent, CSys.init, CSys.request]; omega
  · have hq : s.quiescent = true ↔ (j = 0 ∧ k = 0) := by
      simp only [CSys.quiescent, hsb, hcb, Bool.and_eq_true, List.isEmpty_eq_true]
      cases j <;> cases k <;> simp [List.replicate_succ]
    rw [hq]
    constructor
    · rintro ⟨rfl, rfl⟩; omega
    · intro hl; omega
  · simp [CSys.quiescent, CSys.init, CSys.request]
  · intro hq
    have hq2 : j = 0 ∧ k = 0 := by
      simp only [CSys.quiescent, hsb, hcb, Bool.and_eq_true, List.isEmpty_eq_true] at hq
      cases j <;> cases k <;> simp_all [List.replicate_succ]
    obtain ⟨rfl, rfl⟩ := hq2
    rw [hreq, hresp]
    omega
  · have : ¬ (0 = N) := by omega
    simp [CSys.init, CSys.request, this]
  · exact hsets
  · simp [CSys.init, CSys.request, ClientProcess.new, hn]
  · rw [hdur]
    simp only [decide_eq_true_eq]
    constructor
    · intro h; exact ⟨by omega, h⟩
    · intro h; exact h.2

/-- Witness for C3: `requests = 2`, `concurrency = 1`, messages of 3 bytes, and
the schedule client, server, client, server, client. -/
theorem client_first_run_counts_witness :
    (CSys.init.request (runRequest "server" "2" "1" "xxx")).exec Library.sample
        [Pid.client, Pid.destination, Pid.client, Pid.destination, Pid.client] =
      some { client := { server := serverPid, duration := false, message := "111",
                         requests := 2, responses := 2, totalRequests := 2,
                         concurrency := 1 },
             server := { links := [clientPid] },
             clientBox := [], serverBox := [], pingsSent := 2, pingsReceived := 2,
             pongsSent := 2, pongsReceived := 2, sets := [2],
             results := [RunResult.pending], aborted := false } ∧
    [Pid.client, Pid.destination, Pid.client, Pid.destination, Pid.client].length
      ≤ 2 * 2 + 1 :=
  ⟨by decide,
    (client_first_run_counts Library.sample (runRequest "server" "2" "1" "xxx")
      "xxx" "2" "1" 3 2 1 (List.Perm.refl _) (by decide) (by decide) rfl
      (by decide) rfl (by decide) rfl (by decide) (by decide) (by decide)
      [Pid.client, Pid.destination, Pid.client, Pid.destination, Pid.client]
      { client := { server := serverPid, duration := false, message := "111",
                    requests := 2, responses := 2, totalRequests := 2,
                    concurrency := 1 },
        server := { links := [clientPid] },
        clientBox := [], serverBox := [], pingsSent := 2, pingsReceived := 2,
        pongsSent := 2, pongsReceived := 2, sets := [2],
        results := [RunResult.pending], aborted := false }
      (by decide)).1⟩

end Benchmarks

namespace Benchmarks

/-- C4, the code at the failing input: a client completes a first run with
`requests = 2`, `concurrency = 1`; no run is in progress (`duration` is null).
A second valid `/run` request with `requests = 2`, `concurrency = 1` is then
handled: the client sends no ping at all (`pingsSent` stays 2), the system is
quiescent, the promise of the second run is never set (`sets` stays `[2]`), its
response stays pending and `duration` stays non-null. -/
theorem client_second_run_stalls :
    (CSys.init.request (runRequest "server" "2" "1" "xxx")).exec Library.sample
        [Pid.client, Pid.destination, Pid.client, Pid.destination, Pid.client] =
      some CSys.afterRun ∧
    CSys.afterRun.quiescent = true ∧
    CSys.afterRun.client.duration = false ∧
    (CSys.afterRun.request (runRequest "server" "2" "1" "xxx")).exec
        Library.sample [Pid.client] =
      some { CSys.afterRun with
        client := { CSys.afterRun.client with duration := true },
        results := [RunResult.pending, RunResult.pending] } ∧
    CSys.quiescent { CSys.afterRun with
        client := { CSys.afterRun.client with duration := true },
        results := [RunResult.pending, RunResult.pending] } = true := by
  refine ⟨by decide, by decide, by decide, by decide, by decide⟩

end Benchmarks

namespace Benchmarks

theorem ServerProcess.pings_length (pings : List (UPID × String)) :
    ∀ p : ServerProcess, (p.pings pings).2.length = pings.length := by
  induction pings with
  | nil => intro p; rfl
  | cons x rest ih =>
    intro p
    obtain ⟨sender, body⟩ := x
    simp only [ServerProcess.pings, List.length_cons, ih]

theorem ServerProcess.pings_getElem (pings : List (UPID × String)) :
    ∀ (p : ServerProcess) (i : Nat) (h : i < pings.length),
      (p.pings pings).2[i]? =
        some ((if pings[i].1 ∈ p.links ∨ pings[i].1 ∈ (pings.take i).map Prod.fst
               then [] else [Effect.link pings[i].1]) ++
              [Effect.send pings[i].1 "pong" pings[i].2]) := by
  induction pings with
  | nil => intro p i h; simp at h
  | cons x rest ih =>
    intro p i h
    obtain ⟨sender, body⟩ := x
    cases i with
    | zero =>
      simp only [ServerProcess.pings, ServerProcess.ping, List.getElem?_cons_zero,
        List.getElem_cons_zero, List.take_zero, List.map_nil, List.not_mem_nil,
        or_false, Option.some.injEq]
      by_cases hm : sender ∈ p.links <;> simp [hm]
    | succ i =>
      have h2 : i < rest.length := by simpa using h
      simp only [ServerProcess.pings, List.getElem?_cons_succ, List.getElem_cons_succ,
        List.take_succ_cons, List.map_cons, List.mem_cons]
      rw [ih _ i h2]
      simp only [ServerProcess.ping]
      by_cases hm : sender ∈ p.links
      · have hc : p.links.contains sender = true := by simpa using hm
        simp only [hc, Bool.not_true, Bool.false_eq_true, if_false]
        by_cases he : rest[i].1 = sender
        · simp [he, hm]
        · simp [he]
      · have hc : p.links.contains sender = false := by simpa using hm
        simp only [hc, Bool.not_false, if_true, List.mem_cons]
        by_cases he : rest[i].1 = sender
        · simp [he]
        · simp [he]

theorem ServerProcess.pings_count_link (u : UPID) (pings : List (UPID × String)) :
    ∀ p : ServerProcess,
      (p.pings pings).2.flatten.count (Effect.link u) =
        if u ∈ p.links then 0 else if u ∈ pings.map Prod.fst then 1 else 0 := by
  induction pings with
  | nil => intro p; simp [ServerProcess.pings]
  | cons x rest ih =>
    intro p
    obtain ⟨sender, body⟩ := x
    simp only [ServerProcess.pings, List.flatten_cons, List.count_append, ih,
      ServerProcess.ping, List.map_cons, List.mem_cons]
    by_cases hm : sender ∈ p.links
    · have hc : p.links.contains sender = true := by simpa using hm
      simp only [hc, Bool.not_true, Bool.false_eq_true, if_false, List.nil_append]
      by_cases hu : u ∈ p.links
      · simp [hu, List.count_cons]
      · have hne : ¬ u = sender := fun e => hu (e ▸ hm)
        have hne2 : ¬ sender = u := fun e => hu (e ▸ hm)
        simp only [hu, if_false, List.count_cons, List.count_nil, beq_iff_eq]
        by_cases hr : u ∈ List.map Prod.fst rest <;> simp [hr, hne, hne2]
    · have hc : p.links.contains sender = false := by simpa using hm
      simp only [hc, Bool.not_false, if_true, List.mem_cons]
      by_cases he : u = sender
      · subst he
        simp [hm, List.count_cons]
      · have he2 : ¬ sender = u := fun e => he e.symm
        by_cases hu : u ∈ p.links
        · simp [hu, he, he2, List.count_cons]
        · simp only [hu, if_false, List.count_cons, List.count_nil, beq_iff_eq,
            List.mem_cons]
          by_cases hr : u ∈ List.map Prod.fst rest <;> simp [hr, he, he2]

/-- C5: for every sequence of pings handled by a new `ServerProcess`: every ping
has its own list of effects; the effects of the `i`-th ping are `link(from)`
exactly when no earlier ping has the same sender, followed by exactly one send
of "pong" to the sender with the body of the ping; and over the whole sequence
`link(u)` is invoked once for every sender `u` and never for another `u`. -/
theorem server_links_once_and_pongs_each (pings : List (UPID × String)) :
    (ServerProcess.new.pings pings).2.length = pings.length ∧
    (∀ (i : Nat) (h : i < pings.length),
      (ServerProcess.new.pings pings).2[i]? =
        some ((if pings[i].1 ∈ (pings.take i).map Prod.fst then []
               else [Effect.link pings[i].1]) ++
              [Effect.send pings[i].1 "pong" pings[i].2])) ∧
    (∀ u : UPID,
      (ServerProcess.new.pings pings).2.flatten.count (Effect.link u) =
        if u ∈ pings.map Prod.fst then 1 else 0) := by
  refine ⟨ServerProcess.pings_length pings _, ?_, ?_⟩
  · intro i h
    have := ServerProcess.pings_getElem pings ServerProcess.new i h
    simpa [ServerProcess.new] using this
  · intro u
    have := ServerProcess.pings_count_link u pings ServerProcess.new
    simpa [ServerProcess.new] using this

end Benchmarks

namespace Benchmarks

/-- Witness for C5: pings from `a`, `b` and `a` again; the third ping is
answered by one pong and no link. -/
theorem server_links_once_and_pongs_each_witness :
    (2 < [((⟨"a"⟩ : UPID), "x"), (⟨"b"⟩, "y"), (⟨"a"⟩, "z")].length) ∧
    (ServerProcess.new.pings [(⟨"a"⟩, "x"), (⟨"b"⟩, "y"), (⟨"a"⟩, "z")]).2[2]? =
      some ((if ([((⟨"a"⟩ : UPID), "x"), (⟨"b"⟩, "y"), (⟨"a"⟩, "z")][2]).1 ∈
                (([((⟨"a"⟩ : UPID), "x"), (⟨"b"⟩, "y"), (⟨"a"⟩, "z")]).take 2).map
                  Prod.fst
             then []
             else [Effect.link
               ([((⟨"a"⟩ : UPID), "x"), (⟨"b"⟩, "y"), (⟨"a"⟩, "z")][2]).1]) ++
            [Effect.send ([((⟨"a"⟩ : UPID), "x"), (⟨"b"⟩, "y"), (⟨"a"⟩, "z")][2]).1
              "pong" ([((⟨"a"⟩ : UPID), "x"), (⟨"b"⟩, "y"), (⟨"a"⟩, "z")][2]).2]) :=
  ⟨by decide,
    (server_links_once_and_pongs_each
      [(⟨"a"⟩, "x"), (⟨"b"⟩, "y"), (⟨"a"⟩, "z")]).2.1 2 (by decide)⟩

end Benchmarks

namespace validation

/-- C6: for every initialized scheduler call of type SUBSCRIBE and every
optional principal, `validate` returns (it does not abort), and it returns None
if and only if `subscribe` is present, the id of `subscribe.framework_info`
equals `call.framework_id` (both read through their accessors), and it is not
the case that the principal is `p` while `framework_info` has a principal
different from `p`.  In particular a call without `framework_id` whose
`framework_info` has no id is accepted, and so is an authenticated principal
when `framework_info` sets no principal. -/
theorem scheduler_subscribe_none_iff {R : Type} (ext : Externals R)
    (call : scheduler.Call) (principal : Option String)
    (hinit : call.IsInitialized = true)
    (htype : call.type = some scheduler.CallType.SUBSCRIBE) :
    (∃ r, scheduler.call.validate ext call principal = Except.ok r) ∧
    (scheduler.call.validate ext call principal = Except.ok none ↔
      ∃ subscribe, call.subscribe = some subscribe ∧
        FrameworkID.get subscribe.framework_info.id
          = FrameworkID.get call.framework_id ∧
        ¬ (∃ p q, principal = some p ∧
            subscribe.framework_info.principal = some q ∧ q ≠ p)) ∧
    (∀ subscribe, call.subscribe = some subscribe →
      call.framework_id = none → subscribe.framework_info.id = none →
      subscribe.framework_info.principal = none →
      scheduler.call.validate ext call principal = Except.ok none) := by
  have hget : ∀ a b : Option FrameworkID,
      (FrameworkID.get a).value = (FrameworkID.get b).value ↔
        FrameworkID.get a = FrameworkID.get b := by
    intro a b
    constructor
    · intro h
      cases ha : FrameworkID.get a
      cases hb : FrameworkID.get b
      simp_all
    · intro h; rw [h]
  cases hsub : call.subscribe with
  | none =>
    simp [scheduler.call.validate, hinit, htype, hsub]
  | some subscribe =>
    simp only [scheduler.call.validate, hinit, htype, hsub, Bool.not_true,
      Bool.false_eq_true, if_false, if_true, ne_eq, ite_not, hget]
    by_cases hid : FrameworkID.get subscribe.framework_info.id
        = FrameworkID.get call.framework_id
    · simp only [hid, if_true]
      cases hp : principal with
      | none => simp [hid]
      | some p =>
        cases hq : subscribe.framework_info.principal with
        | none => simp [hid, hq]
        | some q =>
          by_cases hpq : p = q
          · simp [hid, hpq, hq]
          · have hqp : ¬ q = p := fun e => hpq e.symm
            simp [hid, hpq, hqp, hq]
    · simp only [hid, if_false]
      refine ⟨⟨_, rfl⟩, ?_, ?_⟩
      · simp [hid]
      · intro sub hs h1 h2 h3
        simp only [Option.some.injEq] at hs
        subst hs
        simp [h1, h2] at hid

/-- Witness for C6: a SUBSCRIBE call without `framework_id`, with a
`framework_info` without id and principal, from the principal "p", is
accepted. -/
theorem scheduler_subscribe_none_iff_witness :
    scheduler.Call.subscribeSample.IsInitialized = true ∧
    scheduler.Call.subscribeSample.type = some scheduler.CallType.SUBSCRIBE ∧
    scheduler.call.validate Externals.sample scheduler.Call.subscribeSample
      (some "p") = Except.ok none :=
  ⟨rfl, rfl,
    (scheduler_subscribe_none_iff Externals.sample scheduler.Call.subscribeSample
      (some "p") rfl rfl).2.2 _ rfl rfl rfl rfl⟩

end validation

namespace validation

/-- C7: for every initialized scheduler call whose type is not SUBSCRIBE,
`validate` returns (it does not abort); without `framework_id` it returns the
error "Expecting 'framework_id' to be present"; with `framework_id` it returns
None if and only if the sub-message that the type requires is present and, for
ACKNOWLEDGE, `acknowledge.uuid` is a valid UUID byte string; TEARDOWN, REVIVE,
SUPPRESS and UNKNOWN require no sub-message. -/
theorem scheduler_other_calls_need_framework_id {R : Type} (ext : Externals R)
    (call : scheduler.Call) (principal : Option String)
    (type : scheduler.CallType)
    (hinit : call.IsInitialized = true) (htype : call.type = some type)
    (hne : type ≠ scheduler.CallType.SUBSCRIBE) :
    (∃ r, scheduler.call.validate ext call principal = Except.ok r) ∧
    (call.framework_id = none →
      scheduler.call.validate ext call principal =
        Except.ok (some ⟨"Expecting 'framework_id' to be present"⟩)) ∧
    (call.framework_id.isSome = true →
      (scheduler.call.validate ext call principal = Except.ok none ↔
        scheduler.call.required call type = true ∧
        (type = scheduler.CallType.ACKNOWLEDGE →
          ∀ acknowledge, call.acknowledge = some acknowledge →
            ∃ uuid, ext.uuidFromBytes acknowledge.uuid = Except.ok uuid))) ∧
    (call.framework_id.isSome = true →
      (type = scheduler.CallType.TEARDOWN ∨ type = scheduler.CallType.REVIVE ∨
        type = scheduler.CallType.SUPPRESS ∨ type = scheduler.CallType.UNKNOWN) →
      scheduler.call.validate ext call principal = Except.ok none) := by
  cases hf : call.framework_id with
  | none =>
    have hv : scheduler.call.validate ext call principal =
        Except.ok (some ⟨"Expecting 'framework_id' to be present"⟩) := by
      simp [scheduler.call.validate, hinit, htype, hne, hf]
    exact ⟨⟨_, hv⟩, fun _ => hv, fun h => by simp at h, fun h => by simp at h⟩
  | some fid =>
    cases type <;>
      first
      | exact absurd rfl hne
      | (cases hack : call.acknowledge with
         | none =>
           simp [scheduler.call.validate, hinit, htype, hf, hack,
             scheduler.call.required, master.call.expecting]
         | some ack =>
           cases hu : ext.uuidFromBytes ack.uuid <;>
             simp [scheduler.call.validate, hinit, htype, hf, hack, hu,
               scheduler.call.required, master.call.expecting])

/-- Witness for C7: an ACCEPT call without `framework_id`. -/
theorem scheduler_other_calls_need_framework_id_witness :
    ({ scheduler.Call.empty with
        type := some scheduler.CallType.ACCEPT } : scheduler.Call).IsInitialized
      = true ∧
    scheduler.CallType.ACCEPT ≠ scheduler.CallType.SUBSCRIBE ∧
    scheduler.call.validate Externals.sample
        { scheduler.Call.empty with type := some scheduler.CallType.ACCEPT }
        none =
      Except.ok (some ⟨"Expecting 'framework_id' to be present"⟩) :=
  ⟨rfl, by decide,
    (scheduler_other_calls_need_framework_id Externals.sample
      { scheduler.Call.empty with type := some scheduler.CallType.ACCEPT }
      none scheduler.CallType.ACCEPT rfl rfl (by decide)).2.1 rfl⟩

end validation

namespace validation

/-- C8: for every initialized master call that has a type, `validate` returns
None if and only if the sub-message that the type requires is present and, for
RESERVE_RESOURCES and UNRESERVE_RESOURCES, `Resources::validate` accepts the
listed resources; and the result is the same for every value of the principal
argument. -/
theorem master_call_none_iff {R : Type} (ops : ResourcesOps R)
    (call : master.Call) (principal : Option String) (type : master.CallType)
    (hinit : call.IsInitialized = true) (htype : call.type = some type) :
    (master.call.validate ops call principal = none ↔
      master.call.required call type = true ∧
      ∀ resources, master.call.listed call type = some resources →
        ops.validate resources = none) ∧
    (∀ other : Option String,
      master.call.validate ops call other = master.call.validate ops call principal) := by
  refine ⟨?_, fun other => rfl⟩
  cases type <;>
    first
    | (cases hr : call.reserve_resources with
       | none =>
         simp [master.call.validate, hinit, htype, hr, master.call.required,
           master.call.listed, master.call.expecting]
       | some reserve =>
         cases hv : ops.validate reserve.resources <;>
           simp [master.call.validate, hinit, htype, hr, hv, master.call.required,
             master.call.listed, master.call.expecting])
    | (cases hr : call.unreserve_resources with
       | none =>
         simp [master.call.validate, hinit, htype, hr, master.call.required,
           master.call.listed, master.call.expecting]
       | some reserve =>
         cases hv : ops.validate reserve.resources <;>
           simp [master.call.validate, hinit, htype, hr, hv, master.call.required,
             master.call.listed, master.call.expecting])

/-- Witness for C8: a RESERVE_RESOURCES call without `reserve_resources` is
rejected. -/
theorem master_call_none_iff_witness :
    ({ master.Call.empty with
        type := some master.CallType.RESERVE_RESOURCES } : master.Call).IsInitialized
      = true ∧
    ¬ (master.call.validate Externals.sample.res
        { master.Call.empty with type := some master.CallType.RESERVE_RESOURCES }
        none = none) :=
  ⟨rfl, fun h =>
    absurd ((master_call_none_iff Externals.sample.res
      { master.Call.empty with type := some master.CallType.RESERVE_RESOURCES }
      none master.CallType.RESERVE_RESOURCES rfl rfl).1.1 h).1 (by decide)⟩

end validation

namespace validation

theorem not_prefix_append (t a b : String) (h : ¬ a.data <+: t.data) :
    ¬ (a ++ b).data <+: t.data := by
  intro hp
  apply h
  rw [String.data_append] at hp
  exact List.IsPrefix.trans (List.prefix_append _ _) hp

theorem ne_of_not_prefix (t a : String) (h : ¬ a.data <+: t.data) : a ≠ t := by
  intro e
  apply h
  rw [e]

theorem executor_validate_message_start {R : Type} (ext : Externals R)
    (info : ExecutorInfo) (framework : Framework) (slave : Slave) (e : Error)
    (h : executor.internal.validate ext info framework slave = some e) :
    ¬ e.message.data <+:
      "Task should have at least one (but not both) of CommandInfo or ExecutorInfo present".data := by
  simp only [executor.internal.validate, firstError] at h
  split at h
  · rename_i e1 h1
    simp only [Option.some.injEq] at h
    subst h
    simp only [executor.internal.validateType] at h1
    split at h1
    · split at h1
      · simp only [Option.some.injEq] at h1
        subst h1
        decide
      · simp at h1
    · split at h1
      · simp only [Option.some.injEq] at h1
        subst h1
        decide
      · simp at h1
    · simp at h1
  · split at h
    · rename_i e1 h1
      simp only [Option.some.injEq] at h
      subst h
      simp only [executor.internal.validateFrameworkID] at h1
      split at h1
      · simp only [Option.some.injEq] at h1
        subst h1
        decide
      · split at h1
        · simp only [Option.some.injEq] at h1
          subst h1
          repeat apply not_prefix_append
          decide
        · simp at h1
    · split at h
      · rename_i e1 h1
        simp only [Option.some.injEq] at h
        subst h
        simp only [executor.internal.validateShutdownGracePeriod] at h1
        split at h1
        · split at h1
          · simp only [Option.some.injEq] at h1
            subst h1
            decide
          · simp at h1
        · simp at h1
      · split at h
        · rename_i e1 h1
          simp only [Option.some.injEq] at h
          subst h
          simp only [executor.internal.validateResources] at h1
          split at h1
          · simp only [Option.some.injEq] at h1
            subst h1
            apply not_prefix_append
            decide
          · split at h1
            · simp only [Option.some.injEq] at h1
              subst h1
              apply not_prefix_append
              decide
            · split at h1
              · simp only [Option.some.injEq] at h1
                subst h1
                apply not_prefix_append
                decide
              · simp at h1
        · split at h
          · rename_i e1 h1
            simp only [Option.some.injEq] at h
            subst h
            simp only [executor.internal.validateCompatibleExecutorInfo] at h1
            split at h1
            · split at h1
              · simp only [Option.some.injEq] at h1
                subst h1
                repeat apply not_prefix_append
                decide
              · simp at h1
            · simp at h1
          · simp at h

end validation

namespace validation

theorem block_message_start {R : Type} (ext : Externals R)
    (info : ExecutorInfo) (framework : Framework) (slave : Slave) (total : R)
    (e : Error)
    (h : task.internal.validateExecutor.block ext info framework slave total
      = Except.error e) :
    ¬ e.message.data <+:
      "Task should have at least one (but not both) of CommandInfo or ExecutorInfo present".data := by
  simp only [task.internal.validateExecutor.block] at h
  split at h
  · rename_i e1 h1
    simp only [Except.error.injEq] at h
    subst h
    exact executor_validate_message_start ext info framework slave e1 h1
  · split at h
    · simp only [Except.error.injEq] at h
      subst h
      decide
    · split at h
      · simp only [Except.error.injEq] at h
        subst h
        decide
      · split at h
        · simp only [Except.error.injEq] at h
          subst h
          repeat apply not_prefix_append
          decide
        · split at h <;> simp at h

theorem task_and_executor_resources_message_start {R : Type} (ops : ResourcesOps R)
    (taskInfo : TaskInfo) (e : Error)
    (h : task.internal.validateTaskAndExecutorResources ops taskInfo = some e) :
    ¬ e.message.data <+:
      "Task should have at least one (but not both) of CommandInfo or ExecutorInfo present".data := by
  simp only [task.internal.validateTaskAndExecutorResources] at h
  split at h
  · simp only [Option.some.injEq] at h
    subst h
    apply not_prefix_append
    decide
  · split at h
    · simp only [Option.some.injEq] at h
      subst h
      apply not_prefix_append
      decide
    · split at h
      · simp only [Option.some.injEq] at h
        subst h
        repeat apply not_prefix_append
        decide
      · simp at h

/-- C9: for every task, framework, agent and offered resources,
`task::internal::validateExecutor` returns the error "Task should have at least
one (but not both) of CommandInfo or ExecutorInfo present" if and only if
`task.has_executor()` equals `task.has_command()`; the check comes first: when
the two are equal this error is returned whatever the other checks would
say. -/
theorem validateExecutor_both_or_neither_iff {R : Type} (ext : Externals R)
    (taskInfo : TaskInfo) (framework : Framework) (slave : Slave) (offered : R) :
    task.internal.validateExecutor ext taskInfo framework slave offered =
        some ⟨"Task should have at least one (but not both) of CommandInfo or ExecutorInfo present"⟩ ↔
      taskInfo.has_executor = taskInfo.has_command := by
  constructor
  · intro h
    by_contra hne
    simp only [task.internal.validateExecutor, hne, if_false] at h
    split at h
    · rename_i e he
      simp only [Option.some.injEq] at h
      subst h
      split at he
      · exact block_message_start ext _ framework slave _ _ he List.prefix_rfl
      · simp at he
    · split at h
      · rename_i e he
        simp only [Option.some.injEq] at h
        subst h
        exact task_and_executor_resources_message_start ext.res taskInfo _ he
          List.prefix_rfl
      · split at h
        · rename_i total _ _ _ _
          simp only [Option.some.injEq, Error.mk.injEq] at h
          have hn : ¬ ("Total resources " ++ ext.res.stringify total ++
              " required by task and its executor is more than available " ++
              ext.res.stringify offered).data <+:
              "Task should have at least one (but not both) of CommandInfo or ExecutorInfo present".data := by
            repeat apply not_prefix_append
            decide
          exact ne_of_not_prefix _ _ hn h
        · simp at h
  · intro h
    simp [task.internal.validateExecutor, h]

end validation

namespace validation

theorem block_ok_total {R : Type} (ext : Externals R)
    (info : ExecutorInfo) (framework : Framework) (slave : Slave) (total result : R)
    (h : task.internal.validateExecutor.block ext info framework slave total
      = Except.ok result) :
    result = (if slave.hasExecutor framework.id info.executor_id then total
              else ext.res.add total (ext.res.ofList info.resources)) := by
  simp only [task.internal.validateExecutor.block] at h
  split at h
  · simp at h
  · split at h
    · simp at h
    · split at h
      · simp at h
      · split at h
        · simp at h
        · split at h
          · rename_i hh
            simp only [Except.ok.injEq] at h
            have : slave.hasExecutor framework.id info.executor_id = false := by
              simpa using hh
            simp [this, h]
          · rename_i hh
            simp only [Except.ok.injEq] at h
            have : slave.hasExecutor framework.id info.executor_id = true := by
              simpa using hh
            simp [this, h]

/-- C10: whenever `task::internal::validateExecutor` returns None, the offered
resources contain the total required resources: the resources of the task plus,
exactly when the task has an executor that the agent does not already run for
the framework, the resources of the executor.  And when every earlier check
passes (exactly one of executor and command is present; for an executor the
general validation passes, its type is unset or CUSTOM, it has a command and no
shared resources; the combined resources are valid) but the offered resources
do not contain that total, it returns the error "Total resources <total>
required by task and its executor is more than available <offered>". -/
theorem validateExecutor_offered_contains_total {R : Type} (ext : Externals R)
    (taskInfo : TaskInfo) (framework : Framework) (slave : Slave) (offered : R) :
    (task.internal.validateExecutor ext taskInfo framework slave offered = none →
      ext.res.contains offered
        (task.internal.requiredTotal ext taskInfo framework slave) = true) ∧
    (taskInfo.has_executor ≠ taskInfo.has_command →
      (∀ info, taskInfo.executor = some info →
        executor.internal.validate ext info framework slave = none ∧
        ¬ (info.has_type = true ∧ info.type ≠ ExecutorType.CUSTOM) ∧
        info.has_command = true ∧
        ext.res.empty (ext.res.shared (ext.res.ofList info.resources)) = true) →
      task.internal.validateTaskAndExecutorResources ext.res taskInfo = none →
      ext.res.contains offered
        (task.internal.requiredTotal ext taskInfo framework slave) = false →
      task.internal.validateExecutor ext taskInfo framework slave offered =
        some ⟨"Total resources " ++
          ext.res.stringify (task.internal.requiredTotal ext taskInfo framework slave) ++
          " required by task and its executor is more than available " ++
          ext.res.stringify offered⟩) := by
  constructor
  · intro h
    simp only [task.internal.validateExecutor] at h
    split at h
    · simp at h
    · split at h
      · simp at h
      · rename_i total hb
        split at h
        · simp at h
        · split at h
          · simp at h
          · rename_i hc
            have hc2 : ext.res.contains offered total = true := by simpa using hc
            have ht : total = task.internal.requiredTotal ext taskInfo framework slave := by
              simp only [task.internal.requiredTotal]
              split at hb
              · rename_i info hinfo
                rw [block_ok_total ext info framework slave _ _ hb]
              · simp only [Except.ok.injEq] at hb
                exact hb.symm
            rw [← ht]
            exact hc2
  · intro hxor hexec hres hcont
    simp only [task.internal.validateExecutor, hxor, if_false, hres]
    cases hex : taskInfo.executor with
    | none =>
      simp only [task.internal.requiredTotal, hex] at hcont ⊢
      simp [hcont]
    | some info =>
      obtain ⟨h1, h2, h3, h4⟩ := hexec info hex
      have h2' : (info.has_type && decide (info.type ≠ ExecutorType.CUSTOM)) = false := by
        by_contra hc
        apply h2
        simpa using hc
      simp only [task.internal.requiredTotal, hex] at hcont ⊢
      simp only [task.internal.validateExecutor.block, h1, h2', h3, h4,
        Bool.false_eq_true, if_false, Bool.not_true]
      by_cases hh : slave.hasExecutor framework.id info.executor_id = true
      · simp only [hh, if_true] at hcont
        simp [hh, hcont]
      · have hh' : slave.hasExecutor framework.id info.executor_id = false := by
          simpa using hh
        simp only [hh', Bool.false_eq_true, if_false] at hcont
        simp [hh', hcont]

/-- Witness for C10: a task with a command and one resource, nothing offered. -/
theorem validateExecutor_offered_contains_total_witness :
    TaskInfo.sample.has_executor ≠ TaskInfo.sample.has_command ∧
    task.internal.validateExecutor Externals.sample TaskInfo.sample
        { id := { value := "f" } } { executors := [] } [] =
      some ⟨"Total resources 1 required by task and its executor is more than available 0"⟩ :=
  ⟨by decide,
    (validateExecutor_offered_contains_total Externals.sample TaskInfo.sample
      { id := { value := "f" } } { executors := [] } []).2 (by decide)
      (fun info h => by simp [TaskInfo.sample] at h) (by decide) (by decide)⟩

end validation

namespace validation

theorem block_ok_command_and_type {R : Type} (ext : Externals R)
    (info : ExecutorInfo) (framework : Framework) (slave : Slave) (total result : R)
    (h : task.internal.validateExecutor.block ext info framework slave total
      = Except.ok result) :
    info.has_command = true ∧ (info.type? = none ∨ info.type? = some ExecutorType.CUSTOM) := by
  simp only [task.internal.validateExecutor.block] at h
  split at h
  · simp at h
  · split at h
    · simp at h
    · rename_i htype
      split at h
      · simp at h
      · rename_i hcmd
        refine ⟨by simpa using hcmd, ?_⟩
        cases ht : info.type? with
        | none => exact Or.inl rfl
        | some t =>
          cases t with
          | CUSTOM => exact Or.inr rfl
          | UNKNOWN => simp [ExecutorInfo.has_type, ExecutorInfo.type, ht] at htype
          | DEFAULT => simp [ExecutorInfo.has_type, ExecutorInfo.type, ht] at htype

/-- C11: for every task that has an ExecutorInfo and no CommandInfo:
`task::internal::validateExecutor` returns None only if the executor has
`command` set and its `type` is either unset or CUSTOM; so an executor whose
type is explicitly DEFAULT or explicitly UNKNOWN is always rejected, and an
executor without a command is always rejected. -/
theorem validateExecutor_needs_custom_command {R : Type} (ext : Externals R)
    (taskInfo : TaskInfo) (info : ExecutorInfo) (framework : Framework)
    (slave : Slave) (offered : R)
    (hexec : taskInfo.executor = some info) (hcmd : taskInfo.command = none) :
    (task.internal.validateExecutor ext taskInfo framework slave offered = none →
      info.has_command = true ∧
      (info.type? = none ∨ info.type? = some ExecutorType.CUSTOM)) ∧
    (info.type? = some ExecutorType.DEFAULT →
      (task.internal.validateExecutor ext taskInfo framework slave offered).isSome
        = true) ∧
    (info.type? = some ExecutorType.UNKNOWN →
      (task.internal.validateExecutor ext taskInfo framework slave offered).isSome
        = true) ∧
    (info.command = none →
      (task.internal.validateExecutor ext taskInfo framework slave offered).isSome
        = true) := by
  have key : task.internal.validateExecutor ext taskInfo framework slave offered = none →
      info.has_command = true ∧
      (info.type? = none ∨ info.type? = some ExecutorType.CUSTOM) := by
    intro h
    simp only [task.internal.validateExecutor, TaskInfo.has_executor,
      TaskInfo.has_command, hexec, hcmd] at h
    simp only [Option.isSome_some, Option.isSome_none, Bool.true_eq_false,
      if_false] at h
    split at h
    · simp at h
    · rename_i total hb
      exact block_ok_command_and_type ext info framework slave _ total hb
  refine ⟨key, ?_, ?_, ?_⟩
  · intro ht
    cases hv : task.internal.validateExecutor ext taskInfo framework slave offered with
    | some e => rfl
    | none =>
      have := (key hv).2
      simp [ht] at this
  · intro ht
    cases hv : task.internal.validateExecutor ext taskInfo framework slave offered with
    | some e => rfl
    | none =>
      have := (key hv).2
      simp [ht] at this
  · intro hc
    cases hv : task.internal.validateExecutor ext taskInfo framework slave offered with
    | some e => rfl
    | none =>
      have := (key hv).1
      simp [ExecutorInfo.has_command, hc] at this

/-- Witness for C11: a task whose executor has no command and no type is
rejected with "'ExecutorInfo.command' must be set". -/
theorem validateExecutor_needs_custom_command_witness :
    ({ TaskInfo.sample with executor := some ExecutorInfo.sample,
                            command := none } : TaskInfo).executor
      = some ExecutorInfo.sample ∧
    task.internal.validateExecutor Externals.sample
        { TaskInfo.sample with executor := some ExecutorInfo.sample,
                               command := none }
        { id := { value := "f" } } { executors := [] } [] =
      some ⟨"'ExecutorInfo.command' must be set"⟩ ∧
    (task.internal.validateExecutor Externals.sample
        { TaskInfo.sample with executor := some ExecutorInfo.sample,
                               command := none }
        { id := { value := "f" } } { executors := [] } []).isSome = true :=
  ⟨rfl, by decide,
    (validateExecutor_needs_custom_command Externals.sample
      { TaskInfo.sample with executor := some ExecutorInfo.sample, command := none }
      ExecutorInfo.sample { id := { value := "f" } } { executors := [] } []
      rfl rfl).2.2.2 rfl⟩

/-- C12: `executor::internal::validateType` returns an error if and only if the
type is DEFAULT and `command` is set, or the type is CUSTOM and `command` is
not set; for the type UNKNOWN (also when the field is not set) it returns None
whether or not a command is set. -/
theorem validateType_error_iff (info : ExecutorInfo) :
    ((executor.internal.validateType info).isSome = true ↔
      (info.type = ExecutorType.DEFAULT ∧ info.has_command = true) ∨
      (info.type = ExecutorType.CUSTOM ∧ info.has_command = false)) ∧
    (info.type = ExecutorType.UNKNOWN →
      executor.internal.validateType info = none) ∧
    (executor.internal.validateType info =
      if info.type = ExecutorType.DEFAULT ∧ info.has_command = true then
        some ⟨"'ExecutorInfo.command' must not be set for 'DEFAULT' executor"⟩
      else if info.type = ExecutorType.CUSTOM ∧ info.has_command = false then
        some ⟨"'ExecutorInfo.command' must be set for 'CUSTOM' executor"⟩
      else none) := by
  cases ht : info.type <;> cases hc : info.has_command <;>
    simp [executor.internal.validateType, ht, hc]

end validation

namespace validation

theorem same_none_of_equal {R : Type} (ext : Externals R) (info : ExecutorInfo)
    (tasks : List TaskInfo)
    (h : ∀ t ∈ tasks, ∀ e, t.executor = some e → ext.executorInfoEq e info = true) :
    task.group.internal.validateExecutor.same ext info tasks = none := by
  induction tasks with
  | nil => rfl
  | cons t rest ih =>
    have ih2 := ih (fun t2 ht2 => h t2 (List.mem_cons_of_mem _ ht2))
    simp only [task.group.internal.validateExecutor.same]
    cases he : t.executor with
    | none => simpa using ih2
    | some e =>
      have := h t (List.mem_cons_self _ _) e he
      simp [this, ih2]

/-- C13: for every task group and executor for which the general executor
validation passes, the executor type is set and not UNKNOWN, the executor
container is not DOCKER and the `ExecutorInfo` of every task equals the
executor, and for every offer: if the resources of the executor have no cpus or
cpus below `MIN_CPUS`, `task::group::internal::validateExecutor` returns the
"uses less CPUs" error; otherwise, if they have no mem or mem below `MIN_MEM`,
it returns the "uses less memory" error; otherwise, if they have no disk, it
returns the "uses no disk" error.  The offered resources play no role in the
three cases: the checks come before the offered-resources check. -/
theorem group_validateExecutor_minimal_resources {R D : Type} (ext : Externals R)
    (q : Quantities R D) (taskGroup : TaskGroupInfo) (info : ExecutorInfo)
    (framework : Framework) (slave : Slave) (offered : R)
    (hgeneral : executor.internal.validate ext info framework slave = none)
    (htype : info.has_type = true) (hknown : info.type ≠ ExecutorType.UNKNOWN)
    (hdocker : ∀ container, info.container = some container →
      container.type ≠ ContainerType.DOCKER)
    (hsame : ∀ t ∈ taskGroup.tasks, ∀ e, t.executor = some e →
      ext.executorInfoEq e info = true) :
    (q.cpus (ext.res.ofList info.resources) = none →
      task.group.internal.validateExecutor ext q taskGroup info framework slave
          offered =
        some ⟨"Executor '" ++ info.executor_id.value ++ "' uses less CPUs (" ++
          "None" ++ ") than the minimum required (" ++
          q.stringifyDouble q.MIN_CPUS ++ ")"⟩) ∧
    (∀ c, q.cpus (ext.res.ofList info.resources) = some c →
      q.lt c q.MIN_CPUS = true →
      task.group.internal.validateExecutor ext q taskGroup info framework slave
          offered =
        some ⟨"Executor '" ++ info.executor_id.value ++ "' uses less CPUs (" ++
          q.stringifyDouble c ++ ") than the minimum required (" ++
          q.stringifyDouble q.MIN_CPUS ++ ")"⟩) ∧
    (∀ c, q.cpus (ext.res.ofList info.resources) = some c →
      q.lt c q.MIN_CPUS = false →
      (q.mem (ext.res.ofList info.resources) = none →
        task.group.internal.validateExecutor ext q taskGroup info framework slave
            offered =
          some ⟨"Executor '" ++ info.executor_id.value ++ "' uses less memory (" ++
            "None" ++ ") than the minimum required (" ++
            q.stringifyBytes q.MIN_MEM ++ ")"⟩) ∧
      (∀ m, q.mem (ext.res.ofList info.resources) = some m → m < q.MIN_MEM →
        task.group.internal.validateExecutor ext q taskGroup info framework slave
            offered =
          some ⟨"Executor '" ++ info.executor_id.value ++ "' uses less memory (" ++
            q.stringifyDouble (q.megabytes m) ++
            ") than the minimum required (" ++
            q.stringifyBytes q.MIN_MEM ++ ")"⟩) ∧
      (∀ m, q.mem (ext.res.ofList info.resources) = some m → q.MIN_MEM ≤ m →
        q.disk (ext.res.ofList info.resources) = none →
        task.group.internal.validateExecutor ext q taskGroup info framework slave
            offered =
          some ⟨"Executor '" ++ info.executor_id.value ++ "' uses no disk"⟩)) := by
  have hd : (match info.container with
      | some container => decide (container.type = ContainerType.DOCKER)
      | none => false) = false := by
    cases hc : info.container with
    | none => rfl
    | some container => simpa using hdocker container hc
  have hs := same_none_of_equal ext info taskGroup.tasks hsame
  have unfold : task.group.internal.validateExecutor ext q taskGroup info framework
      slave offered =
      match task.group.internal.validateExecutor.minimal q info
          (ext.res.ofList info.resources) with
      | some error => some error
      | none =>
        match task.group.internal.validateTaskGroupAndExecutorResources ext.res
            taskGroup info with
        | some error => some error
        | none =>
          if !ext.res.contains offered
              (if !slave.hasExecutor framework.id info.executor_id then
                ext.res.add (task.group.internal.addTaskResources ext.res q.zero
                  taskGroup.tasks) (ext.res.ofList info.resources)
               else task.group.internal.addTaskResources ext.res q.zero
                  taskGroup.tasks) then
            some ⟨"Total resources " ++ ext.res.stringify
                (if !slave.hasExecutor framework.id info.executor_id then
                  ext.res.add (task.group.internal.addTaskResources ext.res q.zero
                    taskGroup.tasks) (ext.res.ofList info.resources)
                 else task.group.internal.addTaskResources ext.res q.zero
                    taskGroup.tasks) ++
              " required by task group and its executor are more than available " ++
              ext.res.stringify offered⟩
          else none := by
    simp only [task.group.internal.validateExecutor, hgeneral, htype, hknown, hd, hs,
      Bool.not_true, Bool.false_eq_true, if_false]
  rw [unfold]
  refine ⟨?_, ?_, ?_⟩
  · intro hc
    simp [task.group.internal.validateExecutor.minimal, hc]
  · intro c hc hlt
    simp [task.group.internal.validateExecutor.minimal, hc, hlt]
  · intro c hc hlt
    refine ⟨?_, ?_, ?_⟩
    · intro hm
      simp [task.group.internal.validateExecutor.minimal, hc, hlt, hm]
    · intro m hm hlt2
      simp [task.group.internal.validateExecutor.minimal, hc, hlt, hm, hlt2]
    · intro m hm hge hdisk
      have : ¬ m < q.MIN_MEM := by omega
      simp [task.group.internal.validateExecutor.minimal, hc, hlt, hm, this, hdisk]

end validation

namespace validation

/-- Witness for C13: a CUSTOM executor with a command and no resources, for an
empty task group. -/
theorem group_validateExecutor_minimal_resources_witness :
    executor.internal.validate Externals.sample ExecutorInfo.custom
      { id := { value := "f" } } { executors := [] } = none ∧
    ExecutorInfo.custom.has_type = true ∧
    ExecutorInfo.custom.type ≠ ExecutorType.UNKNOWN ∧
    Quantities.sample.cpus (Externals.sample.res.ofList ExecutorInfo.custom.resources)
      = none ∧
    task.group.internal.validateExecutor Externals.sample Quantities.sample
        { tasks := [] } ExecutorInfo.custom { id := { value := "f" } }
        { executors := [] } [] =
      some ⟨"Executor 'e' uses less CPUs (None) than the minimum required (10)"⟩ :=
  ⟨by decide, by decide, by decide, by decide,
    (group_validateExecutor_minimal_resources Externals.sample Quantities.sample
      { tasks := [] } ExecutorInfo.custom { id := { value := "f" } }
      { executors := [] } [] (by decide) (by decide) (by decide)
      (fun container h => by simp [ExecutorInfo.custom, ExecutorInfo.sample] at h)
      (fun t ht => by simp at ht)).1 (by decide)⟩

end validation

namespace validation

theorem invalidCharacter_iff (c : Char) :
    invalidCharacter c = true ↔
      (c.toNat < 32 ∨ c.toNat = 127) ∨ c = '/' ∨ c = '\\' := by
  simp [invalidCharacter, or_assoc]

/-- C14: for every TaskInfo, `validateTaskID` returns an error if and only if
the value of the task id contains at least one character that is a control
character (a code below 32, or 127), '/' or '\'; the error is "TaskID '<id>'
contains invalid characters"; in particular the empty id is accepted. -/
theorem validateTaskID_error_iff (taskInfo : TaskInfo) :
    ((task.internal.validateTaskID taskInfo).isSome = true ↔
      ∃ c ∈ taskInfo.task_id.value.toList,
        (c.toNat < 32 ∨ c.toNat = 127) ∨ c = '/' ∨ c = '\\') ∧
    (∀ e, task.internal.validateTaskID taskInfo = some e →
      e = ⟨"TaskID '" ++ taskInfo.task_id.value ++ "' contains invalid characters"⟩) ∧
    (taskInfo.task_id.value = "" →
      task.internal.validateTaskID taskInfo = none) := by
  refine ⟨?_, ?_, ?_⟩
  · simp only [task.internal.validateTaskID]
    by_cases h : taskInfo.task_id.value.toList.any invalidCharacter = true
    · simp only [h, if_true, Option.isSome_some, true_iff]
      rw [List.any_eq_true] at h
      obtain ⟨c, hc, hinv⟩ := h
      exact ⟨c, hc, (invalidCharacter_iff c).1 hinv⟩
    · simp only [h, if_false, Option.isSome_none, Bool.false_eq_true, false_iff]
      rintro ⟨c, hc, hinv⟩
      apply h
      rw [List.any_eq_true]
      exact ⟨c, hc, (invalidCharacter_iff c).2 hinv⟩
  · intro e he
    simp only [task.internal.validateTaskID] at he
    split at he
    · simp only [Option.some.injEq] at he
      exact he.symm
    · simp at he
  · intro h
    simp [task.internal.validateTaskID, h]

end validation

namespace validation

/-- Witness for C14: the id "a/b" is rejected. -/
theorem validateTaskID_error_iff_witness :
    '/' ∈ ("a/b" : String).toList ∧
    (task.internal.validateTaskID
      { TaskInfo.sample with task_id := { value := "a/b" } }).isSome = true :=
  ⟨by decide,
    (validateTaskID_error_iff
      { TaskInfo.sample with task_id := { value := "a/b" } }).1.2
      ⟨'/', by decide, Or.inr (Or.inl rfl)⟩⟩

theorem uniqueOfferID_loop_none_iff (ids : List OfferID) :
    ∀ seen : List OfferID,
      offer.validateUniqueOfferID.loop seen ids = none ↔
        ids.Nodup ∧ ∀ x ∈ ids, x ∉ seen := by
  induction ids with
  | nil => intro seen; simp [offer.validateUniqueOfferID.loop]
  | cons a rest ih =>
    intro seen
    simp only [offer.validateUniqueOfferID.loop]
    by_cases hm : a ∈ seen
    · have hc : seen.contains a = true := by simpa using hm
      simp only [hc, if_true]
      constructor
      · intro h; simp at h
      · rintro ⟨_, h⟩
        exact absurd hm (h a (List.mem_cons_self _ _))
    · have hc : seen.contains a = false := by simpa using hm
      simp only [hc, Bool.false_eq_true, if_false, ih, List.nodup_cons,
        List.mem_cons]
      constructor
      · rintro ⟨hn, hall⟩
        refine ⟨⟨fun ha => (hall a ha) (Or.inl rfl), hn⟩, ?_⟩
        intro x hx
        rcases hx with rfl | hx
        · exact hm
        · exact fun hs => hall x hx (Or.inr hs)
      · rintro ⟨⟨ha, hn⟩, hall⟩
        refine ⟨hn, ?_⟩
        intro x hx hs
        rcases hs with rfl | hs
        · exact ha hx
        · exact hall x (Or.inr hx) hs

theorem uniqueOfferID_loop_first (pre : List OfferID) (x : OfferID)
    (post : List OfferID) :
    ∀ seen : List OfferID, pre.Nodup → (∀ y ∈ pre, y ∉ seen) →
      (x ∈ pre ∨ x ∈ seen) →
      offer.validateUniqueOfferID.loop seen (pre ++ x :: post) =
        some ⟨"Duplicate offer " ++ x.value ++ " in offer list"⟩ := by
  induction pre with
  | nil =>
    intro seen _ _ hx
    have hm : x ∈ seen := by simpa using hx
    have hc : seen.contains x = true := by simpa using hm
    simp only [List.nil_append, offer.validateUniqueOfferID.loop, hc, if_true]
  | cons a rest ih =>
    intro seen hn hall hx
    have hm : a ∉ seen := hall a (List.mem_cons_self _ _)
    have hc : seen.contains a = false := by simpa using hm
    simp only [List.cons_append, offer.validateUniqueOfferID.loop, hc,
      Bool.false_eq_true, if_false]
    rw [List.nodup_cons] at hn
    apply ih (a :: seen) hn.2
    · intro y hy hs
      rcases List.mem_cons.1 hs with rfl | hs
      · exact hn.1 hy
      · exact hall y (List.mem_cons_of_mem _ hy) hs
    · rcases hx with hx | hx
      · rcases List.mem_cons.1 hx with rfl | hx
        · exact Or.inr (List.mem_cons_self _ _)
        · exact Or.inl hx
      · exact Or.inr (List.mem_cons_of_mem _ hx)

/-- C17: for every list of OfferIDs, `validateUniqueOfferID` returns None if
and only if the ids are pairwise distinct; otherwise it returns the error
"Duplicate offer <id> in offer list" for the first element, in list order, that
equals an earlier element. -/
theorem validateUniqueOfferID_none_iff (offerIds : List OfferID) :
    (offer.validateUniqueOfferID offerIds = none ↔ offerIds.Nodup) ∧
    (∀ pre x post, offerIds = pre ++ x :: post → pre.Nodup → x ∈ pre →
      offer.validateUniqueOfferID offerIds =
        some ⟨"Duplicate offer " ++ x.value ++ " in offer list"⟩) := by
  constructor
  · simp [offer.validateUniqueOfferID, uniqueOfferID_loop_none_iff]
  · intro pre x post he hn hx
    rw [he]
    exact uniqueOfferID_loop_first pre x post [] hn (by simp) (Or.inl hx)

/-- Witness for C17: in the list a, b, a, c the second a is the first
duplicate. -/
theorem validateUniqueOfferID_none_iff_witness :
    ([⟨"a"⟩, ⟨"b"⟩] : List OfferID).Nodup ∧
    (⟨"a"⟩ : OfferID) ∈ ([⟨"a"⟩, ⟨"b"⟩] : List OfferID) ∧
    offer.validateUniqueOfferID [⟨"a"⟩, ⟨"b"⟩, ⟨"a"⟩, ⟨"c"⟩] =
      some ⟨"Duplicate offer a in offer list"⟩ :=
  ⟨by decide, by decide,
    (validateUniqueOfferID_none_iff [⟨"a"⟩, ⟨"b"⟩, ⟨"a"⟩, ⟨"c"⟩]).2
      [⟨"a"⟩, ⟨"b"⟩] ⟨"a"⟩ [⟨"c"⟩] rfl (by decide) (by decide)⟩

end validation

namespace validation

theorem diskInfo_check_none_iff {R : Type} (ops : ResourcesOps R) (r : Resource)
    (disk : DiskInfo) :
    resource.validateDiskInfo.check ops r disk = none ↔
      resource.diskInfoAccepted ops r disk := by
  simp only [resource.validateDiskInfo.check, resource.diskInfoAccepted]
  cases hp : disk.persistence with
  | none =>
    cases hv : disk.volume with
    | none => cases hs : disk.has_source <;> simp
    | some v => simp
  | some p =>
    cases hrev : ops.isRevocable r with
    | true => simp
    | false =>
      cases hun : ops.isUnreserved r with
      | true => simp
      | false =>
        cases hv : disk.volume with
        | none => simp
        | some v =>
          cases hh : v.host_path with
          | some path => simp [hh]
          | none =>
            by_cases hany : p.id.toList.any invalidCharacter = true
            · simp only [hh, hany, if_true, Option.isSome_none, Bool.false_eq_true,
                if_false, reduceCtorEq, false_iff]
              rintro (⟨p2, v2, hp2, _, _, _, _, hall⟩ | ⟨h, _⟩)
              · simp only [Option.some.injEq] at hp2
                subst hp2
                rw [List.any_eq_true] at hany
                obtain ⟨c, hc, hinv⟩ := hany
                exact hall c hc ((invalidCharacter_iff c).1 hinv)
              · exact h
            · simp only [hh, hany, Option.isSome_none, Bool.false_eq_true, if_false,
                true_iff]
              refine Or.inl ⟨p, v, rfl, trivial, trivial, rfl, hh, ?_⟩
              intro c hc hinv
              apply hany
              rw [List.any_eq_true]
              exact ⟨c, hc, (invalidCharacter_iff c).2 hinv⟩

theorem diskInfo_none_iff {R : Type} (ops : ResourcesOps R) (rs : List Resource) :
    resource.validateDiskInfo ops rs = none ↔
      ∀ r ∈ rs, ∀ disk, r.disk = some disk → resource.diskInfoAccepted ops r disk := by
  induction rs with
  | nil => simp [resource.validateDiskInfo]
  | cons a rest ih =>
    simp only [resource.validateDiskInfo, List.mem_cons, forall_eq_or_imp]
    cases hd : a.disk with
    | none => simp [ih]
    | some disk =>
      cases hc : resource.validateDiskInfo.check ops a disk with
      | none =>
        have hacc := (diskInfo_check_none_iff ops a disk).1 hc
        simp only [hc, ih, Option.some.injEq, forall_eq']
        exact ⟨fun h => ⟨hacc, h⟩, fun h => h.2⟩
      | some e =>
        simp only [hc, reduceCtorEq, Option.some.injEq, forall_eq', false_iff]
        rintro ⟨hacc, _⟩
        have := (diskInfo_check_none_iff ops a disk).2 hacc
        simp [hc] at this

theorem diskInfo_first_offending {R : Type} (ops : ResourcesOps R)
    (pre : List Resource) (r : Resource) (post : List Resource) (disk : DiskInfo)
    (hpre : ∀ x ∈ pre, ∀ d, x.disk = some d → resource.diskInfoAccepted ops x d)
    (hdisk : r.disk = some disk) (hbad : ¬ resource.diskInfoAccepted ops r disk) :
    resource.validateDiskInfo ops (pre ++ r :: post) =
        resource.validateDiskInfo.check ops r disk ∧
    (resource.validateDiskInfo.check ops r disk).isSome = true := by
  have hsome : (resource.validateDiskInfo.check ops r disk).isSome = true := by
    cases hc : resource.validateDiskInfo.check ops r disk with
    | some e => rfl
    | none => exact absurd ((diskInfo_check_none_iff ops r disk).1 hc) hbad
  refine ⟨?_, hsome⟩
  induction pre with
  | nil =>
    simp only [List.nil_append, resource.validateDiskInfo, hdisk]
    cases hc : resource.validateDiskInfo.check ops r disk with
    | some e => rfl
    | none => simp [hc] at hsome
  | cons a rest ih =>
    have ih2 := ih (fun x hx => hpre x (List.mem_cons_of_mem _ hx))
    simp only [List.cons_append, resource.validateDiskInfo]
    cases hd : a.disk with
    | none => simpa using ih2
    | some d =>
      have hacc := hpre a (List.mem_cons_self _ _) d hd
      have := (diskInfo_check_none_iff ops a d).2 hacc
      simp only [this]
      exact ih2

end validation

namespace validation

/-- C16: for every list of resources, `validateDiskInfo` returns None if and
only if every resource that has a DiskInfo is either (a) persistent and then
not revocable, not unreserved, with `volume` set, with `volume.host_path` unset
and with a persistence id without invalid character, or (b) non-persistent
with no `volume` and with `source` set.  The error returned is the error of the
first offending resource in list order.  Within one resource the checks are
made in the order revocable, unreserved, missing volume, host_path set, invalid
id. -/
theorem validateDiskInfo_none_iff_accepted {R : Type} (ops : ResourcesOps R)
    (rs : List Resource) :
    (resource.validateDiskInfo ops rs = none ↔
      ∀ r ∈ rs, ∀ disk, r.disk = some disk → resource.diskInfoAccepted ops r disk) ∧
    (∀ pre r post disk, rs = pre ++ r :: post →
      (∀ x ∈ pre, ∀ d, x.disk = some d → resource.diskInfoAccepted ops x d) →
      r.disk = some disk → ¬ resource.diskInfoAccepted ops r disk →
      resource.validateDiskInfo ops rs = resource.validateDiskInfo.check ops r disk ∧
      (resource.validateDiskInfo.check ops r disk).isSome = true) ∧
    (∀ (r : Resource) (disk : DiskInfo) (persistence : Persistence),
      disk.persistence = some persistence →
      (ops.isRevocable r = true →
        resource.validateDiskInfo.check ops r disk =
          some ⟨"Persistent volumes cannot be created from revocable resources"⟩) ∧
      (ops.isRevocable r = false → ops.isUnreserved r = true →
        resource.validateDiskInfo.check ops r disk =
          some ⟨"Persistent volumes cannot be created from unreserved resources"⟩) ∧
      (ops.isRevocable r = false → ops.isUnreserved r = false →
        disk.volume = none →
        resource.validateDiskInfo.check ops r disk =
          some ⟨"Expecting 'volume' to be set for persistent volume"⟩) ∧
      (∀ volume, ops.isRevocable r = false → ops.isUnreserved r = false →
        disk.volume = some volume → volume.host_path.isSome = true →
        resource.validateDiskInfo.check ops r disk =
          some ⟨"Expecting 'host_path' to be unset for persistent volume"⟩) ∧
      (∀ volume, ops.isRevocable r = false → ops.isUnreserved r = false →
        disk.volume = some volume → volume.host_path = none →
        persistence.id.toList.any invalidCharacter = true →
        resource.validateDiskInfo.check ops r disk =
          some ⟨"Persistence ID '" ++ persistence.id ++
            "' contains invalid characters"⟩)) := by
  refine ⟨diskInfo_none_iff ops rs, ?_, ?_⟩
  · intro pre r post disk he hpre hdisk hbad
    rw [he]
    exact diskInfo_first_offending ops pre r post disk hpre hdisk hbad
  · intro r disk persistence hp
    refine ⟨?_, ?_, ?_, ?_, ?_⟩
    · intro h1
      simp [resource.validateDiskInfo.check, hp, h1]
    · intro h1 h2
      simp [resource.validateDiskInfo.check, hp, h1, h2]
    · intro h1 h2 h3
      simp [resource.validateDiskInfo.check, hp, h1, h2, h3]
    · intro volume h1 h2 h3 h4
      simp [resource.validateDiskInfo.check, hp, h1, h2, h3, h4]
    · intro volume h1 h2 h3 h4 h5
      simp only [resource.validateDiskInfo.check, hp, h1, h2, h3, h4, h5,
        Bool.false_eq_true, if_false, if_true, Option.isSome_none]

/-- Witness for C16: a persistent disk without `volume` is the first offending
resource of a list that holds only it. -/
theorem validateDiskInfo_none_iff_accepted_witness :
    Resource.sampleDisk.disk =
      some { persistence := some { id := "id", rest := "" }, volume := none,
             has_source := false } ∧
    resource.validateDiskInfo Externals.sample.res [Resource.sampleDisk] =
      resource.validateDiskInfo.check Externals.sample.res Resource.sampleDisk
        { persistence := some { id := "id", rest := "" }, volume := none,
          has_source := false } :=
  ⟨rfl,
    ((validateDiskInfo_none_iff_accepted Externals.sample.res
      [Resource.sampleDisk]).2.1 [] Resource.sampleDisk []
      { persistence := some { id := "id", rest := "" }, volume := none,
        has_source := false } rfl (fun x hx => by simp at hx) rfl
      (fun h => by
        rcases h with ⟨p, v, _, _, _, hv, _⟩ | ⟨hp, _⟩
        · simp at hv
        · simp at hp)).1⟩

end validation

namespace validation

theorem persistenceIds_loop_cons (m : resource.PersistenceIds) (v : Resource)
    (rest : List Resource) :
    resource.validateUniquePersistenceID.loop m (v :: rest) =
      if m.has v.role (resource.persistenceId v) then
        some ⟨"Persistence ID '" ++ resource.persistenceId v ++ "' is not unique"⟩
      else resource.validateUniquePersistenceID.loop
        (m.insert v.role (resource.persistenceId v)) rest := rfl

theorem persistenceIds_lookup_map (role id : String) (m : resource.PersistenceIds)
    (r : String) :
    List.lookup r (m.map (fun entry =>
        if entry.1 = role then (entry.1, id :: entry.2) else entry)) =
      (List.lookup r m).map (fun ids => if r = role then id :: ids else ids) := by
  induction m with
  | nil => simp
  | cons e rest ih =>
    obtain ⟨k, ids⟩ := e
    simp only [List.map_cons, List.lookup_cons]
    by_cases hk : k = role
    · subst hk
      by_cases hr : r = k
      · subst hr
        simp
      · have : (r == k) = false := by simpa using hr
        simp [this, ih, List.lookup_cons]
    · by_cases hr : r = k
      · subst hr
        simp [hk, List.lookup_cons]
      · have : (r == k) = false := by simpa using hr
        simp [hk, this, ih, List.lookup_cons]

theorem persistenceIds_has_insert (m : resource.PersistenceIds)
    (role id r i : String) :
    (m.insert role id).has r i = true ↔ (r = role ∧ i = id) ∨ m.has r i = true := by
  simp only [resource.PersistenceIds.insert, resource.PersistenceIds.has]
  cases hl : List.lookup role m with
  | none =>
    simp only [List.lookup_cons]
    by_cases hr : r = role
    · subst hr
      simp [hl]
    · have : (r == role) = false := by simpa using hr
      simp [this, hr]
  | some ids =>
    by_cases hc : ids.contains id = true
    · simp only [hc, if_true]
      constructor
      · intro h; exact Or.inr h
      · rintro (⟨rfl, rfl⟩ | h)
        · simp only [hl]; exact hc
        · exact h
    · simp only [hc, Bool.false_eq_true, if_false, persistenceIds_lookup_map]
      by_cases hr : r = role
      · subst hr
        simp [hl]
      · cases hl2 : List.lookup r m <;> simp [hr]

theorem persistenceIds_holds_insert (m : resource.PersistenceIds)
    (seen : List (String × String)) (role id : String)
    (h : resource.PersistenceIds.Holds m seen) :
    resource.PersistenceIds.Holds (m.insert role id) ((role, id) :: seen) := by
  intro r i
  rw [persistenceIds_has_insert, h r i]
  simp

end validation

namespace validation

theorem persistenceIds_loop_none_iff (vols : List Resource) :
    ∀ (m : resource.PersistenceIds) (seen : List (String × String)),
      resource.PersistenceIds.Holds m seen →
      (resource.validateUniquePersistenceID.loop m vols = none ↔
        (vols.map resource.persistenceKey).Nodup ∧
        ∀ k ∈ vols.map resource.persistenceKey, k ∉ seen) := by
  induction vols with
  | nil => intro m seen _; simp [resource.validateUniquePersistenceID.loop]
  | cons v rest ih =>
    intro m seen hm
    rw [persistenceIds_loop_cons]
    by_cases hh : m.has v.role (resource.persistenceId v) = true
    · have hs : resource.persistenceKey v ∈ seen := (hm _ _).1 hh
      simp only [hh, if_true, reduceCtorEq, false_iff]
      rintro ⟨_, hall⟩
      exact hall _ (by simp) hs
    · have hs : resource.persistenceKey v ∉ seen := fun h => hh ((hm _ _).2 h)
      simp only [hh, Bool.false_eq_true, if_false]
      rw [ih _ _ (persistenceIds_holds_insert m seen v.role
        (resource.persistenceId v) hm)]
      simp only [List.map_cons, List.nodup_cons, List.mem_cons]
      constructor
      · rintro ⟨hn, hall⟩
        refine ⟨⟨fun ha => (hall _ ha) (Or.inl rfl), hn⟩, ?_⟩
        intro k hk
        rcases hk with rfl | hk
        · exact hs
        · exact fun hks => hall k hk (Or.inr hks)
      · rintro ⟨⟨ha, hn⟩, hall⟩
        refine ⟨hn, ?_⟩
        intro k hk hks
        rcases hks with hks | hks
        · exact ha (by rw [← show k = resource.persistenceKey v from hks]; exact hk)
        · exact hall k (Or.inr hk) hks

theorem persistenceIds_loop_first (pre : List Resource) (v : Resource)
    (post : List Resource) :
    ∀ (m : resource.PersistenceIds) (seen : List (String × String)),
      resource.PersistenceIds.Holds m seen →
      (pre.map resource.persistenceKey).Nodup →
      (∀ k ∈ pre.map resource.persistenceKey, k ∉ seen) →
      (resource.persistenceKey v ∈ pre.map resource.persistenceKey ∨
        resource.persistenceKey v ∈ seen) →
      resource.validateUniquePersistenceID.loop m (pre ++ v :: post) =
        some ⟨"Persistence ID '" ++ resource.persistenceId v ++ "' is not unique"⟩ := by
  induction pre with
  | nil =>
    intro m seen hm _ _ hx
    have hs : resource.persistenceKey v ∈ seen := by simpa using hx
    have hh : m.has v.role (resource.persistenceId v) = true := (hm _ _).2 hs
    simp only [List.nil_append, persistenceIds_loop_cons, hh, if_true]
  | cons a rest ih =>
    intro m seen hm hn hall hx
    have hs : resource.persistenceKey a ∉ seen := hall _ (by simp)
    have hh : ¬ m.has a.role (resource.persistenceId a) = true :=
      fun h => hs ((hm _ _).1 h)
    simp only [List.cons_append, persistenceIds_loop_cons, hh, Bool.false_eq_true,
      if_false]
    simp only [List.map_cons, List.nodup_cons] at hn
    apply ih _ _ (persistenceIds_holds_insert m seen a.role
      (resource.persistenceId a) hm) hn.2
    · intro k hk hks
      rcases List.mem_cons.1 hks with hks | hks
      · exact hn.1 (by rw [← show k = resource.persistenceKey a from hks]; exact hk)
      · exact hall k (by simp [List.mem_map] at hk ⊢; exact Or.inr hk) hks
    · rcases hx with hx | hx
      · simp only [List.map_cons, List.mem_cons] at hx
        rcases hx with hx | hx
        · exact Or.inr (by rw [hx]; exact List.mem_cons_self _ _)
        · exact Or.inl hx
      · exact Or.inr (List.mem_cons_of_mem _ hx)

/-- C15: for every Resources value, with its persistent volumes in iteration
order: `validateUniquePersistenceID` returns None if and only if no two of the
volumes have the same role and the same persistence id; two volumes with
different roles are accepted whatever their ids; and otherwise the error is
"Persistence ID '<id>' is not unique" with the id of the first volume, in
iteration order, that repeats the (role, id) pair of an earlier volume. -/
theorem validateUniquePersistenceID_none_iff {R : Type} (ops : ResourcesOps R)
    (resources : R) :
    (resource.validateUniquePersistenceID ops resources = none ↔
      ((ops.toList (ops.persistentVolumes resources)).map
        resource.persistenceKey).Nodup) ∧
    (∀ v1 v2, ops.toList (ops.persistentVolumes resources) = [v1, v2] →
      v1.role ≠ v2.role →
      resource.validateUniquePersistenceID ops resources = none) ∧
    (∀ pre v post,
      ops.toList (ops.persistentVolumes resources) = pre ++ v :: post →
      (pre.map resource.persistenceKey).Nodup →
      resource.persistenceKey v ∈ pre.map resource.persistenceKey →
      resource.validateUniquePersistenceID ops resources =
        some ⟨"Persistence ID '" ++ resource.persistenceId v ++ "' is not unique"⟩) := by
  have hempty : resource.PersistenceIds.Holds [] [] := by
    intro role id
    simp [resource.PersistenceIds.has]
  have h1 : resource.validateUniquePersistenceID ops resources = none ↔
      ((ops.toList (ops.persistentVolumes resources)).map
        resource.persistenceKey).Nodup := by
    simp only [resource.validateUniquePersistenceID]
    rw [persistenceIds_loop_none_iff _ [] [] hempty]
    simp
  refine ⟨h1, ?_, ?_⟩
  · intro v1 v2 he hne
    rw [h1, he]
    simp only [List.map_cons, List.map_nil, List.nodup_cons, List.mem_singleton,
      List.not_mem_nil, not_false_eq_true, List.nodup_nil, and_true]
    intro hk
    apply hne
    simp only [resource.persistenceKey, Prod.mk.injEq] at hk
    exact hk.1
  · intro pre v post he hn hx
    simp only [resource.validateUniquePersistenceID, he]
    exact persistenceIds_loop_first pre v post [] [] hempty hn (by simp) (Or.inl hx)

/-- Witness for C15: the volumes (r, a), (s, a), (r, a): the third repeats the
first. -/
theorem validateUniquePersistenceID_none_iff_witness :
    Externals.sample.res.toList (Externals.sample.res.persistentVolumes
        [Resource.volume "r" "a", Resource.volume "s" "a", Resource.volume "r" "a"]) =
      [Resource.volume "r" "a", Resource.volume "s" "a"] ++
        Resource.volume "r" "a" :: [] ∧
    resource.validateUniquePersistenceID Externals.sample.res
        [Resource.volume "r" "a", Resource.volume "s" "a", Resource.volume "r" "a"] =
      some ⟨"Persistence ID 'a' is not unique"⟩ :=
  ⟨by decide,
    (validateUniquePersistenceID_none_iff Externals.sample.res
      [Resource.volume "r" "a", Resource.volume "s" "a", Resource.volume "r" "a"]).2.2
      [Resource.volume "r" "a", Resource.volume "s" "a"] (Resource.volume "r" "a") []
      (by decide) (by decide) (by decide)⟩

end validation

namespace SharedPointer

theorem Store.target_eq_some {T : Type} (s : Store T) (h d : Nat) :
    s.target h = some d ↔ s.handles[h]? = some (some d) := by
  simp only [Store.target]
  split
  · rename_i d2 heq
    simp [heq]
  · rename_i hne
    constructor
    · intro h0; simp at h0
    · intro h0; exact absurd h0 (hne d)

theorem Store.target_mem {T : Type} (s : Store T) (h d : Nat)
    (ht : s.target h = some d) : some d ∈ s.handles ∧ h < s.handles.length := by
  rw [Store.target_eq_some] at ht
  refine ⟨List.getElem?_mem ht, ?_⟩
  obtain ⟨hlt, _⟩ := List.getElem?_eq_some.1 ht
  exact hlt

theorem Store.Wf_empty {T : Type} : (Store.empty : Store T).Wf := by
  refine ⟨?_, ?_, ?_, ?_⟩ <;> simp [Store.empty]

theorem Store.Wf_make {T : Type} (s : Store T) (t : T) (hw : s.Wf) :
    (s.make t).Wf := by
  obtain ⟨h1, h2, h3, h4⟩ := hw
  have hfresh : some s.next ∉ s.handles := by
    intro hm
    obtain ⟨x, hx⟩ := h2 _ hm
    rw [h1 s.next (Nat.le_refl _)] at hx
    simp at hx
  refine ⟨?_, ?_, ?_, ?_⟩
  · intro d hd
    simp only [Store.make] at hd ⊢
    rw [Function.update_apply]
    split
    · omega
    · exact h1 d (by omega)
  · intro d hm
    simp only [Store.make, List.mem_append, List.mem_singleton, Option.some.injEq] at hm ⊢
    rw [Function.update_apply]
    split
    · exact ⟨_, rfl⟩
    · rcases hm with hm | hm
      · exact h2 d hm
      · rename_i hne; exact absurd hm hne
  · intro d x hx
    simp only [Store.make] at hx ⊢
    rw [Function.update_apply] at hx
    rw [List.count_append, List.count_singleton]
    split at hx
    · rename_i he
      subst he
      simp only [Option.some.injEq] at hx
      subst hx
      simp [List.count_eq_zero_of_not_mem hfresh]
    · rename_i hne
      have : (some s.next == some d) = false := by
        simp only [beq_eq_false_iff_ne, ne_eq, Option.some.injEq]
        exact fun e => hne e.symm
      simp only [this, Bool.false_eq_true, if_false, Nat.add_zero]
      exact h3 d x hx
  · intro d x hx
    simp only [Store.make] at hx
    rw [Function.update_apply] at hx
    split at hx
    · simp only [Option.some.injEq] at hx
      subst hx
      simp
    · exact h4 d x hx

theorem Store.Wf_null {T : Type} (s : Store T) (hw : s.Wf) : s.null.Wf := by
  obtain ⟨h1, h2, h3, h4⟩ := hw
  refine ⟨h1, ?_, ?_, h4⟩
  · intro d hm
    simp only [Store.null, List.mem_append, List.mem_singleton, reduceCtorEq,
      or_false] at hm
    exact h2 d hm
  · intro d x hx
    simp only [Store.null] at hx ⊢
    rw [List.count_append, List.count_singleton]
    simpa using h3 d x hx

end SharedPointer

namespace SharedPointer

theorem Store.target_count_pos {T : Type} (s : Store T) (h d : Nat) (hw : s.Wf)
    (ht : s.target h = some d) :
    ∃ x, s.datas d = some x ∧ 1 ≤ x.useCount ∧ d < s.next := by
  obtain ⟨h1, h2, h3, h4⟩ := hw
  have hm := (Store.target_mem s h d ht).1
  obtain ⟨x, hx⟩ := h2 d hm
  refine ⟨x, hx, ?_, ?_⟩
  · rw [h3 d x hx]
    exact List.count_pos_iff.2 hm
  · by_contra hge
    rw [h1 d (by omega)] at hx
    simp at hx

theorem Store.Wf_copy {T : Type} (s : Store T) (h : Nat) (hw : s.Wf) :
    (s.copy h).Wf := by
  cases ht : s.target h with
  | none =>
    have : s.copy h = s.null := by simp [Store.copy, ht, Store.null]
    rw [this]
    exact Store.Wf_null s hw
  | some d =>
    obtain ⟨x, hx, hpos, hlt⟩ := Store.target_count_pos s h d hw ht
    obtain ⟨h1, h2, h3, h4⟩ := hw
    simp only [Store.copy, ht, hx, Option.map_some']
    refine ⟨?_, ?_, ?_, ?_⟩
    · intro e he
      simp only at he ⊢
      rw [Function.update_apply]
      split
      · omega
      · exact h1 e he
    · intro e hm
      simp only [List.mem_append, List.mem_singleton, Option.some.injEq] at hm ⊢
      rw [Function.update_apply]
      split
      · exact ⟨_, rfl⟩
      · rcases hm with hm | hm
        · exact h2 e hm
        · rename_i hne; exact absurd hm hne
    · intro e y hy
      simp only at hy ⊢
      rw [Function.update_apply] at hy
      rw [List.count_append, List.count_singleton]
      split at hy
      · rename_i he
        subst he
        simp only [Option.some.injEq] at hy
        subst hy
        simp [h3 e x hx]
      · rename_i hne
        have : (some d == some e) = false := by
          simp only [beq_eq_false_iff_ne, ne_eq, Option.some.injEq]
          exact fun e2 => hne e2.symm
        simp only [this, Bool.false_eq_true, if_false, Nat.add_zero]
        exact h3 e y hy
    · intro e y hy
      simp only at hy
      rw [Function.update_apply] at hy
      split at hy
      · simp only [Option.some.injEq] at hy
        subst hy
        have hps : x.promiseSet = false := by
          by_contra hc
          have := ((h4 d x hx).1 (by simpa using hc)).2
          omega
        simp [hps]
      · exact h4 e y hy

theorem Store.Wf_reset {T : Type} (s : Store T) (h : Nat) (hw : s.Wf) :
    (s.reset h).Wf := by
  cases ht : s.target h with
  | none => simpa [Store.reset, ht] using hw
  | some d =>
    obtain ⟨x, hx, hpos, hlt⟩ := Store.target_count_pos s h d hw ht
    have hh := (Store.target_mem s h d ht).2
    have hget : s.handles[h] = some d := by
      have := (Store.target_eq_some s h d).1 ht
      obtain ⟨_, hv⟩ := List.getElem?_eq_some.1 this
      exact hv
    obtain ⟨h1, h2, h3, h4⟩ := hw
    simp only [Store.reset, ht, hx, Option.map_some']
    refine ⟨?_, ?_, ?_, ?_⟩
    · intro e he
      simp only at he ⊢
      rw [Function.update_apply]
      split
      · omega
      · exact h1 e he
    · intro e hm
      simp only at hm ⊢
      rw [Function.update_apply]
      split
      · exact ⟨_, rfl⟩
      · rcases List.mem_or_eq_of_mem_set hm with hm | hm
        · exact h2 e hm
        · simp at hm
    · intro e y hy
      simp only at hy ⊢
      rw [Function.update_apply] at hy
      rw [List.count_set _ _ _ _ hh, hget]
      split at hy
      · rename_i he
        subst he
        simp only [Option.some.injEq] at hy
        subst hy
        have hc := h3 e x hx
        simp only [Data.release]
        split
        · split <;> simp <;> omega
        · simp; omega
      · rename_i hne
        have : (some d == some e) = false := by
          simp only [beq_eq_false_iff_ne, ne_eq, Option.some.injEq]
          exact fun e2 => hne e2.symm
        simp only [this, Bool.false_eq_true, if_false, Nat.sub_zero]
        simpa using h3 e y hy
    · intro e y hy
      simp only at hy
      rw [Function.update_apply] at hy
      split at hy
      · simp only [Option.some.injEq] at hy
        subst hy
        have hps : x.promiseSet = false := by
          by_contra hc
          have := ((h4 d x hx).1 (by simpa using hc)).2
          omega
        simp only [Data.release]
        split
        · split
          · rename_i ho; simp [ho]
          · rename_i ho; simp [ho, hps]
        · rename_i hne
          simp only [hps, Bool.false_eq_true, false_iff, not_and]
          intro _ h0
          exact hne h0
      · exact h4 e y hy

theorem Store.Wf_own {T : Type} (s : Store T) (h : Nat) (hw : s.Wf) :
    (s.own h).1.Wf := by
  cases ht : s.target h with
  | none => simpa [Store.own, ht] using hw
  | some d =>
    obtain ⟨x, hx, hpos, hlt⟩ := Store.target_count_pos s h d hw ht
    simp only [Store.own, ht, hx]
    by_cases ho : x.owned = true
    · simpa [ho] using hw
    · simp only [ho, Bool.false_eq_true, if_false]
      apply Store.Wf_reset
      obtain ⟨h1, h2, h3, h4⟩ := hw
      refine ⟨?_, ?_, ?_, ?_⟩
      · intro e he
        simp only at he ⊢
        rw [Function.update_apply]
        split
        · omega
        · exact h1 e he
      · intro e hm
        simp only at hm ⊢
        rw [Function.update_apply]
        split
        · exact ⟨_, rfl⟩
        · exact h2 e hm
      · intro e y hy
        simp only at hy ⊢
        rw [Function.update_apply] at hy
        split at hy
        · rename_i he
          subst he
          simp only [Option.some.injEq] at hy
          subst hy
          exact h3 e x hx
        · exact h3 e y hy
      · intro e y hy
        simp only at hy
        rw [Function.update_apply] at hy
        split at hy
        · simp only [Option.some.injEq] at hy
          subst hy
          have hps : x.promiseSet = false := by
            by_contra hc
            have := ((h4 d x hx).1 (by simpa using hc)).1
            exact ho this
          simp only [hps, Bool.false_eq_true, true_and, false_iff]
          omega
        · exact h4 e y hy

theorem Store.Wf_step {T : Type} (s : Store T) (op : Op T) (hw : s.Wf) :
    (s.step op).Wf := by
  cases op with
  | make t => exact Store.Wf_make s t hw
  | null => exact Store.Wf_null s hw
  | copy h => exact Store.Wf_copy s h hw
  | reset h => exact Store.Wf_reset s h hw
  | own h => exact Store.Wf_own s h hw

theorem Store.Wf_run {T : Type} (ops : List (Op T)) :
    ∀ s : Store T, s.Wf → (s.run ops).Wf := by
  induction ops with
  | nil => intro s hw; exact hw
  | cons op rest ih => intro s hw; exact ih _ (Store.Wf_step s op hw)

end SharedPointer

namespace SharedPointer

theorem count_eq_one_iff_only_index {α : Type} [BEq α] [LawfulBEq α] (a : α) :
    ∀ (l : List α) (h : Nat), l[h]? = some a →
      (l.count a = 1 ↔ ∀ h', l[h']? = some a → h' = h) := by
  intro l
  induction l with
  | nil => intro h hh; simp at hh
  | cons b rest ih =>
    intro h hh
    cases h with
    | zero =>
      simp only [List.getElem?_cons_zero, Option.some.injEq] at hh
      subst hh
      simp only [List.count_cons_self, Nat.add_left_eq_self, List.count_eq_zero]
      constructor
      · intro hn h' hh'
        cases h' with
        | zero => rfl
        | succ k =>
          simp only [List.getElem?_cons_succ] at hh'
          exact absurd (List.getElem?_mem hh') hn
      · intro hall hm
        obtain ⟨k, hk⟩ := List.mem_iff_getElem?.1 hm
        have := hall (k + 1) (by simpa using hk)
        omega
    | succ k =>
      simp only [List.getElem?_cons_succ] at hh
      have hmem : b ∈ rest ∨ True := Or.inr trivial
      have hpos : 0 < rest.count a := List.count_pos_iff.2 (List.getElem?_mem hh)
      rw [List.count_cons]
      constructor
      · intro hc
        have hba : ¬ (b == a) = true := by
          intro hb
          simp only [hb, if_true] at hc
          omega
        simp only [hba, if_false, Nat.add_zero] at hc
        intro h' hh'
        cases h' with
        | zero =>
          simp only [List.getElem?_cons_zero, Option.some.injEq] at hh'
          exact absurd (by simpa using hh') hba
        | succ j =>
          simp only [List.getElem?_cons_succ] at hh'
          have := ((ih k hh).1 hc) j hh'
          omega
      · intro hall
        have hba : ¬ (b == a) = true := by
          intro hb
          have := hall 0 (by simpa using hb)
          omega
        simp only [hba, if_false, Nat.add_zero]
        apply (ih k hh).2
        intro h' hh'
        have := hall (h' + 1) (by simpa using hh')
        omega

theorem Store.unique_iff {T : Type} (s : Store T) (hw : s.Wf) (h : Nat) :
    s.unique h = true ↔
      ∃ d, s.target h = some d ∧ ∀ h', s.target h' = some d → h' = h := by
  cases ht : s.target h with
  | none => simp [Store.unique, ht]
  | some d =>
    obtain ⟨x, hx, _, _⟩ := Store.target_count_pos s h d hw ht
    have hc := hw.2.2.1 d x hx
    have key := count_eq_one_iff_only_index (some d) s.handles h
      ((Store.target_eq_some s h d).1 ht)
    simp only [Store.unique, ht, hx, beq_iff_eq, Option.some.injEq, exists_eq_left']
    rw [hc, key]
    constructor
    · intro hall h' hh'
      exact hall h' ((Store.target_eq_some s h' d).1 hh')
    · intro hall h' hh'
      exact hall h' ((Store.target_eq_some s h' d).2 hh')

end SharedPointer

namespace SharedPointer

theorem Store.handles_copy {T : Type} (s : Store T) (h : Nat) :
    (s.copy h).handles = s.handles ++ [(s.target h)] := by
  cases ht : s.target h <;> simp [Store.copy, ht]

theorem Store.target_copy_new {T : Type} (s : Store T) (h : Nat) :
    (s.copy h).target s.handles.length = s.target h := by
  simp only [Store.target, Store.handles_copy, List.getElem?_concat_length]
  cases ht : s.target h with
  | none =>
    simp only [Store.target] at ht
    simp [ht]
  | some d =>
    simp only [Store.target] at ht
    simp [ht]

theorem Store.target_copy_old {T : Type} (s : Store T) (h h' : Nat)
    (hlt : h' < s.handles.length) : (s.copy h).target h' = s.target h' := by
  simp only [Store.target, Store.handles_copy, List.getElem?_append_left hlt]

theorem Store.handles_reset {T : Type} (s : Store T) (h : Nat) :
    (s.reset h).handles = s.handles.set h none := by
  cases ht : s.target h with
  | some d => simp [Store.reset, ht]
  | none =>
    simp only [Store.reset, ht]
    apply List.ext_getElem?
    intro i
    by_cases hi : h = i
    · subst hi
      by_cases hlt : h < s.handles.length
      · rw [List.getElem?_set_eq_of_lt _ hlt]
        simp only [Store.target] at ht
        cases hv : s.handles[h]? with
        | none => simp [List.getElem?_eq_none_iff] at hv; omega
        | some v =>
          cases v with
          | none => rfl
          | some d => simp [hv] at ht
      · simp [List.getElem?_set, hlt]
        omega
    · rw [List.getElem?_set_ne hi]

theorem Store.target_reset_same {T : Type} (s : Store T) (h : Nat) :
    (s.reset h).target h = none := by
  simp only [Store.target, Store.handles_reset]
  by_cases hlt : h < s.handles.length
  · rw [List.getElem?_set_eq_of_lt _ hlt]
  · have : (s.handles.set h none)[h]? = none := by
      simp [List.getElem?_eq_none_iff]; omega
    rw [this]

theorem Store.target_reset_other {T : Type} (s : Store T) (h h' : Nat)
    (hne : h' ≠ h) : (s.reset h).target h' = s.target h' := by
  simp only [Store.target, Store.handles_reset]
  rw [List.getElem?_set_ne (fun e => hne e.symm)]

theorem Data.release_t {T : Type} (x : Data T) : x.release.t = x.t := by
  simp only [Data.release]
  split
  · split <;> rfl
  · rfl

theorem Store.get_reset_other {T : Type} (s : Store T) (h h' : Nat)
    (hne : h' ≠ h) : (s.reset h).get h' = s.get h' := by
  simp only [Store.get, Store.target_reset_other s h h' hne]
  cases ht' : s.target h' with
  | none => rfl
  | some e =>
    cases ht : s.target h with
    | none => simp [Store.reset, ht]
    | some d =>
      simp only [Store.reset, ht, Function.update_apply]
      split
      · rename_i he
        subst he
        cases hx : s.datas e <;> simp [Data.release_t]
      · rfl

end SharedPointer

namespace SharedPointer

/-- C18: in every store that a program reaches from the empty store, for every
handle `h`: `unique()` is true if and only if the handle is not null and is the
only handle that references its object.  After copying a non-null handle neither
the handle nor its copy is unique.  After `reset()` on one of exactly two
handles of an object, `get()` of that handle is null and its `unique()` is
false, while the other handle is unique and reads the same value as before.  A
copy of a null handle is null. -/
theorem shared_unique_iff_only_handle {T : Type} (ops : List (Op T)) (s : Store T)
    (hs : Store.empty.run ops = s) :
    (∀ h, s.unique h = true ↔
      ∃ d, s.target h = some d ∧ ∀ h', s.target h' = some d → h' = h) ∧
    (∀ h d, s.target h = some d →
      (s.copy h).target s.handles.length = some d ∧
      (s.copy h).unique h = false ∧
      (s.copy h).unique s.handles.length = false) ∧
    (∀ h1 h2 d, h1 ≠ h2 → s.target h1 = some d → s.target h2 = some d →
      (∀ h', s.target h' = some d → h' = h1 ∨ h' = h2) →
      (s.reset h1).get h1 = none ∧
      (s.reset h1).unique h1 = false ∧
      (s.reset h1).unique h2 = true ∧
      (s.reset h1).get h2 = s.get h2) ∧
    (∀ h, s.target h = none →
      (s.copy h).target s.handles.length = none ∧
      (s.copy h).get s.handles.length = none) := by
  have hw : s.Wf := by
    rw [← hs]
    exact Store.Wf_run ops _ Store.Wf_empty
  refine ⟨fun h => Store.unique_iff s hw h, ?_, ?_, ?_⟩
  · intro h d ht
    have hw2 := Store.Wf_copy s h hw
    have hlt := (Store.target_mem s h d ht).2
    have hnew : (s.copy h).target s.handles.length = some d := by
      rw [Store.target_copy_new, ht]
    have hold : (s.copy h).target h = some d := by
      rw [Store.target_copy_old s h h hlt, ht]
    refine ⟨hnew, ?_, ?_⟩
    · cases hu : (s.copy h).unique h with
      | false => rfl
      | true =>
        obtain ⟨e, he, hall⟩ := (Store.unique_iff _ hw2 h).1 hu
        rw [hold] at he
        simp only [Option.some.injEq] at he
        subst he
        have := hall _ hnew
        omega
    · cases hu : (s.copy h).unique s.handles.length with
      | false => rfl
      | true =>
        obtain ⟨e, he, hall⟩ := (Store.unique_iff _ hw2 _).1 hu
        rw [hnew] at he
        simp only [Option.some.injEq] at he
        subst he
        have := hall _ hold
        omega
  · intro h1 h2 d hne ht1 ht2 honly
    have hw2 := Store.Wf_reset s h1 hw
    have hsame := Store.target_reset_same s h1
    have hother : (s.reset h1).target h2 = some d := by
      rw [Store.target_reset_other s h1 h2 (fun e => hne e.symm), ht2]
    refine ⟨?_, ?_, ?_, ?_⟩
    · simp [Store.get, hsame]
    · simp [Store.unique, hsame]
    · apply (Store.unique_iff _ hw2 h2).2
      refine ⟨d, hother, ?_⟩
      intro h' hh'
      by_cases e1 : h' = h1
      · rw [e1, hsame] at hh'
        simp at hh'
      · rw [Store.target_reset_other s h1 h' e1] at hh'
        rcases honly h' hh' with e | e
        · exact absurd e e1
        · exact e
    · exact Store.get_reset_other s h1 h2 (fun e => hne e.symm)
  · intro h ht
    have hnew : (s.copy h).target s.handles.length = none := by
      rw [Store.target_copy_new, ht]
    exact ⟨hnew, by simp [Store.get, hnew]⟩

/-- Witness for C18: the test `SharedTest.Reset`: an object with value 42, a
handle, a copy of it, and `reset()` on the first handle. -/
theorem shared_unique_iff_only_handle_witness :
    (Store.empty.run [Op.make (42 : Int), Op.copy 0]).target 0 = some 0 ∧
    (Store.empty.run [Op.make (42 : Int), Op.copy 0]).target 1 = some 0 ∧
    ((Store.empty.run [Op.make (42 : Int), Op.copy 0]).reset 0).get 0 = none ∧
    ((Store.empty.run [Op.make (42 : Int), Op.copy 0]).reset 0).unique 0 = false ∧
    ((Store.empty.run [Op.make (42 : Int), Op.copy 0]).reset 0).unique 1 = true ∧
    ((Store.empty.run [Op.make (42 : Int), Op.copy 0]).reset 0).get 1 = some 42 :=
  ⟨by decide, by decide,
    ((shared_unique_iff_only_handle [Op.make (42 : Int), Op.copy 0] _ rfl).2.2.1
      0 1 0 (by decide) (by decide) (by decide)
      (fun h' hh' =>
        match h', hh' with
        | 0, _ => Or.inl rfl
        | 1, _ => Or.inr rfl
        | n + 2, hh' => by simp [Store.target, Store.run, Store.step, Store.copy,
            Store.make, Store.empty] at hh')).1,
    by decide, by decide, by decide⟩

end SharedPointer

namespace SharedPointer

theorem Data.release_owned {T : Type} (x : Data T) : x.release.owned = x.owned := by
  simp only [Data.release]
  split
  · split <;> rfl
  · rfl

theorem Store.reset_keeps {T : Type} (s : Store T) (h d : Nat) (t : T)
    (hk : ∃ x, s.datas d = some x ∧ x.t = t ∧ x.owned = true) :
    ∃ x, (s.reset h).datas d = some x ∧ x.t = t ∧ x.owned = true := by
  obtain ⟨x, hx, ht, ho⟩ := hk
  cases htg : s.target h with
  | none => exact ⟨x, by simp [Store.reset, htg, hx], ht, ho⟩
  | some e =>
    simp only [Store.reset, htg, Function.update_apply]
    split
    · rename_i he
      subst he
      exact ⟨x.release, by simp [hx], by rw [Data.release_t, ht],
        by rw [Data.release_owned, ho]⟩
    · exact ⟨x, hx, ht, ho⟩

theorem Store.step_keeps {T : Type} (s : Store T) (hw : s.Wf) (op : Op T)
    (d : Nat) (t : T)
    (hk : ∃ x, s.datas d = some x ∧ x.t = t ∧ x.owned = true) :
    ∃ x, (s.step op).datas d = some x ∧ x.t = t ∧ x.owned = true := by
  cases op with
  | make v =>
    obtain ⟨x, hx, ht, ho⟩ := hk
    have hlt : d < s.next := by
      by_contra hge
      rw [hw.1 d (by omega)] at hx
      simp at hx
    refine ⟨x, ?_, ht, ho⟩
    simp only [Store.step, Store.make, Function.update_apply]
    split
    · omega
    · exact hx
  | null => simpa [Store.step, Store.null] using hk
  | copy h =>
    obtain ⟨x, hx, ht, ho⟩ := hk
    cases htg : s.target h with
    | none => exact ⟨x, by simp [Store.step, Store.copy, htg, hx], ht, ho⟩
    | some e =>
      simp only [Store.step, Store.copy, htg, Function.update_apply]
      split
      · rename_i he
        subst he
        exact ⟨{ x with useCount := x.useCount + 1 }, by simp [hx], ht, ho⟩
      · exact ⟨x, hx, ht, ho⟩
  | reset h => exact Store.reset_keeps s h d t hk
  | own h =>
    cases htg : s.target h with
    | none => simpa [Store.step, Store.own, htg] using hk
    | some e =>
      cases hy : s.datas e with
      | none => simpa [Store.step, Store.own, htg, hy] using hk
      | some y =>
        by_cases hyo : y.owned = true
        · simpa [Store.step, Store.own, htg, hy, hyo] using hk
        · simp only [Store.step, Store.own, htg, hy, hyo, Bool.false_eq_true,
            if_false]
          apply Store.reset_keeps
          obtain ⟨x, hx, ht, ho⟩ := hk
          simp only [Function.update_apply]
          split
          · rename_i he
            subst he
            rw [hy] at hx
            simp only [Option.some.injEq] at hx
            subst hx
            exact ⟨_, rfl, ht, rfl⟩
          · exact ⟨x, hx, ht, ho⟩

theorem Store.run_keeps {T : Type} (more : List (Op T)) (d : Nat) (t : T) :
    ∀ s : Store T, s.Wf →
      (∃ x, s.datas d = some x ∧ x.t = t ∧ x.owned = true) →
      (s.run more).Wf ∧
      ∃ x, (s.run more).datas d = some x ∧ x.t = t ∧ x.owned = true := by
  induction more with
  | nil => intro s hw hk; exact ⟨hw, hk⟩
  | cons op rest ih =>
    intro s hw hk
    exact ih _ (Store.Wf_step s op hw) (Store.step_keeps s hw op d t hk)

theorem Store.future_of_owned {T : Type} (s : Store T) (hw : s.Wf) (d : Nat) (t : T)
    (hk : ∃ x, s.datas d = some x ∧ x.t = t ∧ x.owned = true) :
    ((∃ h', s.target h' = some d) → s.future d = FutureState.pending) ∧
    ((¬ ∃ h', s.target h' = some d) → s.future d = FutureState.ready d t) := by
  obtain ⟨x, hx, ht, ho⟩ := hk
  have hc := hw.2.2.1 d x hx
  have hp := hw.2.2.2 d x hx
  constructor
  · rintro ⟨h', hh'⟩
    have hm := (Store.target_mem s h' d hh').1
    have hpos : 0 < s.handles.count (some d) := List.count_pos_iff.2 hm
    have hps : x.promiseSet = false := by
      by_contra hcon
      have := (hp.1 (by simpa using hcon)).2
      omega
    simp [Store.future, hx, hps]
  · intro hno
    have hnm : some d ∉ s.handles := by
      intro hm
      obtain ⟨k, hk⟩ := List.mem_iff_getElem?.1 hm
      exact hno ⟨k, (Store.target_eq_some s k d).2 hk⟩
    have hz : x.useCount = 0 := by
      rw [hc]; exact List.count_eq_zero_of_not_mem hnm
    have hps : x.promiseSet = true := hp.2 ⟨ho, hz⟩
    simp [Store.future, hx, hps, ht]

theorem Store.own_first {T : Type} (s : Store T) (h d : Nat) (x : Data T)
    (ht : s.target h = some d) (hx : s.datas d = some x) (hown : x.owned = false) :
    s.own h =
      (Store.reset
        { s with datas := Function.update s.datas d (some { x with owned := true }) }
        h,
       OwnResult.future d) := by
  simp [Store.own, ht, hx, hown]

theorem Store.own_first_keeps {T : Type} (s : Store T) (hw : s.Wf) (h d : Nat)
    (x : Data T) (ht : s.target h = some d) (hx : s.datas d = some x)
    (hown : x.owned = false) :
    (s.own h).1.Wf ∧ (s.own h).1.target h = none ∧
    ∃ y, (s.own h).1.datas d = some y ∧ y.t = x.t ∧ y.owned = true := by
  refine ⟨Store.Wf_own s h hw, ?_, ?_⟩
  · rw [Store.own_first s h d x ht hx hown]
    exact Store.target_reset_same _ h
  · rw [Store.own_first s h d x ht hx hown]
    apply Store.reset_keeps
    exact ⟨{ x with owned := true }, by simp, rfl, rfl⟩

end SharedPointer

namespace SharedPointer

theorem Store.own_owned {T : Type} (s : Store T) (h d : Nat) (y : Data T)
    (ht : s.target h = some d) (hy : s.datas d = some y) (ho : y.owned = true) :
    s.own h = (s, OwnResult.failed) := by
  simp [Store.own, ht, hy, ho]

/-- C19: in every store that a program reaches from the empty store, for every
handle `h` to an object on which `own()` has not been called: `own()` on `h`
returns the future of the object and resets `h` (`get()` is null); and after
every further list of operations that future is pending as long as some handle
still references the object, and it is ready, holding the same object with the
value it had, once no handle references the object. -/
theorem shared_own_future {T : Type} (ops : List (Op T)) (s : Store T)
    (hs : Store.empty.run ops = s) (h d : Nat) (x : Data T)
    (ht : s.target h = some d) (hx : s.datas d = some x) (hown : x.owned = false) :
    (s.own h).2 = OwnResult.future d ∧
    (s.own h).1.target h = none ∧
    (s.own h).1.get h = none ∧
    (∀ more : List (Op T),
      ((∃ h', ((s.own h).1.run more).target h' = some d) →
        ((s.own h).1.run more).future d = FutureState.pending) ∧
      ((¬ ∃ h', ((s.own h).1.run more).target h' = some d) →
        ((s.own h).1.run more).future d = FutureState.ready d x.t)) := by
  have hw : s.Wf := by
    rw [← hs]
    exact Store.Wf_run ops _ Store.Wf_empty
  obtain ⟨hw1, htg, hk⟩ := Store.own_first_keeps s hw h d x ht hx hown
  refine ⟨?_, htg, ?_, ?_⟩
  · rw [Store.own_first s h d x ht hx hown]
  · simp [Store.get, htg]
  · intro more
    obtain ⟨hw2, hk2⟩ := Store.run_keeps more d x.t _ hw1 hk
    exact Store.future_of_owned _ hw2 d x.t hk2

/-- Witness for C19: the test `SharedTest.Own`: an object with value 42, a
handle and a copy; `own()` on the copy gives a future that is pending while the
first handle is there and ready with 42 after the first handle is reset. -/
theorem shared_own_future_witness :
    (Store.empty.run [Op.make (42 : Int), Op.copy 0]).target 1 = some 0 ∧
    (Store.empty.run [Op.make (42 : Int), Op.copy 0]).datas 0 =
      some { t := 42, useCount := 2, owned := false, promiseSet := false,
             deleted := false } ∧
    ((Store.empty.run [Op.make (42 : Int), Op.copy 0]).own 1).2
      = OwnResult.future 0 ∧
    (((Store.empty.run [Op.make (42 : Int), Op.copy 0]).own 1).1.run []).future 0
      = FutureState.pending ∧
    (((Store.empty.run [Op.make (42 : Int), Op.copy 0]).own 1).1.run
      [Op.reset 0]).future 0 = FutureState.ready 0 42 :=
  ⟨by decide, by decide,
    (shared_own_future [Op.make (42 : Int), Op.copy 0] _ rfl 1 0
      { t := 42, useCount := 2, owned := false, promiseSet := false,
        deleted := false } (by decide) (by decide) rfl).1,
    ((shared_own_future [Op.make (42 : Int), Op.copy 0] _ rfl 1 0
      { t := 42, useCount := 2, owned := false, promiseSet := false,
        deleted := false } (by decide) (by decide) rfl).2.2.2 []).1
      ⟨0, by decide⟩,
    ((shared_own_future [Op.make (42 : Int), Op.copy 0] _ rfl 1 0
      { t := 42, useCount := 2, owned := false, promiseSet := false,
        deleted := false } (by decide) (by decide) rfl).2.2.2 [Op.reset 0]).2
      (fun ⟨h', hh'⟩ =>
        match h', hh' with
        | 0, hh' => by revert hh'; decide
        | 1, hh' => by revert hh'; decide
        | n + 2, hh' => by
          simp [Store.target, Store.run, Store.step, Store.copy, Store.make,
            Store.empty, Store.own, Store.reset] at hh')⟩

/-- C20: in every store that a program reaches from the empty store, once
`own()` has been called on a handle of an object, after every further list of
operations `own()` on every handle that references the object returns a failed
future and changes nothing: the handle still references the object and the
future returned by the first `own()` is in the same state as before. -/
theorem shared_own_twice_fails {T : Type} (ops : List (Op T)) (s : Store T)
    (hs : Store.empty.run ops = s) (h d : Nat) (x : Data T)
    (ht : s.target h = some d) (hx : s.datas d = some x) (hown : x.owned = false) :
    ∀ (more : List (Op T)) (h' : Nat),
      ((s.own h).1.run more).target h' = some d →
      (((s.own h).1.run more).own h').2 = OwnResult.failed ∧
      (((s.own h).1.run more).own h').1.target h' = some d ∧
      (((s.own h).1.run more).own h').1.future d
        = ((s.own h).1.run more).future d ∧
      (((s.own h).1.run more).own h').1.handles
        = ((s.own h).1.run more).handles := by
  have hw : s.Wf := by
    rw [← hs]
    exact Store.Wf_run ops _ Store.Wf_empty
  obtain ⟨hw1, _, hk⟩ := Store.own_first_keeps s hw h d x ht hx hown
  intro more h' hh'
  obtain ⟨_, y, hy, _, hyo⟩ := Store.run_keeps more d x.t _ hw1 hk
  have hfail : ((s.own h).1.run more).own h' =
      (((s.own h).1.run more), OwnResult.failed) :=
    Store.own_owned _ h' d y hh' hy hyo
  rw [hfail]
  exact ⟨rfl, hh', rfl, rfl⟩

/-- Witness for C20: the test `SharedTest.Own`: after `own()` on the copy,
`own()` on the first handle fails and the handle still reads 42. -/
theorem shared_own_twice_fails_witness :
    (Store.empty.run [Op.make (42 : Int), Op.copy 0]).target 1 = some 0 ∧
    (((Store.empty.run [Op.make (42 : Int), Op.copy 0]).own 1).1.run []).target 0
      = some 0 ∧
    ((((Store.empty.run [Op.make (42 : Int), Op.copy 0]).own 1).1.run []).own 0).2
      = OwnResult.failed ∧
    ((((Store.empty.run [Op.make (42 : Int), Op.copy 0]).own 1).1.run []).own 0).1.get 0
      = some 42 :=
  ⟨by decide, by decide,
    (shared_own_twice_fails [Op.make (42 : Int), Op.copy 0] _ rfl 1 0
      { t := 42, useCount := 2, owned := false, promiseSet := false,
        deleted := false } (by decide) (by decide) rfl [] 0 (by decide)).1,
    by decide⟩

end SharedPointer

namespace Runtime

theorem Duration.addAssign_some (a b c : Duration) (h : a.addAssign b = some c) :
    c.ns = a.ns + b.ns := by
  simp only [Duration.addAssign] at h
  split at h
  · simp only [Option.some.injEq] at h
    rw [← h]
  · simp at h

theorem Duration.subAssign_some (a b c : Duration) (h : a.subAssign b = some c) :
    c.ns = a.ns - b.ns := by
  simp only [Duration.subAssign] at h
  split at h
  · simp only [Option.some.injEq] at h
    rw [← h]
  · simp at h

theorem Time.add_some (t : Time) (d : Duration) (u : Time) (h : t.add d = some u) :
    u.duration.ns = t.duration.ns + d.ns := by
  simp only [Time.add, Duration.add, Option.map_eq_some'] at h
  obtain ⟨c, hc, rfl⟩ := h
  exact Duration.addAssign_some _ _ _ hc

theorem Time.sub_some (t : Time) (d : Duration) (u : Time) (h : t.sub d = some u) :
    u.duration.ns = t.duration.ns - d.ns := by
  simp only [Time.sub, Duration.sub, Option.map_eq_some'] at h
  obtain ⟨c, hc, rfl⟩ := h
  exact Duration.subAssign_some _ _ _ hc

theorem Time.ext_ns (t u : Time) (h : t.duration.ns = u.duration.ns) : t = u := by
  cases t with
  | mk dt =>
    cases u with
    | mk du =>
      cases dt
      cases du
      simp_all

/-- C21: for every Time `t` and all Durations `a` and `b`, whenever the
operations involved do not overflow (they return a value): `(t + a) - a = t`;
`(t + a) + b = t + (a + b)`; `(Time::epoch() + a) - (Time::epoch() + b) = a - b`;
and the compound operators `+=` and `-=` give the same result as `+` and `-`,
on `Time` and on `Duration`. -/
theorem time_arithmetic (t : Time) (a b : Duration) :
    (∀ u v, t.add a = some u → u.sub a = some v → v = t) ∧
    (∀ u v ab w, t.add a = some u → u.add b = some v → a.add b = some ab →
      t.add ab = some w → v = w) ∧
    (∀ u v d e, Time.epoch.add a = some u → Time.epoch.add b = some v →
      u.diff v = some d → a.sub b = some e → d = e) ∧
    (t.addAssign a = t.add a ∧ t.subAssign a = t.sub a ∧
      a.addAssign b = a.add b ∧ a.subAssign b = a.sub b) := by
  refine ⟨?_, ?_, ?_, ⟨rfl, rfl, rfl, rfl⟩⟩
  · intro u v hu hv
    apply Time.ext_ns
    rw [Time.sub_some _ _ _ hv, Time.add_some _ _ _ hu]
    omega
  · intro u v ab w hu hv hab hw
    apply Time.ext_ns
    rw [Time.add_some _ _ _ hv, Time.add_some _ _ _ hu, Time.add_some _ _ _ hw,
      Duration.addAssign_some _ _ _ hab]
    omega
  · intro u v d e hu hv hd he
    have h1 := Time.add_some _ _ _ hu
    have h2 := Time.add_some _ _ _ hv
    have h3 := Duration.subAssign_some _ _ _ hd
    have h4 := Duration.subAssign_some _ _ _ he
    simp only [Time.epoch] at h1 h2
    cases d
    cases e
    simp only [Duration.mk.injEq]
    simp only at h3 h4
    omega

/-- Witness for C21: the test `TimeTest.Arithmetic`: the epoch plus 1000 weeks,
minus one week, is the epoch plus 999 weeks. -/
theorem time_arithmetic_witness :
    Time.epoch.add (Weeks 1000) = some ⟨Weeks 1000⟩ ∧
    (⟨Weeks 1000⟩ : Time).subAssign (Weeks 1) = Time.epoch.add (Weeks 999) ∧
    (⟨Weeks 1000⟩ : Time).diff ⟨Weeks 999⟩ = some (Weeks 1) ∧
    (∀ u v, (⟨Weeks 999⟩ : Time).add (Weeks 1) = some u →
      u.sub (Weeks 1) = some v → v = ⟨Weeks 999⟩) :=
  ⟨by decide, by decide, by decide,
    (time_arithmetic ⟨Weeks 999⟩ (Weeks 1) (Weeks 1)).1⟩

end Runtime

namespace Runtime

set_option maxRecDepth 100000 in
theorem rfc3339_max_check :
    RFC3339.stringify ⟨Time.max⟩ = some "2262-04-11 23:47:16.854775807+00:00" := by
  decide

set_option maxRecDepth 100000 in
theorem rfc1123_max_check :
    RFC1123.stringify ⟨Time.max⟩ = some "Fri, 11 Apr 2262 23:47:16 GMT" ∧
    RFC1123.stringify ⟨Time.epoch⟩ = some "Thu, 01 Jan 1970 00:00:00 GMT" ∧
    RFC1123.stringify ⟨⟨Weeks 1000⟩⟩ = some "Thu, 02 Mar 1989 00:00:00 GMT" ∧
    RFC3339.stringify ⟨⟨⟨604800000000000001⟩⟩⟩ = some "1989-03-02 00:00:00.000000001+00:00" ∧
    RFC3339.stringify ⟨⟨⟨604800000000001000⟩⟩⟩ = some "1989-03-02 00:00:00.000001000+00:00" := by
  decide

end Runtime

namespace Runtime

theorem daysInYear_bounds (y : Nat) : 365 ≤ daysInYear y ∧ daysInYear y ≤ 366 := by
  unfold daysInYear
  split <;> omega

theorem yearOf_spec : ∀ (fuel y d : Nat), d / 365 < fuel →
    y ≤ (yearOf fuel y d).1 ∧
    (yearOf fuel y d).2 < daysInYear (yearOf fuel y d).1 ∧
    ((List.range' y ((yearOf fuel y d).1 - y)).map daysInYear).sum + (yearOf fuel y d).2 = d ∧
    365 * ((yearOf fuel y d).1 - y) ≤ d := by
  intro fuel
  induction fuel with
  | zero => intro y d h; omega
  | succ fuel ih =>
    intro y d h
    have hb := daysInYear_bounds y
    unfold yearOf
    split
    · rename_i hlt
      simp only [Nat.sub_self, List.range'_zero, List.map_nil, List.sum_nil]
      omega
    · rename_i hge
      have hf : (d - daysInYear y) / 365 < fuel := by omega
      obtain ⟨h1, h2, h3, h4⟩ := ih (y + 1) (d - daysInYear y) hf
      have hlen : (yearOf fuel (y + 1) (d - daysInYear y)).1 - y =
          ((yearOf fuel (y + 1) (d - daysInYear y)).1 - (y + 1)) + 1 := by omega
      refine ⟨by omega, h2, ?_, by omega⟩
      rw [hlen, List.range'_succ, List.map_cons, List.sum_cons]
      omega

set_option maxRecDepth 100000 in
theorem monthOf_spec : ∀ (leap : Bool) (d : Nat), d < (if leap then 366 else 365) →
    (monthOf 12 leap 0 d).1 < 12 ∧
    (monthOf 12 leap 0 d).2 < daysInMonth leap (monthOf 12 leap 0 d).1 ∧
    ((List.range' 0 (monthOf 12 leap 0 d).1).map (daysInMonth leap)).sum +
      (monthOf 12 leap 0 d).2 = d := by
  intro leap
  cases leap
  · decide
  · decide

theorem digits_length : ∀ (width n : Nat), (digits width n).length = width := by
  intro width
  induction width with
  | zero => intro n; rfl
  | succ width ih =>
    intro n
    simp [digits, ih]

end Runtime

namespace Runtime

theorem gmtime_spec (secs : Nat) :
    ∃ y m d, 1970 ≤ y ∧ 365 * (y - 1970) ≤ secs / 86400 ∧ 1 ≤ m ∧ m ≤ 12 ∧ 1 ≤ d ∧
      d ≤ daysInMonth (isLeapYear y) (m - 1) ∧
      daysFromCivil y m d = secs / 86400 ∧
      gmtime secs =
        { tm_sec := secs % 60
          tm_min := secs / 60 % 60
          tm_hour := secs / 3600 % 24
          tm_mday := d
          tm_mon := m - 1
          tm_year := y - 1900
          tm_wday := (secs / 86400 + 4) % 7 } := by
  obtain ⟨h1, h2, h3, h4⟩ :=
    yearOf_spec (secs / 86400 / 365 + 1) 1970 (secs / 86400) (by omega)
  generalize hyd : yearOf (secs / 86400 / 365 + 1) 1970 (secs / 86400) = yd at h1 h2 h3 h4
  have hlt : yd.2 < (if isLeapYear yd.1 then 366 else 365) := by
    simpa [daysInYear] using h2
  obtain ⟨k1, k2, k3⟩ := monthOf_spec (isLeapYear yd.1) yd.2 hlt
  generalize hmd : monthOf 12 (isLeapYear yd.1) 0 yd.2 = md at k1 k2 k3
  refine ⟨yd.1, md.1 + 1, md.2 + 1, h1, h4, by omega, by omega, by omega, ?_, ?_, ?_⟩
  · simp only [Nat.add_sub_cancel]
    omega
  · simp only [daysFromCivil, Nat.add_sub_cancel]
    omega
  · simp only [gmtime, hyd, hmd, Nat.add_sub_cancel, Tm.mk.injEq, true_and, and_true]
    omega

theorem strftimeDateTime_gmtime (secs y m d : Nat) (hy : 1970 ≤ y) (hm : 1 ≤ m)
    (h : gmtime secs =
        { tm_sec := secs % 60
          tm_min := secs / 60 % 60
          tm_hour := secs / 3600 % 24
          tm_mday := d
          tm_mon := m - 1
          tm_year := y - 1900
          tm_wday := (secs / 86400 + 4) % 7 }) :
    strftimeDateTime (gmtime secs) =
      dateTimeForm y m d (secs / 3600 % 24) (secs / 60 % 60) (secs % 60) := by
  have e1 : y - 1900 + 1900 = y := by omega
  have e2 : m - 1 + 1 = m := by omega
  rw [h]
  simp only [strftimeDateTime, dateTimeForm, e1, e2]

theorem strftimeHttp_gmtime (secs y m d : Nat) (hy : 1970 ≤ y)
    (h : gmtime secs =
        { tm_sec := secs % 60
          tm_min := secs / 60 % 60
          tm_hour := secs / 3600 % 24
          tm_mday := d
          tm_mon := m - 1
          tm_year := y - 1900
          tm_wday := (secs / 86400 + 4) % 7 }) :
    strftimeHttp (gmtime secs) =
      httpForm (secs / 86400) y m d (secs / 3600 % 24) (secs / 60 % 60) (secs % 60) := by
  have e1 : y - 1900 + 1900 = y := by omega
  rw [h]
  simp only [strftimeHttp, httpForm, e1]

theorem dateTimeForm_length (y m d hour minute sec : Nat) :
    (dateTimeForm y m d hour minute sec).length = 19 := by
  simp [dateTimeForm, digits_length]

theorem dayNames_length (i : Nat) (h : i < 7) : (dayNames.getD i "").length = 3 := by
  interval_cases i <;> rfl

theorem monthNames_length (i : Nat) (h : i < 12) : (monthNames.getD i "").length = 3 := by
  interval_cases i <;> rfl

end Runtime

namespace Runtime

theorem RFC3339.stringify_of_nat3339 (n : Nat) :
    RFC3339.stringify ⟨⟨⟨(n : Int)⟩⟩⟩ =
      some (String.mk (strftimeDateTime (gmtime (n / 1000000000)) ++
        (if n % 1000000000 = 0 then [] else ['.'] ++ digits 9 (n % 1000000000)) ++
        ['+', '0', '0', ':', '0', '0'])) := by
  have h : ¬ ((n : Int) < 0) := by omega
  simp only [RFC3339.stringify, h, if_false, Int.toNat_ofNat, ne_eq, ite_not]

theorem RFC1123.stringify_of_nat1123 (n : Nat) :
    RFC1123.stringify ⟨⟨⟨(n : Int)⟩⟩⟩ =
      some (String.mk (strftimeHttp (gmtime (n / 1000000000)))) := by
  have h : ¬ ((n : Int) < 0) := by omega
  simp only [RFC1123.stringify, h, if_false, Int.toNat_ofNat]

/-- C22: for every Time `t` from the epoch to `Time::max()`, that is the epoch
plus `n` nanoseconds with `n ≤ 2^63 - 1`: `stringify(RFC3339(t))` and
`stringify(t)` are equal, and are "YYYY-MM-DD HH:MM:SS" for the date `y`-`m`-`d`
of the Gregorian calendar that lies `n / 10^9 / 86400` days after 1 January 1970
and the time of day of the whole seconds, followed by "+00:00" when `t` is a
whole number of seconds (25 characters) and by a dot, the nanoseconds on
exactly nine digits and "+00:00" otherwise (35 characters); `Time::max()`
renders as "2262-04-11 23:47:16.854775807+00:00". -/
theorem rfc3339_rendering (n : Nat) (hmax : (n : Int) ≤ Time.max.duration.ns) :
    ∃ y m d, 1970 ≤ y ∧ y ≤ 2262 ∧ 1 ≤ m ∧ m ≤ 12 ∧ 1 ≤ d ∧
      d ≤ daysInMonth (isLeapYear y) (m - 1) ∧
      daysFromCivil y m d = n / 1000000000 / 86400 ∧
      RFC3339.stringify ⟨⟨⟨(n : Int)⟩⟩⟩ = Time.stringify ⟨⟨(n : Int)⟩⟩ ∧
      Time.stringify ⟨⟨(n : Int)⟩⟩ =
        some (String.mk
          (dateTimeForm y m d (n / 1000000000 / 3600 % 24) (n / 1000000000 / 60 % 60)
              (n / 1000000000 % 60) ++
            (if n % 1000000000 = 0 then [] else ['.'] ++ digits 9 (n % 1000000000)) ++
            ['+', '0', '0', ':', '0', '0'])) ∧
      (∀ s, Time.stringify ⟨⟨(n : Int)⟩⟩ = some s →
        s.length = if n % 1000000000 = 0 then 25 else 35) ∧
      RFC3339.stringify ⟨Time.max⟩ = some "2262-04-11 23:47:16.854775807+00:00" ∧
      Time.stringify Time.max = some "2262-04-11 23:47:16.854775807+00:00" := by
  obtain ⟨y, m, d, hy, hyb, hm1, hm2, hd1, hd2, hdays, hg⟩ := gmtime_spec (n / 1000000000)
  have hn : n ≤ 9223372036854775807 := by
    simp only [Time.max] at hmax
    omega
  have hform := strftimeDateTime_gmtime (n / 1000000000) y m d hy hm1 hg
  have hs : Time.stringify ⟨⟨(n : Int)⟩⟩ =
      some (String.mk
        (dateTimeForm y m d (n / 1000000000 / 3600 % 24) (n / 1000000000 / 60 % 60)
            (n / 1000000000 % 60) ++
          (if n % 1000000000 = 0 then [] else ['.'] ++ digits 9 (n % 1000000000)) ++
          ['+', '0', '0', ':', '0', '0'])) := by
    rw [Time.stringify, RFC3339.stringify_of_nat3339, hform]
  refine ⟨y, m, d, hy, by omega, hm1, hm2, hd1, hd2, hdays, rfl, hs, ?_,
    rfc3339_max_check, rfc3339_max_check⟩
  intro s h
  rw [hs] at h
  simp only [Option.some.injEq] at h
  rw [← h]
  show List.length _ = _
  split
  · simp [dateTimeForm_length]
  · simp [dateTimeForm_length, digits_length]

/-- Witness for C22: one nanosecond after the epoch plus 1000 weeks, the third
case of the test `TimeTest.RFC3339Output`. -/
theorem rfc3339_rendering_witness :
    ((604800000000000001 : Nat) : Int) ≤ Time.max.duration.ns ∧
    ∃ y m d, 1970 ≤ y ∧ y ≤ 2262 ∧ 1 ≤ m ∧ m ≤ 12 ∧ 1 ≤ d ∧
      d ≤ daysInMonth (isLeapYear y) (m - 1) ∧
      daysFromCivil y m d = 604800000000000001 / 1000000000 / 86400 ∧
      RFC3339.stringify ⟨⟨⟨((604800000000000001 : Nat) : Int)⟩⟩⟩ =
        Time.stringify ⟨⟨((604800000000000001 : Nat) : Int)⟩⟩ ∧
      Time.stringify ⟨⟨((604800000000000001 : Nat) : Int)⟩⟩ =
        some (String.mk
          (dateTimeForm y m d (604800000000000001 / 1000000000 / 3600 % 24)
              (604800000000000001 / 1000000000 / 60 % 60)
              (604800000000000001 / 1000000000 % 60) ++
            (if 604800000000000001 % 1000000000 = 0 then []
              else ['.'] ++ digits 9 (604800000000000001 % 1000000000)) ++
            ['+', '0', '0', ':', '0', '0'])) ∧
      (∀ s, Time.stringify ⟨⟨((604800000000000001 : Nat) : Int)⟩⟩ = some s →
        s.length = if 604800000000000001 % 1000000000 = 0 then 25 else 35) ∧
      RFC3339.stringify ⟨Time.max⟩ = some "2262-04-11 23:47:16.854775807+00:00" ∧
      Time.stringify Time.max = some "2262-04-11 23:47:16.854775807+00:00" :=
  ⟨by decide, rfc3339_rendering 604800000000000001 (by decide)⟩

end Runtime

namespace Runtime

theorem httpForm_length (days y m d hour minute sec : Nat) (hm1 : 1 ≤ m) (hm2 : m ≤ 12) :
    (httpForm days y m d hour minute sec).length = 29 := by
  have h1 : ((dayNames.getD ((days + 4) % 7) "").data).length = 3 :=
    dayNames_length _ (Nat.mod_lt _ (by decide))
  have h2 : ((monthNames.getD (m - 1) "").data).length = 3 :=
    monthNames_length _ (by omega)
  simp only [httpForm, List.length_append, digits_length, h1, h2, List.length_cons,
    List.length_nil]

/-- C23: for every Time `t` from the epoch to `Time::max()`, that is the epoch
plus `n` nanoseconds with `n ≤ 2^63 - 1`: `stringify(RFC1123(t))` is
"Www, DD Mon YYYY HH:MM:SS GMT" (29 characters) for the date `y`-`m`-`d` of the
Gregorian calendar that lies `n / 10^9 / 86400` days after 1 January 1970, a
Thursday, its weekday, and the time of day of the whole seconds; the part below
a second is dropped, so any two times within the same second render
identically; the epoch renders as "Thu, 01 Jan 1970 00:00:00 GMT" and
`Time::max()` as "Fri, 11 Apr 2262 23:47:16 GMT". -/
theorem rfc1123_rendering (n : Nat) (hmax : (n : Int) ≤ Time.max.duration.ns) :
    ∃ y m d, 1970 ≤ y ∧ y ≤ 2262 ∧ 1 ≤ m ∧ m ≤ 12 ∧ 1 ≤ d ∧
      d ≤ daysInMonth (isLeapYear y) (m - 1) ∧
      daysFromCivil y m d = n / 1000000000 / 86400 ∧
      RFC1123.stringify ⟨⟨⟨(n : Int)⟩⟩⟩ =
        some (String.mk
          (httpForm (n / 1000000000 / 86400) y m d (n / 1000000000 / 3600 % 24)
            (n / 1000000000 / 60 % 60) (n / 1000000000 % 60))) ∧
      (∀ s, RFC1123.stringify ⟨⟨⟨(n : Int)⟩⟩⟩ = some s → s.length = 29) ∧
      (∀ k : Nat, k / 1000000000 = n / 1000000000 →
        RFC1123.stringify ⟨⟨⟨(k : Int)⟩⟩⟩ = RFC1123.stringify ⟨⟨⟨(n : Int)⟩⟩⟩) ∧
      RFC1123.stringify ⟨Time.epoch⟩ = some "Thu, 01 Jan 1970 00:00:00 GMT" ∧
      RFC1123.stringify ⟨Time.max⟩ = some "Fri, 11 Apr 2262 23:47:16 GMT" := by
  obtain ⟨y, m, d, hy, hyb, hm1, hm2, hd1, hd2, hdays, hg⟩ := gmtime_spec (n / 1000000000)
  have hn : n ≤ 9223372036854775807 := by
    simp only [Time.max] at hmax
    omega
  have hform := strftimeHttp_gmtime (n / 1000000000) y m d hy hg
  have hs : RFC1123.stringify ⟨⟨⟨(n : Int)⟩⟩⟩ =
      some (String.mk
        (httpForm (n / 1000000000 / 86400) y m d (n / 1000000000 / 3600 % 24)
          (n / 1000000000 / 60 % 60) (n / 1000000000 % 60))) := by
    rw [RFC1123.stringify_of_nat1123, hform]
  refine ⟨y, m, d, hy, by omega, hm1, hm2, hd1, hd2, hdays, hs, ?_, ?_,
    rfc1123_max_check.2.1, rfc1123_max_check.1⟩
  · intro s h
    rw [hs] at h
    simp only [Option.some.injEq] at h
    rw [← h]
    show List.length _ = _
    exact httpForm_length _ _ _ _ _ _ _ hm1 hm2
  · intro k hk
    rw [RFC1123.stringify_of_nat1123, RFC1123.stringify_of_nat1123, hk]

/-- Witness for C23: one nanosecond after the epoch plus 1000 weeks, the third
case of the test `TimeTest.RFC1123Output`. -/
theorem rfc1123_rendering_witness :
    ((604800000000000001 : Nat) : Int) ≤ Time.max.duration.ns ∧
    ∃ y m d, 1970 ≤ y ∧ y ≤ 2262 ∧ 1 ≤ m ∧ m ≤ 12 ∧ 1 ≤ d ∧
      d ≤ daysInMonth (isLeapYear y) (m - 1) ∧
      daysFromCivil y m d = 604800000000000001 / 1000000000 / 86400 ∧
      RFC1123.stringify ⟨⟨⟨((604800000000000001 : Nat) : Int)⟩⟩⟩ =
        some (String.mk
          (httpForm (604800000000000001 / 1000000000 / 86400) y m d
            (604800000000000001 / 1000000000 / 3600 % 24)
            (604800000000000001 / 1000000000 / 60 % 60)
            (604800000000000001 / 1000000000 % 60))) ∧
      (∀ s, RFC1123.stringify ⟨⟨⟨((604800000000000001 : Nat) : Int)⟩⟩⟩ = some s →
        s.length = 29) ∧
      (∀ k : Nat, k / 1000000000 = 604800000000000001 / 1000000000 →
        RFC1123.stringify ⟨⟨⟨(k : Int)⟩⟩⟩ =
          RFC1123.stringify ⟨⟨⟨((604800000000000001 : Nat) : Int)⟩⟩⟩) ∧
      RFC1123.stringify ⟨Time.epoch⟩ = some "Thu, 01 Jan 1970 00:00:00 GMT" ∧
      RFC1123.stringify ⟨Time.max⟩ = some "Fri, 11 Apr 2262 23:47:16 GMT" :=
  ⟨by decide, rfc1123_rendering 604800000000000001 (by decide)⟩

end Runtime

namespace Runtime

theorem monthSum_step : ∀ (leap : Bool), ∀ m' < 13, ∀ m < m', 1 ≤ m →
    ((List.range' 0 (m - 1)).map (daysInMonth leap)).sum + daysInMonth leap (m - 1) ≤
      ((List.range' 0 (m' - 1)).map (daysInMonth leap)).sum := by
  decide

theorem monthSum_year : ∀ (leap : Bool), ∀ m < 13, 1 ≤ m →
    ((List.range' 0 (m - 1)).map (daysInMonth leap)).sum + daysInMonth leap (m - 1) ≤
      (if leap then 366 else 365) := by
  decide

theorem yearSum_step (y : Nat) : ∀ (k : Nat),
    ((List.range' 1970 (y - 1970)).map daysInYear).sum + daysInYear y ≤
      ((List.range' 1970 (y + 1 + k - 1970)).map daysInYear).sum ∨ y < 1970 := by
  intro k
  by_cases hy : y < 1970
  · exact Or.inr hy
  · left
    induction k with
    | zero =>
      have e : y + 1 + 0 - 1970 = (y - 1970) + 1 := by omega
      have e2 : 1970 + (y - 1970) = y := by omega
      rw [e, List.range'_concat, List.map_append, List.sum_append]
      simp [e2]
    | succ k ih =>
      have e : y + 1 + (k + 1) - 1970 = (y + 1 + k - 1970) + 1 := by omega
      rw [e, List.range'_concat, List.map_append, List.sum_append]
      omega

/-- The calendar date of a day number is unique: two valid dates that lie the
same number of days after 1 January 1970 are the same date. -/
theorem daysFromCivil_injective (y m d y' m' d' : Nat)
    (hy : 1970 ≤ y) (hm1 : 1 ≤ m) (hm2 : m ≤ 12) (hd1 : 1 ≤ d)
    (hd2 : d ≤ daysInMonth (isLeapYear y) (m - 1))
    (hy' : 1970 ≤ y') (hm1' : 1 ≤ m') (hm2' : m' ≤ 12) (hd1' : 1 ≤ d')
    (hd2' : d' ≤ daysInMonth (isLeapYear y') (m' - 1))
    (h : daysFromCivil y m d = daysFromCivil y' m' d') :
    y = y' ∧ m = m' ∧ d = d' := by
  have key : ∀ (a ma da b mb db : Nat), 1970 ≤ a → 1 ≤ ma → ma ≤ 12 → 1 ≤ da →
      da ≤ daysInMonth (isLeapYear a) (ma - 1) → a < b →
      daysFromCivil a ma da < daysFromCivil b mb db := by
    intro a ma da b mb db ha h1 h2 h3 h4 hab
    have s1 := monthSum_year (isLeapYear a) ma (by omega) h1
    have s2 := yearSum_step a (b - (a + 1))
    have e : a + 1 + (b - (a + 1)) = b := by omega
    rw [e] at s2
    have s3 : daysInYear a = if isLeapYear a then 366 else 365 := rfl
    simp only [daysFromCivil]
    omega
  have keym : ∀ (a ma da mb db : Nat), 1 ≤ ma → 1 ≤ da →
      da ≤ daysInMonth (isLeapYear a) (ma - 1) → ma < mb → mb ≤ 12 →
      daysFromCivil a ma da < daysFromCivil a mb db := by
    intro a ma da mb db h1 h3 h4 hab hb
    have s1 := monthSum_step (isLeapYear a) mb (by omega) ma hab h1
    simp only [daysFromCivil]
    omega
  have hyy : y = y' := by
    rcases Nat.lt_trichotomy y y' with hlt | heq | hgt
    · have := key y m d y' m' d' hy hm1 hm2 hd1 hd2 hlt
      omega
    · exact heq
    · have := key y' m' d' y m d hy' hm1' hm2' hd1' hd2' hgt
      omega
  subst hyy
  have hmm : m = m' := by
    rcases Nat.lt_trichotomy m m' with hlt | heq | hgt
    · have := keym y m d m' d' hm1 hd1 hd2 hlt hm2'
      omega
    · exact heq
    · have := keym y m' d' m d hm1' hd1' hd2' hgt hm2
      omega
  subst hmm
  refine ⟨rfl, rfl, ?_⟩
  simp only [daysFromCivil] at h
  omega

theorem digits_isDigit : ∀ (width n : Nat), ∀ c ∈ digits width n, c.isDigit = true := by
  intro width
  induction width with
  | zero => intro n c h; simp [digits] at h
  | succ width ih =>
    intro n c h
    simp only [digits, List.mem_append, List.mem_singleton] at h
    rcases h with h | h
    · exact ih _ c h
    · subst h
      have hlt : n % 10 < 10 := Nat.mod_lt _ (by decide)
      generalize n % 10 = r at hlt
      interval_cases r <;> decide

end Runtime

namespace Runtime

theorem Promise.once_fresh (T : Type) : (Promise.fresh T).Once := by
  simp [Promise.Once, Promise.fresh]

end Runtime

namespace Runtime

theorem Promise.once_attach {T : Type} (p : Promise T) (kind : ContinuationKind)
    (h : p.Once) : (p.attach kind).Once := by
  obtain ⟨h1, h2⟩ := h
  have hnot : p.next ∉ p.ran ++ p.continuations.map Prod.fst := by
    intro hm
    have := h2 _ hm
    omega
  have hperm1 : (p.ran ++ [p.next] ++ p.continuations.map Prod.fst).Perm
      (p.next :: (p.ran ++ p.continuations.map Prod.fst)) := by
    rw [List.append_assoc]
    exact List.perm_middle
  have hperm2 : (p.ran ++ (p.continuations ++ [(p.next, kind)]).map Prod.fst).Perm
      (p.next :: (p.ran ++ p.continuations.map Prod.fst)) := by
    rw [List.map_append, ← List.append_assoc]
    simp only [List.map_cons, List.map_nil]
    exact List.perm_append_singleton _ _
  have hnd : (p.next :: (p.ran ++ p.continuations.map Prod.fst)).Nodup :=
    List.nodup_cons.mpr ⟨hnot, h1⟩
  have hlt : ∀ c ∈ p.next :: (p.ran ++ p.continuations.map Prod.fst), c < p.next + 1 := by
    intro c hc
    rcases List.mem_cons.mp hc with hc | hc
    · omega
    · have := h2 c hc
      omega
  unfold Promise.attach
  split
  · split
    · exact ⟨hperm1.nodup_iff.mpr hnd, fun c hc => hlt c (hperm1.subset hc)⟩
    · exact ⟨h1, fun c hc => Nat.lt_succ_of_lt (h2 c hc)⟩
  · exact ⟨hperm2.nodup_iff.mpr hnd, fun c hc => hlt c (hperm2.subset hc)⟩

theorem Promise.once_resolve {T : Type} (p : Promise T) (s : FutureState T)
    (h : p.Once) : (p.resolve s).1.Once := by
  obtain ⟨h1, h2⟩ := h
  unfold Promise.resolve
  split
  · exact ⟨h1, h2⟩
  · have hsub : List.Sublist
        (p.ran ++ ((p.continuations.filter (fun c => c.2.fires s)).map Prod.fst))
        (p.ran ++ p.continuations.map Prod.fst) :=
      List.Sublist.append_left ((List.filter_sublist _).map _) _
    constructor
    · simp only [List.map_nil, List.append_nil]
      exact h1.sublist hsub
    · intro c hc
      simp only [List.map_nil, List.append_nil] at hc
      exact h2 c (hsub.subset hc)

theorem Promise.once_step {T : Type} (p : Promise T) (op : PromiseOp T)
    (h : p.Once) : (p.step op).1.Once := by
  cases op with
  | set v => exact Promise.once_resolve p _ h
  | fail reason => exact Promise.once_resolve p _ h
  | discard => exact Promise.once_resolve p _ h
  | attach kind => exact Promise.once_attach p kind h

theorem Promise.once_run {T : Type} (ops : List (PromiseOp T)) :
    ∀ (p : Promise T), p.Once → (p.run ops).Once := by
  induction ops with
  | nil => intro p h; exact h
  | cons op ops ih =>
    intro p h
    exact ih _ (Promise.once_step p op h)

theorem Promise.resolve_terminal {T : Type} (p : Promise T) (s : FutureState T)
    (h : p.state.terminal = true) : p.resolve s = (p, false) := by
  simp [Promise.resolve, h]

theorem Promise.step_ready {T : Type} (p : Promise T) (op : PromiseOp T) (v : T)
    (h : p.state = FutureState.ready v) : (p.step op).1.state = FutureState.ready v := by
  have ht : p.state.terminal = true := by rw [h]; rfl
  cases op with
  | set w => simp [Promise.step, Promise.set, Promise.resolve_terminal p _ ht, h]
  | fail reason => simp [Promise.step, Promise.fail, Promise.resolve_terminal p _ ht, h]
  | discard => simp [Promise.step, Promise.discard, Promise.resolve_terminal p _ ht, h]
  | attach kind =>
    simp only [Promise.step, Promise.attach, ht, if_true]
    exact h

theorem Promise.run_ready {T : Type} (ops : List (PromiseOp T)) (v : T) :
    ∀ (p : Promise T), p.state = FutureState.ready v →
      (p.run ops).state = FutureState.ready v := by
  induction ops with
  | nil => intro p h; exact h
  | cons op ops ih =>
    intro p h
    exact ih _ (Promise.step_ready p op v h)

theorem Promise.set_true {T : Type} (p : Promise T) (v : T) (h : (p.set v).2 = true) :
    (p.set v).1.state = FutureState.ready v ∧
    (p.set v).1.ran =
      p.ran ++ ((p.continuations.filter (fun c => c.2.fires (FutureState.ready v))).map
        Prod.fst) := by
  unfold Promise.set Promise.resolve at h ⊢
  split at h
  · simp at h
  · rename_i hn
    simp [hn]

/-- C24: for every promise reached by any operations `ops` from a new one, and
values `v1`, `v2`: after `set(v1)` succeeds, leaving the promise `p1`, a second
`set(v2)`, a `fail` or a `discard` reports an error (`false`) and changes
nothing, the future reads `v1` then and after any further operations `more`,
and no continuation is run a second time: the continuations that have run are
all different, whatever happens later. -/
theorem promise_resolves_once {T : Type} (ops more : List (PromiseOp T)) (v1 v2 : T)
    (reason : String) (p1 : Promise T)
    (hp1 : p1 = (((Promise.fresh T).run ops).set v1).1)
    (h : (((Promise.fresh T).run ops).set v1).2 = true) :
    p1.set v2 = (p1, false) ∧ p1.fail reason = (p1, false) ∧ p1.discard = (p1, false) ∧
    p1.get = some v1 ∧ (p1.run more).get = some v1 ∧
    p1.ran.Nodup ∧ (p1.run more).ran.Nodup := by
  have hs := (Promise.set_true _ v1 h).1
  rw [← hp1] at hs
  have ht : p1.state.terminal = true := by rw [hs]; rfl
  have honce : p1.Once := by
    rw [hp1]
    exact Promise.once_resolve _ _ (Promise.once_run ops _ (Promise.once_fresh T))
  have hmore := Promise.run_ready more v1 p1 hs
  refine ⟨Promise.resolve_terminal p1 _ ht, Promise.resolve_terminal p1 _ ht,
    Promise.resolve_terminal p1 _ ht, ?_, ?_, ?_, ?_⟩
  · simp [Promise.get, hs]
  · simp [Promise.get, hmore]
  · exact (List.nodup_append.mp honce.1).1
  · exact (List.nodup_append.mp (Promise.once_run more p1 honce).1).1

/-- Witness for C24: a promise with two continuations attached is set to 1; a
second `set(2)` is refused, and so is a third after another continuation was
attached. -/
theorem promise_resolves_once_witness :
    (⟨FutureState.ready 1, [], 2, [0]⟩ : Promise Nat) =
      (((Promise.fresh Nat).run
        [PromiseOp.attach ContinuationKind.onReady,
         PromiseOp.attach ContinuationKind.onFailed]).set 1).1 ∧
    (((Promise.fresh Nat).run
        [PromiseOp.attach ContinuationKind.onReady,
         PromiseOp.attach ContinuationKind.onFailed]).set 1).2 = true ∧
    (⟨FutureState.ready 1, [], 2, [0]⟩ : Promise Nat).set 2 =
      (⟨FutureState.ready 1, [], 2, [0]⟩, false) ∧
    ((⟨FutureState.ready 1, [], 2, [0]⟩ : Promise Nat).run
      [PromiseOp.attach ContinuationKind.onAny, PromiseOp.set 3]).get = some 1 :=
  ⟨by decide, by decide,
    (promise_resolves_once
      [PromiseOp.attach ContinuationKind.onReady, PromiseOp.attach ContinuationKind.onFailed]
      [PromiseOp.attach ContinuationKind.onAny, PromiseOp.set 3] 1 2 "late"
      ⟨FutureState.ready 1, [], 2, [0]⟩ (by decide) (by decide)).1,
    (promise_resolves_once
      [PromiseOp.attach ContinuationKind.onReady, PromiseOp.attach ContinuationKind.onFailed]
      [PromiseOp.attach ContinuationKind.onAny, PromiseOp.set 3] 1 2 "late"
      ⟨FutureState.ready 1, [], 2, [0]⟩ (by decide) (by decide)).2.2.2.2.1⟩

end Runtime

namespace Runtime

theorem Clock.mem_enqueue (x : Timer) : ∀ (q : List Timer) (t : Timer),
    t ∈ Clock.enqueue x q ↔ t = x ∨ t ∈ q := by
  intro q
  induction q with
  | nil => intro t; simp [Clock.enqueue]
  | cons y rest ih =>
    intro t
    unfold Clock.enqueue
    split
    · simp only [List.mem_cons, ih]
      tauto
    · simp only [List.mem_cons]

theorem Clock.enqueue_pairwise (x : Timer) : ∀ (q : List Timer),
    q.Pairwise Timer.before → (∀ t ∈ q, t.id < x.id) →
    (Clock.enqueue x q).Pairwise Timer.before := by
  intro q
  induction q with
  | nil => intro _ _; simp [Clock.enqueue]
  | cons y rest ih =>
    intro hp hid
    rw [List.pairwise_cons] at hp
    unfold Clock.enqueue
    split
    · rename_i hle
      rw [List.pairwise_cons]
      refine ⟨?_, ih hp.2 (fun t ht => hid t (List.mem_cons_of_mem _ ht))⟩
      intro t ht
      rcases (Clock.mem_enqueue x rest t).mp ht with h | h
      · subst h
        have := hid y (List.mem_cons_self _ _)
        unfold Timer.before
        omega
      · exact hp.1 t h
    · rename_i hgt
      rw [List.pairwise_cons]
      refine ⟨?_, List.pairwise_cons.mpr hp⟩
      intro t ht
      rcases List.mem_cons.mp ht with h | h
      · subst h
        unfold Timer.before
        omega
      · have := hp.1 t h
        unfold Timer.before at this ⊢
        omega

theorem Clock.due_append (now : Nat) : ∀ (q : List Timer),
    (Clock.due now q).1 ++ (Clock.due now q).2 = q := by
  intro q
  induction q with
  | nil => rfl
  | cons y rest ih =>
    unfold Clock.due
    split
    · simp [ih]
    · rfl

theorem Clock.due_fst (now : Nat) : ∀ (q : List Timer),
    ∀ t ∈ (Clock.due now q).1, t.fire ≤ now := by
  intro q
  induction q with
  | nil => intro t ht; simp [Clock.due] at ht
  | cons y rest ih =>
    intro t ht
    unfold Clock.due at ht
    split at ht
    · rename_i hle
      rcases List.mem_cons.mp ht with h | h
      · subst h; exact hle
      · exact ih t h
    · simp at ht

theorem Clock.due_snd (now : Nat) : ∀ (q : List Timer), q.Pairwise Timer.before →
    ∀ t ∈ (Clock.due now q).2, now < t.fire := by
  intro q
  induction q with
  | nil => intro _ t ht; simp [Clock.due] at ht
  | cons y rest ih =>
    intro hp t ht
    rw [List.pairwise_cons] at hp
    unfold Clock.due at ht
    split at ht
    · exact ih hp.2 t ht
    · rename_i hgt
      rcases List.mem_cons.mp ht with h | h
      · subst h; omega
      · have := hp.1 t h
        unfold Timer.before at this
        omega

theorem Clock.ordered_pausedAt (now : Nat) : (Clock.pausedAt now).Ordered := by
  simp [Clock.Ordered, Clock.pausedAt]

theorem Clock.ordered_delay (c : Clock) (duration : Nat) (h : c.Ordered) :
    (c.delay duration).Ordered := by
  obtain ⟨h1, h2⟩ := h
  constructor
  · exact Clock.enqueue_pairwise _ _ h1 (fun t ht => h2 t ht)
  · intro t ht
    rcases (Clock.mem_enqueue _ _ t).mp ht with h | h
    · subst h
      exact Nat.lt_succ_self _
    · exact Nat.lt_succ_of_lt (h2 t h)

theorem Clock.ordered_advance (c : Clock) (duration : Nat) (h : c.Ordered) :
    (c.advance duration).Ordered := by
  obtain ⟨h1, h2⟩ := h
  have hsub : List.Sublist (Clock.due (c.now + duration) c.timers).2 c.timers := by
    have hs : List.Sublist (Clock.due (c.now + duration) c.timers).2
        ((Clock.due (c.now + duration) c.timers).1 ++ (Clock.due (c.now + duration) c.timers).2) :=
      List.sublist_append_right _ _
    rw [Clock.due_append] at hs
    exact hs
  exact ⟨h1.sublist hsub, fun t ht => h2 t (hsub.subset ht)⟩

theorem Clock.ordered_run (ops : List ClockOp) : ∀ (c : Clock), c.Ordered →
    (c.run ops).Ordered := by
  induction ops with
  | nil => intro c h; exact h
  | cons op ops ih =>
    intro c h
    cases op with
    | delay duration => exact ih _ (Clock.ordered_delay c duration h)
    | advance duration => exact ih _ (Clock.ordered_advance c duration h)

theorem Clock.delays_spec (ds : List Nat) : ∀ (c : Clock),
    (ds.foldl Clock.delay c).now = c.now ∧
    (ds.foldl Clock.delay c).fired = c.fired ∧
    (∀ t ∈ c.timers, t ∈ (ds.foldl Clock.delay c).timers) ∧
    (∀ i (h : i < ds.length),
      (⟨c.now + ds.get ⟨i, h⟩, c.next + i⟩ : Timer) ∈ (ds.foldl Clock.delay c).timers) ∧
    (∀ t ∈ (ds.foldl Clock.delay c).timers, t ∈ c.timers ∨
      ∃ i, ∃ h : i < ds.length, t = ⟨c.now + ds.get ⟨i, h⟩, c.next + i⟩) := by
  induction ds with
  | nil =>
    intro c
    refine ⟨rfl, rfl, fun t ht => ht, ?_, fun t ht => Or.inl ht⟩
    intro i h
    simp at h
  | cons a ds ih =>
    intro c
    obtain ⟨h1, h2, h3, h4, h5⟩ := ih (c.delay a)
    have hnow : (c.delay a).now = c.now := rfl
    have hnext : (c.delay a).next = c.next + 1 := rfl
    have hmem : ∀ t, t ∈ (c.delay a).timers ↔ t = ⟨c.now + a, c.next⟩ ∨ t ∈ c.timers :=
      fun t => Clock.mem_enqueue _ _ t
    simp only [List.foldl_cons]
    refine ⟨h1, h2, fun t ht => h3 t ((hmem t).mpr (Or.inr ht)), ?_, ?_⟩
    · intro i h
      cases i with
      | zero => exact h3 _ ((hmem _).mpr (Or.inl rfl))
      | succ i =>
        have := h4 i (by simpa using h)
        rw [hnow, hnext] at this
        have e : c.next + 1 + i = c.next + (i + 1) := by omega
        rw [e] at this
        exact this
    · intro t ht
      rcases h5 t ht with h | ⟨i, hi, h⟩
      · rcases (hmem t).mp h with h | h
        · exact Or.inr ⟨0, by simp, by simpa using h⟩
        · exact Or.inl h
      · refine Or.inr ⟨i + 1, by simpa using hi, ?_⟩
        rw [hnow, hnext] at h
        have e : c.next + 1 + i = c.next + (i + 1) := by omega
        rw [e] at h
        exact h

/-- C25: on a paused clock `c`, reached by any earlier delays and advances, on
which the delayed dispatches `ds` are then scheduled: each of them is held with
fire time `now + ds[i]`, numbered in scheduling order; `advance(d)` moves the
time to `now + d` and fires, before it returns, exactly the held dispatches
whose fire time is at most `now + d`, in fire-time order with ties in
scheduling order, and keeps only dispatches that fire later; for dispatches
scheduled at +1s, +2s, +2s, `advance(3s)` fires all three, the two at +2s in
scheduling order. -/
theorem clock_advance_fires_due (now0 : Nat) (ops : List ClockOp) (ds : List Nat) (d : Nat) :
    (∀ i (h : i < ds.length),
      (⟨((Clock.pausedAt now0).run ops).now + ds.get ⟨i, h⟩,
        ((Clock.pausedAt now0).run ops).next + i⟩ : Timer) ∈
        (ds.foldl Clock.delay ((Clock.pausedAt now0).run ops)).timers) ∧
    (ds.foldl Clock.delay ((Clock.pausedAt now0).run ops)).fired =
      ((Clock.pausedAt now0).run ops).fired ∧
    ((ds.foldl Clock.delay ((Clock.pausedAt now0).run ops)).advance d).now =
      ((Clock.pausedAt now0).run ops).now + d ∧
    ((((Clock.pausedAt 0).delay 1000000000).delay 2000000000).delay 2000000000).advance
        3000000000 =
      { now := 3000000000, timers := [], next := 3,
        fired := [⟨1000000000, 0⟩, ⟨2000000000, 1⟩, ⟨2000000000, 2⟩] } ∧
    ∃ due,
      ((ds.foldl Clock.delay ((Clock.pausedAt now0).run ops)).advance d).fired =
        ((Clock.pausedAt now0).run ops).fired ++ due ∧
      (∀ t, t ∈ due ↔
        t ∈ (ds.foldl Clock.delay ((Clock.pausedAt now0).run ops)).timers ∧
          t.fire ≤ ((Clock.pausedAt now0).run ops).now + d) ∧
      (∀ t, t ∈ ((ds.foldl Clock.delay ((Clock.pausedAt now0).run ops)).advance d).timers ↔
        t ∈ (ds.foldl Clock.delay ((Clock.pausedAt now0).run ops)).timers ∧
          ((Clock.pausedAt now0).run ops).now + d < t.fire) ∧
      due.Pairwise Timer.before := by
  generalize hc : (Clock.pausedAt now0).run ops = c
  have hord : c.Ordered := by
    rw [← hc]
    exact Clock.ordered_run ops _ (Clock.ordered_pausedAt now0)
  obtain ⟨h1, h2, h3, h4, h5⟩ := Clock.delays_spec ds c
  generalize hc2 : ds.foldl Clock.delay c = c2 at h1 h2 h3 h4 h5
  have hord2 : c2.Ordered := by
    rw [← hc2]
    have : ds.foldl Clock.delay c = c.run (ds.map ClockOp.delay) := by
      unfold Clock.run
      rw [List.foldl_map]
      rfl
    rw [this]
    exact Clock.ordered_run _ _ hord
  have happ := Clock.due_append (c2.now + d) c2.timers
  have hfst := Clock.due_fst (c2.now + d) c2.timers
  have hsnd := Clock.due_snd (c2.now + d) c2.timers hord2.1
  refine ⟨h4, h2, ?_, by decide, (Clock.due (c2.now + d) c2.timers).1, ?_, ?_, ?_, ?_⟩
  · show c2.now + d = c.now + d
    rw [h1]
  · show c2.fired ++ _ = _
    rw [h2]
  · intro t
    rw [← h1]
    constructor
    · intro ht
      refine ⟨?_, hfst t ht⟩
      rw [← happ]
      exact List.mem_append_left _ ht
    · rintro ⟨ht, hle⟩
      rw [← happ] at ht
      rcases List.mem_append.mp ht with h | h
      · exact h
      · have := hsnd t h
        omega
  · intro t
    rw [← h1]
    show t ∈ (Clock.due (c2.now + d) c2.timers).2 ↔ _
    constructor
    · intro ht
      refine ⟨?_, hsnd t ht⟩
      rw [← happ]
      exact List.mem_append_right _ ht
    · rintro ⟨ht, hlt⟩
      rw [← happ] at ht
      rcases List.mem_append.mp ht with h | h
      · have := hfst t h
        omega
      · exact h
  · have hs : List.Sublist (Clock.due (c2.now + d) c2.timers).1
        ((Clock.due (c2.now + d) c2.timers).1 ++ (Clock.due (c2.now + d) c2.timers).2) :=
      List.sublist_append_left _ _
    rw [happ] at hs
    exact hord2.1.sublist hs

end Runtime

namespace Benchmarks

theorem CSys.exec_degenerate (lib : Library) (request : Request)
    (ms rs cs : String) (size N c : Nat)
    (horder : lib.order.Perm ["server", "messageSize", "requests", "concurrency"])
    (hserver : request.get "server" = some "server")
    (hms : request.get "messageSize" = some ms)
    (hsize : lib.parseBytes ms = Except.ok size)
    (hrs : request.get "requests" = some rs) (hN : lib.numify rs = Except.ok N)
    (hcs : request.get "concurrency" = some cs) (hc : lib.numify cs = Except.ok c)
    (hN2 : N < SIZE_MODULUS) (h0 : min c N = 0)
    (schedule : List Pid) (s : CSys)
    (hs : (CSys.init.request request).exec lib schedule = some s) :
    (schedule = [] ∧ s = CSys.init.request request) ∨
    (schedule = [Pid.client] ∧ s.client.requests = 0 ∧ s.client.responses = 0 ∧
      s.client.concurrency = 0 ∧ s.client.totalRequests = N ∧
      s.pingsSent = 0 ∧ s.pongsReceived = 0) := by
  cases schedule with
  | nil =>
    left
    simp only [CSys.exec, Option.some.injEq] at hs
    exact ⟨rfl, hs.symm⟩
  | cons p rest =>
    right
    cases p with
    | destination => simp [CSys.exec, CSys.deliver, CSys.init, CSys.request] at hs
    | client =>
      simp only [CSys.exec, CSys.deliver, CSys.init, CSys.request, List.nil_append,
        Bool.false_eq_true, if_false] at hs
      rw [ClientProcess.run_new lib request ms rs cs size N c horder hserver hms
        hsize hrs hN hcs hc hN2, h0] at hs
      simp only [List.replicate_zero, List.foldl_cons, List.foldl_nil,
        CSys.performClient] at hs
      cases rest with
      | nil =>
        simp only [CSys.exec, Option.some.injEq] at hs
        subst hs
        simp
      | cons q rest =>
        cases q <;> simp [CSys.exec, CSys.deliver] at hs

/-- C26: during the run of a newly constructed ClientProcess asked for
`requests = N` and `concurrency = c`, in every state `s` reached by any schedule:
`responses ≤ requests ≤ N`, and the number of unanswered pings,
`requests - responses`, is at most `min c N`; the fields count the pings sent
and the pongs received, and once the request is handled the `concurrency` field
is `min c N`: the parameter is clamped to `N` and bounds the pings in flight. -/
theorem client_in_flight_bound (lib : Library) (request : Request)
    (ms rs cs : String) (size N c : Nat)
    (horder : lib.order.Perm ["server", "messageSize", "requests", "concurrency"])
    (hserver : request.get "server" = some "server")
    (hms : request.get "messageSize" = some ms)
    (hsize : lib.parseBytes ms = Except.ok size)
    (hrs : request.get "requests" = some rs) (hN : lib.numify rs = Except.ok N)
    (hcs : request.get "concurrency" = some cs) (hc : lib.numify cs = Except.ok c)
    (hN2 : N < SIZE_MODULUS)
    (schedule : List Pid) (s : CSys)
    (hs : (CSys.init.request request).exec lib schedule = some s) :
    s.client.responses ≤ s.client.requests ∧ s.client.requests ≤ N ∧
    s.client.requests - s.client.responses ≤ min c N ∧
    s.client.requests = s.pingsSent ∧ s.client.responses = s.pongsReceived ∧
    (1 ≤ schedule.length → s.client.concurrency = min c N ∧ s.client.totalRequests = N) := by
  by_cases hpos : 1 ≤ N ∧ 1 ≤ c
  · have hinv := CSys.Inv_exec lib request ms rs cs size N c horder hserver hms hsize
      hrs hN hcs hc hpos.1 hN2 hpos.2 schedule 0 (CSys.init.request request) s
      (Or.inl ⟨rfl, rfl⟩) hs
    rw [Nat.zero_add] at hinv
    rcases hinv with ⟨hn, rfl⟩ | ⟨j, k, hsb, hcb, hsrv, hmsg, htot, hconc, hreq, hresp,
      hdur, hps, hpo, hpp, hle, hfl, hlt, hsets, hres, _, hlinks, hn⟩
    · simp only [CSys.init, CSys.request, ClientProcess.new]
      refine ⟨by omega, by omega, by omega, trivial, trivial, fun h => absurd h (by omega)⟩
    · refine ⟨by omega, by omega, by omega, hreq, hresp, fun _ => ⟨hconc, htot⟩⟩
  · have h0 : min c N = 0 := by omega
    rcases CSys.exec_degenerate lib request ms rs cs size N c horder hserver hms hsize
      hrs hN hcs hc hN2 h0 schedule s hs with ⟨hsch, rfl⟩ | ⟨hsch, h1, h2, h3, h4, h5, h6⟩
    · subst hsch
      simp only [CSys.init, CSys.request, ClientProcess.new]
      simp
    · refine ⟨by omega, by omega, by omega, by omega, by omega, fun _ => ⟨by omega, h4⟩⟩

/-- Witness for C26: `requests = 2`, `concurrency = 1`, messages of 3 bytes,
after the client has handled the request and the server the first ping. -/
theorem client_in_flight_bound_witness :
    (CSys.init.request (runRequest "server" "2" "1" "xxx")).exec Library.sample
        [Pid.client, Pid.destination] =
      some { client := { server := serverPid, duration := true, message := "111",
                         requests := 1, responses := 0, totalRequests := 2,
                         concurrency := 1 },
             server := { links := [clientPid] },
             clientBox := [ClientEvent.message ⟨serverPid, "pong", "111"⟩],
             serverBox := [], pingsSent := 1, pingsReceived := 1,
             pongsSent := 1, pongsReceived := 0, sets := [],
             results := [RunResult.pending], aborted := false } ∧
    (1 : Nat) - 0 ≤ min 1 2 :=
  ⟨by decide,
    (client_in_flight_bound Library.sample (runRequest "server" "2" "1" "xxx")
      "xxx" "2" "1" 3 2 1 (List.Perm.refl _) (by decide) (by decide) rfl
      (by decide) rfl (by decide) rfl (by decide)
      [Pid.client, Pid.destination]
      { client := { server := serverPid, duration := true, message := "111",
                    requests := 1, responses := 0, totalRequests := 2,
                    concurrency := 1 },
        server := { links := [clientPid] },
        clientBox := [ClientEvent.message ⟨serverPid, "pong", "111"⟩],
        serverBox := [], pingsSent := 1, pingsReceived := 1,
        pongsSent := 1, pongsReceived := 0, sets := [],
        results := [RunResult.pending], aborted := false }
      (by decide)).2.2.1⟩

end Benchmarks

namespace Benchmarks

end Benchmarks

namespace Benchmarks

theorem DispatchSys.steps_add {T : Type} (a b : Nat) : ∀ (s : DispatchSys T),
    DispatchSys.steps (a + b) s = (DispatchSys.steps a s).bind (DispatchSys.steps b) := by
  induction a with
  | zero => intro s; simp [DispatchSys.steps]
  | succ a ih =>
    intro s
    have e : a + 1 + b = (a + b) + 1 := by omega
    rw [e]
    simp only [DispatchSys.steps]
    cases s.step with
    | none => rfl
    | some s1 => exact ih s1

end Benchmarks
namespace Benchmarks

theorem wrapLong_small (i : Nat) (h : (i : Int) + 1 ≤ 9223372036854775807) :
    wrapLong ((i : Int) + 1) = (i : Int) + 1 := by
  unfold wrapLong
  omega

theorem DispatchSys.step_atHandler_mid {T : Type} (n : Nat) (data : T) (i : Nat)
    (hmax : (n : Int) ≤ 9223372036854775807) (hi : i + 1 < n) :
    (DispatchSys.atHandler n data i).step = some (DispatchSys.atInner n data i) := by
  have hw := wrapLong_small i (by omega)
  have hlt : ¬ ((i : Int) + 1 ≥ (n : Int)) := by omega
  simp only [DispatchSys.step, DispatchSys.atHandler, DispatchProcess.handler, hw, hlt,
    if_false, List.foldl_cons, List.foldl_nil, DispatchSys.perform, List.nil_append,
    DispatchSys.atInner]

theorem DispatchSys.step_atHandler_last {T : Type} (n : Nat) (data : T) (i : Nat)
    (hmax : (n : Int) ≤ 9223372036854775807) (hi : i + 1 = n) :
    (DispatchSys.atHandler n data i).step = some (DispatchSys.done T n) := by
  have hw := wrapLong_small i (by omega)
  have hge : (i : Int) + 1 ≥ (n : Int) := by omega
  have hcount : (i : Int) + 1 = (n : Int) := by omega
  have hruns : n - 1 = i := by omega
  simp only [DispatchSys.step, DispatchSys.atHandler, DispatchProcess.handler, hw, hge,
    if_true, List.foldl_cons, List.foldl_nil, DispatchSys.perform, List.nil_append,
    DispatchSys.done, hruns]
  simp only [hcount, hi]

theorem DispatchSys.step_atInner {T : Type} (n : Nat) (data : T) (i : Nat) :
    (DispatchSys.atInner n data i).step = some (DispatchSys.atHandler n data (i + 1)) := by
  simp only [DispatchSys.step, DispatchSys.atInner, List.nil_append, DispatchSys.atHandler,
    Nat.cast_add, Nat.cast_one]

end Benchmarks
namespace Benchmarks

theorem DispatchSys.init_eq {T : Type} (n : Nat) (data : T) :
    DispatchSys.init (n : Int) data = DispatchSys.atHandler n data 0 := by
  simp only [DispatchSys.init, DispatchSys.atHandler, DispatchProcess.new, Nat.cast_zero]

theorem DispatchSys.steps_one {T : Type} (s s1 : DispatchSys T) (h1 : s.step = some s1) :
    DispatchSys.steps 1 s = some s1 := by
  show (match s.step with
    | none => none
    | some s1 => DispatchSys.steps 0 s1) = _
  rw [h1]
  rfl

theorem DispatchSys.steps_two {T : Type} (s s1 s2 : DispatchSys T)
    (h1 : s.step = some s1) (h2 : s1.step = some s2) :
    DispatchSys.steps 2 s = some s2 := by
  show (match s.step with
    | none => none
    | some s1 => DispatchSys.steps 1 s1) = _
  rw [h1]
  exact DispatchSys.steps_one s1 s2 h2

theorem DispatchSys.steps_none {T : Type} (k : Nat) (s : DispatchSys T)
    (h : s.step = none) : DispatchSys.steps (k + 1) s = none := by
  show (match s.step with
    | none => none
    | some s1 => DispatchSys.steps k s1) = _
  rw [h]

theorem DispatchSys.step_done (T : Type) (n : Nat) : (DispatchSys.done T n).step = none := by
  simp only [DispatchSys.step, DispatchSys.done]

theorem DispatchSys.steps_even {T : Type} (n : Nat) (data : T)
    (hmax : (n : Int) ≤ 9223372036854775807) : ∀ (i : Nat), i < n →
    DispatchSys.steps (2 * i) (DispatchSys.init (n : Int) data) =
      some (DispatchSys.atHandler n data i) := by
  intro i
  induction i with
  | zero =>
    intro _
    rw [DispatchSys.init_eq]
    exact Eq.refl (some (DispatchSys.atHandler n data 0))
  | succ i ih =>
    intro hi
    have e : 2 * (i + 1) = 2 * i + 2 := by omega
    rw [e, DispatchSys.steps_add, ih (by omega), Option.some_bind]
    exact DispatchSys.steps_two _ _ _ (DispatchSys.step_atHandler_mid n data i hmax hi)
      (DispatchSys.step_atInner n data i)

end Benchmarks
namespace Benchmarks

/-- C28: for every `repeat ≥ 1` (a `long`), after the single initial dispatch of
`handler`, the process executes `handler` exactly `repeat` times and then has
nothing left to execute: before its execution number `i + 1` the state is
`atHandler i` (`count = i`, promise not set); each execution but the last puts
exactly one dispatch of `_handler` in the mailbox (`atInner i`), whose completion
puts exactly one dispatch of `handler` with the same data there
(`atHandler (i + 1)`); the last execution, after `2 * repeat - 1` events in
all, sets the promise, once, with `count = repeat` (`done`). -/
theorem dispatch_defer_chain {T : Type} (n : Nat) (data : T) (h1 : 1 ≤ n)
    (hmax : (n : Int) ≤ 9223372036854775807) :
    (∀ i, i < n →
      DispatchSys.steps (2 * i) (DispatchSys.init (n : Int) data) =
        some (DispatchSys.atHandler n data i)) ∧
    (∀ i, i + 1 < n →
      DispatchSys.steps (2 * i + 1) (DispatchSys.init (n : Int) data) =
        some (DispatchSys.atInner n data i)) ∧
    DispatchSys.steps (2 * n - 1) (DispatchSys.init (n : Int) data) =
      some (DispatchSys.done T n) ∧
    (∀ k, 2 * n - 1 < k →
      DispatchSys.steps k (DispatchSys.init (n : Int) data) = none) ∧
    (DispatchSys.done T n).process.count = n ∧
    (DispatchSys.done T n).handlerRuns = n ∧
    (DispatchSys.done T n).sets.length = 1 := by
  have hfinal : DispatchSys.steps (2 * n - 1) (DispatchSys.init (n : Int) data) =
      some (DispatchSys.done T n) := by
    have e : 2 * n - 1 = 2 * (n - 1) + 1 := by omega
    rw [e, DispatchSys.steps_add, DispatchSys.steps_even n data hmax (n - 1) (by omega),
      Option.some_bind]
    exact DispatchSys.steps_one _ _
      (DispatchSys.step_atHandler_last n data (n - 1) hmax (by omega))
  refine ⟨DispatchSys.steps_even n data hmax, ?_, hfinal, ?_, rfl, rfl, rfl⟩
  · intro i hi
    rw [DispatchSys.steps_add, DispatchSys.steps_even n data hmax i (by omega),
      Option.some_bind]
    exact DispatchSys.steps_one _ _ (DispatchSys.step_atHandler_mid n data i hmax hi)
  · intro k hk
    have e : k = (2 * n - 1) + ((k - (2 * n - 1) - 1) + 1) := by omega
    rw [e, DispatchSys.steps_add, hfinal, Option.some_bind]
    exact DispatchSys.steps_none _ _ (DispatchSys.step_done T n)

/-- Witness for C28: `repeat = 3`: five events are executed, three of them
`handler`, and the promise is set once, with `count = 3`. -/
theorem dispatch_defer_chain_witness :
    (1 ≤ 3 ∧ ((3 : Nat) : Int) ≤ 9223372036854775807) ∧
    DispatchSys.steps (2 * 3 - 1) (DispatchSys.init ((3 : Nat) : Int) [42, 42]) =
      some { process := { repeatN := 3, count := 3 }, mailbox := [],
             sets := [3], handlerRuns := 3, _handlerRuns := 2 } ∧
    DispatchSys.steps 6 (DispatchSys.init ((3 : Nat) : Int) [42, 42]) = none :=
  ⟨⟨by decide, by decide⟩,
    (dispatch_defer_chain 3 [42, 42] (by decide) (by decide)).2.2.1,
    by decide⟩

end Benchmarks

namespace Benchmarks

end Benchmarks
